import Mathlib

/-!
# web-storage: the handlers and their collaborators

A shallow embedding of `handlers.Upload`, `handlers.LogIn`, `handlers.Payload`,
`handlers.SignUp` and `handlers.Delete` (src/handlers/handlers.go) and of
`middleware.Keys` (src/middleware/middleware.go), together with the library
functions they call (`path/filepath`, `strings`, `fmt`, `os`, `bcrypt`) and
the storage layer declared in src/models/models.go.

Conventions of the embedding:

* Go strings are byte sequences; the path functions only ever inspect the
  ASCII bytes `/` and `.`, so a string is modelled as a list of characters.
* The filesystem is a map from paths to contents together with the paths on
  which `os.Stat` and `SaveUploadedFile` fail. Paths are compared as strings
  (`Upload` only ever uses paths produced by `filepath.Join`) and directories
  are not tracked.
* The storage layer is the table of file records with the two `unique`
  columns of `models.File`.
* The counter `num` of the probing loop is a natural number: the 64-bit `int`
  of the source would need 2^63 files in one directory to overflow.
* `now` stands for the value of `time.Now()`. Calls of the logger change
  nothing the handler reads and are left out, except in `LogIn` and `SignUp`,
  whose log entries are part of what they are specified by; `Upload` is taken
  from the point where the multipart form has been parsed.
* A password is a string of characters whose length in bytes is that of its
  UTF-8 encoding. `bcrypt` is a parameter: its hash and its comparison are
  functions the handlers are given, and `GenerateFromPassword` refuses
  passwords of more than 72 bytes, as its documentation says.
* What `Keys` and `Delete` meet outside the data they are given (the key
  drawn, a removal that is refused, a deletion the database fails) is an
  argument of the model.
-/

namespace WebStorage

/-- A Go string. -/
abbrev GoString := List Char

/-! ## Library functions used by the handlers -/

/-- The Unix `os.IsPathSeparator`. -/
def isPathSeparator (c : Char) : Bool := c == '/'

/-- The call `fmt.Sprintf("%d", n)` for a non-negative `n`. -/
def sprintD (n : Nat) : GoString := Nat.toDigits 10 n

/-- The function `strings.HasSuffix`. -/
def HasSuffix (s suffix : GoString) : Bool :=
  decide (suffix.length ≤ s.length) && (s.drop (s.length - suffix.length) == suffix)

/-- The function `strings.TrimSuffix`: `s` without the trailing `suffix`, or
`s` itself when it does not end in `suffix`. -/
def TrimSuffix (s suffix : GoString) : GoString :=
  if HasSuffix s suffix then s.take (s.length - suffix.length) else s

/-- The scan of `filepath.Ext`, from the last byte towards the first: `rev`
is the part not yet visited (reversed), `acc` the bytes already passed. -/
def extScan : List Char → List Char → GoString
  | [], _ => []
  | c :: rest, acc =>
    if isPathSeparator c then []
    else if c = '.' then c :: acc
    else extScan rest (c :: acc)

/-- The function `filepath.Ext`: the suffix beginning at the final dot in the
final element of `path`, empty when there is no dot. -/
def Ext (path : GoString) : GoString := extScan path.reverse []

/-- The first loop of `filepath.Base`: strip trailing separators. -/
def stripTrailingSeparators (path : GoString) : GoString :=
  (path.reverse.dropWhile isPathSeparator).reverse

/-- The second loop of `filepath.Base`: what follows the last separator. -/
def lastElement (path : GoString) : GoString :=
  (path.reverse.takeWhile (fun c => !isPathSeparator c)).reverse

/-- The function `filepath.Base` (Unix, no volume names). -/
def Base (path : GoString) : GoString :=
  if path = [] then ['.']
  else
    let p := lastElement (stripTrailingSeparators path)
    if p = [] then ['/'] else p

/-- The elements of a path: the runs between separators (empty runs too). -/
def splitSep : GoString → List GoString
  | [] => [[]]
  | c :: cs =>
    if isPathSeparator c then [] :: splitSep cs
    else
      match splitSep cs with
      | [] => [[c]]
      | e :: es => (c :: e) :: es

/-- One element of the path read by `filepath.Clean`; `out` holds the
elements kept so far, the last one first. An empty element and `.` are
dropped; `..` removes the element before it, is dropped at the root of a
rooted path, and is kept where a relative path has nothing left to remove;
any other element is kept. -/
def cleanStep (rooted : Bool) (out : List GoString) (e : GoString) : List GoString :=
  if e = [] ∨ e = ['.'] then out
  else if e = ['.', '.'] then
    match out with
    | [] => if rooted then [] else [e]
    | top :: below => if top = ['.', '.'] then e :: out else below
  else e :: out

/-- The function `strings.Join`. -/
def stringsJoin : List GoString → GoString → GoString
  | [], _ => []
  | [e], _ => e
  | e :: es, sep => e ++ sep ++ stringsJoin es sep

/-- The end of `filepath.Clean`: the kept elements separated by single
separators, after the root if the path is rooted; `.` if that is empty. -/
def cleanRender (rooted : Bool) (out : List GoString) : GoString :=
  let body := (if rooted then ['/'] else []) ++ stringsJoin out.reverse ['/']
  if body = [] then ['.'] else body

/-- The function `filepath.Clean` (Unix): the shortest equivalent path by
purely lexical processing. -/
def Clean (path : GoString) : GoString :=
  match path with
  | [] => ['.']
  | c :: _ =>
    let rooted := isPathSeparator c
    cleanRender rooted ((splitSep path).foldl (cleanStep rooted) [])

/-- The function `filepath.Join` (Unix): the elements from the first
non-empty one on, separated by `/`, then cleaned. -/
def Join : List GoString → GoString
  | [] => []
  | e :: es => if e = [] then Join es else Clean (stringsJoin (e :: es) ['/'])

/-! ## Collaborators: the filesystem and the storage layer -/

/-- What `os.Stat` reports about a path: no error, an error for which
`os.IsNotExist` holds, or any other error. -/
inductive StatResult
  | ok
  | notExist
  | otherErr
deriving DecidableEq, Repr

/-- The filesystem as the handlers see it: the bytes stored under each path,
the paths whose probe fails for a reason other than absence (permission
denied, a parent that is not a directory), and the paths that cannot be
written. -/
structure FileSys where
  data : GoString → Option (List Nat)
  statErr : GoString → Bool
  saveErr : GoString → Bool

/-- The call `os.Stat(path)`, reduced to its error. -/
def FileSys.Stat (fs : FileSys) (path : GoString) : StatResult :=
  if fs.statErr path then StatResult.otherErr
  else if (fs.data path).isSome then StatResult.ok
  else StatResult.notExist

/-- The call `c.SaveUploadedFile(file, dst)`: `none` is its error, in which
case nothing is stored under `dst`. -/
def FileSys.SaveUploadedFile (fs : FileSys) (content : List Nat) (dst : GoString) :
    Option FileSys :=
  if fs.saveErr dst then none
  else some { fs with data := fun q => if q = dst then some content else fs.data q }

/-- A filesystem holding exactly the paths of `existing`, every probe of which
either succeeds or reports not-found. -/
def FileSys.ofPaths (existing : List GoString) : FileSys where
  data := fun p => if p ∈ existing then some [] else none
  statErr := fun _ => false
  saveErr := fun _ => false

/-- The record `models.User`. -/
structure User where
  ID : Nat
  Username : GoString
  Password : GoString
deriving DecidableEq, Repr

/-- The record `models.File`; `Name` and `Path` are declared unique. -/
structure File where
  ID : Nat
  UserID : Nat
  ListName : GoString
  Name : GoString
  Extension : GoString
  Path : GoString
  Date : Nat
  Size : Int
deriving DecidableEq, Repr

/-- The tables behind `db.C`; `fileSeq` is the last primary key handed out. -/
structure DB where
  users : List User
  files : List File
  fileSeq : Nat
deriving DecidableEq, Repr

/-- The call `db.C.Create(&entry)` for a file record: `none` is `dbReq.Error`,
raised when `Name` or `Path` is already taken (the owner always exists, its id
comes from a verified token). On success the record is stored under a fresh
primary key. -/
def DB.Create (db : DB) (entry : File) : Option DB :=
  if db.files.any (fun f => decide (f.Name = entry.Name) || decide (f.Path = entry.Path)) then none
  else some { db with
    files := db.files ++ [{ entry with ID := db.fileSeq + 1 }]
    fileSeq := db.fileSeq + 1 }

/-- A `multipart.FileHeader`: the name and size the client sent, and the
bytes `SaveUploadedFile` copies. -/
structure FileHeader where
  Filename : GoString
  Size : Int
  content : List Nat
deriving DecidableEq, Repr

/-! ## handlers.Upload, one task after the other -/

/-- An effect on the collaborators, in the order it happened. -/
inductive Event
  | created (entry : File)
  | rejected (entry : File)
  | saved (path : GoString)
  | saveFailed (path : GoString)
deriving DecidableEq, Repr

/-- The state an upload works on: the two collaborators, the variables
`loadList` and `status` of `Upload`, the number of values held by
`chSemaphore`, and the effects so far. -/
structure World where
  fs : FileSys
  db : DB
  loadList : List GoString
  status : Nat
  chSemaphore : Nat
  trace : List Event

/-- The constant `http.StatusOK`. -/
def StatusOK : Nat := 200

/-- The constant `http.StatusConflict`. -/
def StatusConflict : Nat := 409

/-- The directory of a user: `userDir` in `Upload`. -/
def userDir (testMode : Bool) (userID : Nat) : GoString :=
  if testMode then Join ["./upload/test/".toList, sprintD userID]
  else Join ["./upload/".toList, sprintD userID]

/-- The path `Upload` tries after a collision: `stem(num)ext` in `userDir`. -/
def numbered (userDir fileName fileExt : GoString) (num : Nat) : GoString :=
  let numStr := ['('] ++ sprintD num ++ [')']
  let numName := fileName ++ numStr
  let numPath := numName ++ fileExt
  Join [userDir, numPath]

/-- The probing loop of `Upload` (lines 300-317), at most `fuel` probes: it
returns `filePath` and `fileBase` as they are when the loop is left, which it
is on the first probe that reports an error of either kind. -/
def probeLoop (fs : FileSys) (userDir fileName fileExt : GoString) :
    Nat → GoString → GoString → Nat → Option (GoString × GoString)
  | 0, _, _, _ => none
  | fuel + 1, filePath, fileBase, num =>
    match fs.Stat filePath with
    | StatResult.notExist => some (filePath, fileBase)
    | StatResult.otherErr => some (filePath, fileBase)
    | StatResult.ok =>
      let filePath := numbered userDir fileName fileExt num
      let fileBase := Base filePath
      probeLoop fs userDir fileName fileExt fuel filePath fileBase (num + 1)

/-- Lines 295-317 of `Upload`: the path and base name a file is stored under. -/
def resolve (fs : FileSys) (userDir : GoString) (filename : GoString) (fuel : Nat) :
    Option (GoString × GoString) :=
  let fileBase := Base filename
  let filePath := Join [userDir, fileBase]
  let fileExt := Ext fileBase
  let fileName := TrimSuffix fileBase fileExt
  probeLoop fs userDir fileName fileExt fuel filePath fileBase 1

/-- The record `Upload` builds (lines 324-332). -/
def mkEntry (userID now : Nat) (file : FileHeader) (fileBase filePath fileExt : GoString) :
    File :=
  { ID := 0
    UserID := userID
    ListName := TrimSuffix fileBase fileExt
    Name := ['/'] ++ sprintD userID ++ ['/'] ++ fileBase
    Extension := fileExt
    Path := filePath
    Date := now
    Size := file.Size }

/-- The body of the goroutine `Upload` starts for one file, run without
interruption. The slot of `chSemaphore` is given back on the last line only,
which the early return after a failed `Create` does not reach; the error of
`SaveUploadedFile` is not looked at. -/
def uploadTask (fuel now userID : Nat) (userDir : GoString) (file : FileHeader) (w : World) :
    Option World :=
  match resolve w.fs userDir file.Filename fuel with
  | none => none
  | some (filePath, fileBase) =>
    let fileExt := Ext (Base file.Filename)
    let entry := mkEntry userID now file fileBase filePath fileExt
    match w.db.Create entry with
    | none =>
      some { w with
        status := StatusConflict
        loadList := w.loadList ++ [fileBase ++ " FAILED!".toList]
        trace := w.trace ++ [Event.rejected entry] }
    | some db =>
      match w.fs.SaveUploadedFile file.content filePath with
      | none =>
        some { w with
          db := db
          loadList := w.loadList ++ [fileBase]
          chSemaphore := w.chSemaphore - 1
          trace := w.trace ++ [Event.created entry, Event.saveFailed filePath] }
      | some fs =>
        some { w with
          fs := fs
          db := db
          loadList := w.loadList ++ [fileBase]
          chSemaphore := w.chSemaphore - 1
          trace := w.trace ++ [Event.created entry, Event.saved filePath] }

/-- What `c.JSON(status, gin.H{"message": message})` sends. -/
structure Response where
  status : Nat
  message : GoString
deriving DecidableEq, Repr

/-- The loop over `files` (lines 286-348) in one of its schedules: the one in
which every goroutine has run to its end before the next file is taken. For a
batch of one file this is the only order there is; for longer batches the
goroutines interleave, which is what `step` and `run` describe. `none` when a
probing loop needs more than `fuel` probes, and when `chSemaphore <- 1` finds
the channel full: no task is left that could take a value out. -/
def uploadLoop (fuel now userID : Nat) (userDir : GoString) :
    List FileHeader → World → Option World
  | [], w => some w
  | file :: files, w =>
    if w.chSemaphore < 3 then
      let w := { w with chSemaphore := w.chSemaphore + 1 }
      match uploadTask fuel now userID userDir file w with
      | none => none
      | some w => uploadLoop fuel now userID userDir files w
    else none

/-- The loop building `message` (lines 352-358); `i` is the index of the
head of the remaining list. -/
def messageLoop (length : Nat) : Nat → List GoString → GoString → GoString
  | _, [], message => message
  | i, val :: rest, message =>
    if i < length - 1 then messageLoop length (i + 1) rest (message ++ val ++ ", ".toList)
    else messageLoop length (i + 1) rest (message ++ val)

/-- Lines 349-362 of `Upload`: the response built from `loadList` and
`status` once `tasksGroup.Wait()` has returned. -/
def respond (w : World) : Response :=
  let message := messageLoop w.loadList.length 0 w.loadList "Loaded files: ".toList
  let status := if w.status = 0 then StatusOK else w.status
  { status := status, message := message }

/-- The state `Upload` starts from: nothing loaded, `status` zero, the
semaphore empty. -/
def World.init (fs : FileSys) (db : DB) : World :=
  { fs := fs, db := db, loadList := [], status := 0, chSemaphore := 0, trace := [] }

/-- The handler `Upload` on an already parsed form in the schedule of
`uploadLoop`: its tasks run one after the other in the order of `files`. -/
def Upload (fuel now : Nat) (testMode : Bool) (userID : Nat) (files : List FileHeader)
    (fs : FileSys) (db : DB) : Option (Response × World) :=
  match uploadLoop fuel now userID (userDir testMode userID) files (World.init fs db) with
  | none => none
  | some w => some (respond w, w)

/-! ## handlers.Upload, its tasks interleaved

The goroutines of one upload as a transition system. A step is either the
coordinator taking the next file (`tasksGroup.Add(1)`, `chSemaphore <- 1`,
`go func`) or one task doing the next of its actions on the shared state: one
probe, the `Create`, the `SaveUploadedFile`, the read and the write that make
up `loadList = append(loadList, …)`, the receive `<-ch`. -/

/-- Where a task stands: inside the probing loop, before `Create`, before
`SaveUploadedFile`, before reading `loadList` in the `append` (on the failure
branch or not), before assigning it (with the slice it read), before `<-ch`,
or returned. -/
inductive Phase
  | probing
  | persist
  | save
  | appendRead (failed : Bool)
  | appendWrite (failed : Bool) (seen : List GoString)
  | release
  | done
deriving DecidableEq, Repr

/-- One goroutine: its argument `file`, its variables `fileBase`, `filePath`
and `num`, and where it stands. -/
structure Task where
  file : FileHeader
  fileBase : GoString
  filePath : GoString
  num : Nat
  phase : Phase
deriving DecidableEq, Repr

/-- The variable `fileExt`, assigned once (line 297). -/
def Task.fileExt (t : Task) : GoString := Ext (Base t.file.Filename)

/-- The variable `fileName`, assigned once (line 298). -/
def Task.fileName (t : Task) : GoString := TrimSuffix (Base t.file.Filename) t.fileExt

/-- Whether the task has not returned yet. -/
def Task.running (t : Task) : Bool :=
  match t.phase with
  | Phase.done => false
  | _ => true

/-- A goroutine as it starts (lines 295-299). -/
def Task.start (userDir : GoString) (file : FileHeader) : Task :=
  { file := file
    fileBase := Base file.Filename
    filePath := Join [userDir, Base file.Filename]
    num := 1
    phase := Phase.probing }

/-- The next action of a task on the shared state; `none` once it has
returned. After a failed `Create` the task returns right after the `append`
(line 342), without the receive from `ch`. On the other branch the receive is
the last statement of the body: the goroutine has returned once it is done. -/
def taskStep (now userID : Nat) (userDir : GoString) (t : Task) (w : World) :
    Option (Task × World) :=
  match t.phase with
  | Phase.probing =>
    match w.fs.Stat t.filePath with
    | StatResult.notExist => some ({ t with phase := Phase.persist }, w)
    | StatResult.otherErr => some ({ t with phase := Phase.persist }, w)
    | StatResult.ok =>
      let filePath := numbered userDir t.fileName t.fileExt t.num
      some ({ t with filePath := filePath, fileBase := Base filePath, num := t.num + 1 }, w)
  | Phase.persist =>
    let entry := mkEntry userID now t.file t.fileBase t.filePath t.fileExt
    match w.db.Create entry with
    | none =>
      some ({ t with phase := Phase.appendRead true },
        { w with status := StatusConflict, trace := w.trace ++ [Event.rejected entry] })
    | some db =>
      some ({ t with phase := Phase.save },
        { w with db := db, trace := w.trace ++ [Event.created entry] })
  | Phase.save =>
    match w.fs.SaveUploadedFile t.file.content t.filePath with
    | none =>
      some ({ t with phase := Phase.appendRead false },
        { w with trace := w.trace ++ [Event.saveFailed t.filePath] })
    | some fs =>
      some ({ t with phase := Phase.appendRead false },
        { w with fs := fs, trace := w.trace ++ [Event.saved t.filePath] })
  | Phase.appendRead failed =>
    some ({ t with phase := Phase.appendWrite failed w.loadList }, w)
  | Phase.appendWrite failed seen =>
    if failed then
      some ({ t with phase := Phase.done },
        { w with loadList := seen ++ [t.fileBase ++ " FAILED!".toList] })
    else
      some ({ t with phase := Phase.release }, { w with loadList := seen ++ [t.fileBase] })
  | Phase.release => some ({ t with phase := Phase.done }, { w with chSemaphore := w.chSemaphore - 1 })
  | Phase.done => none

/-- An upload under way: the files not yet taken from `files`, the goroutines
started so far, the shared state. -/
structure Sys where
  remaining : List FileHeader
  tasks : List Task
  world : World

/-- Who moves: the coordinator, or the `i`-th goroutine. -/
inductive Action
  | launch
  | advance (i : Nat)
deriving DecidableEq, Repr

/-- One step of the upload; `none` when the chosen party cannot move: the
coordinator when no file is left or `chSemaphore` holds three values, a
goroutine that has returned or was never started. -/
def step (now userID : Nat) (userDir : GoString) (s : Sys) : Action → Option Sys
  | Action.launch =>
    match s.remaining with
    | [] => none
    | file :: rest =>
      if s.world.chSemaphore < 3 then
        some { remaining := rest
               tasks := s.tasks ++ [Task.start userDir file]
               world := { s.world with chSemaphore := s.world.chSemaphore + 1 } }
      else none
  | Action.advance i =>
    match s.tasks[i]? with
    | none => none
    | some t =>
      match taskStep now userID userDir t s.world with
      | none => none
      | some (t2, w) => some { s with tasks := s.tasks.set i t2, world := w }

/-- The steps of a schedule, one after the other. -/
def run (now userID : Nat) (userDir : GoString) : Sys → List Action → Option Sys
  | s, [] => some s
  | s, a :: rest =>
    match step now userID userDir s a with
    | none => none
    | some s2 => run now userID userDir s2 rest

/-- The upload of `files` before its first step. -/
def Sys.init (files : List FileHeader) (fs : FileSys) (db : DB) : Sys :=
  { remaining := files, tasks := [], world := World.init fs db }

/-- The number of goroutines started and not yet returned. -/
def Sys.inFlight (s : Sys) : Nat := s.tasks.countP Task.running

/-- Whether `tasksGroup.Wait()` returns: every file was taken and every
goroutine has returned. -/
def Sys.finished (s : Sys) : Bool := s.remaining.isEmpty && s.tasks.all (fun t => !t.running)

/-- The next `k` actions of one goroutine, nothing else moving in between. -/
def taskSteps (now userID : Nat) (userDir : GoString) :
    Nat → Task → World → Option (Task × World)
  | 0, t, w => some (t, w)
  | k + 1, t, w =>
    match taskStep now userID userDir t w with
    | none => none
    | some (t2, w2) => taskSteps now userID userDir k t2 w2

/-! ## The probing loop, with its probes recorded -/

/-- The arguments of `os.Stat` in the probing loop of `Upload`, in the order
of the calls: the loop of `probeLoop`, collecting the paths it probes. -/
def probeCalls (fs : FileSys) (userDir fileName fileExt : GoString) :
    Nat → GoString → Nat → List GoString
  | 0, _, _ => []
  | fuel + 1, filePath, num =>
    match fs.Stat filePath with
    | StatResult.notExist => [filePath]
    | StatResult.otherErr => [filePath]
    | StatResult.ok =>
      filePath :: probeCalls fs userDir fileName fileExt fuel
        (numbered userDir fileName fileExt num) (num + 1)

/-- The values of `num` the probing loop formats into a path, in order. -/
def probeCounters (fs : FileSys) (userDir fileName fileExt : GoString) :
    Nat → GoString → Nat → List Nat
  | 0, _, _ => []
  | fuel + 1, filePath, num =>
    match fs.Stat filePath with
    | StatResult.notExist => []
    | StatResult.otherErr => []
    | StatResult.ok =>
      num :: probeCounters fs userDir fileName fileExt fuel
        (numbered userDir fileName fileExt num) (num + 1)

/-! ## handlers.LogIn, handlers.Payload, handlers.SignUp -/

/-- The length `len(s)` of a Go string: its number of bytes in UTF-8. -/
def byteLen (s : GoString) : Nat := (s.map Char.utf8Size).sum

/-- The function `checkPass` after the length test: the loop over the runes
of the password with its four flags; runes are compared by their code
points. -/
def checkPassLoop : GoString → Bool → Bool → Bool → Bool → Bool
  | [], hasLower, hasUpper, hasDigit, hasSpecial =>
    hasLower && hasUpper && hasDigit && hasSpecial
  | char :: rest, hasLower, hasUpper, hasDigit, hasSpecial =>
    if 'a'.toNat ≤ char.toNat ∧ char.toNat ≤ 'z'.toNat then
      checkPassLoop rest true hasUpper hasDigit hasSpecial
    else if 'A'.toNat ≤ char.toNat ∧ char.toNat ≤ 'Z'.toNat then
      checkPassLoop rest hasLower true hasDigit hasSpecial
    else if '0'.toNat ≤ char.toNat ∧ char.toNat ≤ '9'.toNat then
      checkPassLoop rest hasLower hasUpper true hasSpecial
    else if char.toNat < 32 ∨ char.toNat > 126 then false
    else checkPassLoop rest hasLower hasUpper hasDigit true

/-- The function `checkPass`. A password is a string of characters here; in a
Go string that is not valid UTF-8 the loop reads the offending byte as U+FFFD,
which it rejects like every rune above 126. -/
def checkPass (password : GoString) : Bool :=
  if byteLen password < 16 then false
  else checkPassLoop password false false false false

/-- The package `golang.org/x/crypto/bcrypt` as the handlers use it: the hash
`GenerateFromPassword` computes for a password (with the salt it draws), and
whether `CompareHashAndPassword` accepts a password for a hash. -/
structure Bcrypt where
  digest : GoString → GoString
  accepts : GoString → GoString → Bool

/-- The call `bcrypt.GenerateFromPassword([]byte(password), bcrypt.DefaultCost)`:
`none` is its error. By its documentation the function does not accept a
password longer than 72 bytes, the longest bcrypt operates on. -/
def Bcrypt.GenerateFromPassword (b : Bcrypt) (password : GoString) : Option GoString :=
  if byteLen password > 72 then none else some (b.digest password)

/-- The call `bcrypt.CompareHashAndPassword(hashedPassword, password)`: `true`
when it returns no error. -/
def Bcrypt.CompareHashAndPassword (b : Bcrypt) (hashedPassword password : GoString) : Bool :=
  b.accepts hashedPassword password

/-- What `c.ShouldBind(&vals)` leaves in the fields of a `models.User` the
handlers read, and whether it returned an error. -/
structure Binding where
  Username : GoString
  Password : GoString
  err : Bool
deriving DecidableEq, Repr

/-- The level `logrus.ErrorLevel`. -/
def ErrorLevel : Nat := 2

/-- The level `logrus.DebugLevel`. -/
def DebugLevel : Nat := 5

/-- A call of the logger: the level of the call, the fields given to
`WithFields`, and the message up to the text of the error that may follow. -/
structure LogEntry where
  level : Nat
  fields : List (GoString × GoString)
  message : GoString
deriving DecidableEq, Repr

/-- The entries a logger configured with level `logLevel` writes to its
output: logrus writes an entry when the logger's level is at least the
entry's. -/
def written (logLevel : Nat) (calls : List LogEntry) : List LogEntry :=
  calls.filter (fun e => decide (e.level ≤ logLevel))

/-- The errors of gin-jwt the authenticator returns. -/
inductive AuthError
  | ErrMissingLoginValues
  | ErrFailedAuthentication
deriving DecidableEq, Repr

/-- A value of type `interface{}` as the authenticator returns it and the
payload function receives it: `nil`, a string, or a `*models.User`, which is
a pointer to a record or the nil pointer. -/
inductive Data
  | nil
  | str (s : GoString)
  | userPtr (v : Option User)
deriving DecidableEq, Repr

/-- The first record of `users` with the given name: the query
`db.C.Where("username = ?", username).First(&entry)`, `none` being its
error. -/
def DB.FirstUser (db : DB) (username : GoString) : Option User :=
  db.users.find? (fun u => decide (u.Username = username))

/-- The function `LogIn`: the value and the error it returns, and the calls
of the logger it makes. -/
def LogIn (bc : Bcrypt) (db : DB) (c : Binding) : Data × Option AuthError × List LogEntry :=
  if c.err then
    (Data.str [], some AuthError.ErrMissingLoginValues,
      [{ level := ErrorLevel
         fields := [("username".toList, c.Username), ("password".toList, c.Password)]
         message := "spa-api/handlers.LogIn() parsing error:".toList }])
  else
    let username := c.Username
    let password := c.Password
    let log : List LogEntry :=
      [{ level := DebugLevel
         fields := [("username".toList, username), ("password".toList, password)]
         message := "spa-api/handlers.LogIn() login values:".toList }]
    match db.FirstUser username with
    | none => (Data.nil, some AuthError.ErrFailedAuthentication, log)
    | some entry =>
      if bc.CompareHashAndPassword entry.Password password then
        (Data.userPtr (some entry), none, log)
      else (Data.nil, some AuthError.ErrFailedAuthentication, log)

/-- The type `jwt.MapClaims` with the values `Payload` stores: the entries of
the map. -/
abbrev MapClaims := List (GoString × Nat)

/-- The function `Payload`; `none` is the run-time panic of reading `v.ID`
through a nil pointer. -/
def Payload (data : Data) : Option MapClaims :=
  match data with
  | Data.userPtr (some v) => some [("id".toList, v.ID)]
  | Data.userPtr none => none
  | _ => some []

/-- The call `db.C.Create(&entry)` for a user record: `none` is
`dbReq.Error`, raised when the name is already taken. On success the record
is stored under a fresh primary key. -/
def DB.CreateUser (db : DB) (entry : User) : Option DB :=
  if db.users.any (fun u => decide (u.Username = entry.Username)) then none
  else some { db with
    users := db.users ++ [{ entry with ID := (db.users.map (fun u => u.ID)).foldl max 0 + 1 }] }

/-- The status `http.StatusBadRequest`. -/
def StatusBadRequest : Nat := 400

/-- The status `http.StatusInternalServerError`. -/
def StatusInternalServerError : Nat := 500

/-- The message `SignUp` sends for a password `checkPass` refuses. -/
def passwordRules : GoString :=
  ("\n\t\t\t\tThe password must be at least 16 characters long, contain at\n" ++
    "\t\t\t\tleast one lowercase letter, one uppercase letter, one number,\n" ++
    "\t\t\t\tand one special character.\n\t\t\t").toList

/-- The function `SignUp`: the response it sends, the database it leaves, and
the calls of the logger it makes. -/
def SignUp (bc : Bcrypt) (db : DB) (c : Binding) : Response × DB × List LogEntry :=
  if c.err then
    ({ status := StatusBadRequest, message := "Failed to register. Fields missing.".toList }, db,
      [{ level := ErrorLevel
         fields := [("username".toList, c.Username), ("password".toList, c.Password)]
         message := "spa-api/handlers.SignUp() parsing error:".toList }])
  else
    let user := c.Username
    let pass := c.Password
    let log : List LogEntry :=
      [{ level := DebugLevel
         fields := [("username".toList, user), ("password".toList, pass)]
         message := "spa-api/handlers.SignUp() register data:".toList }]
    if user = [] then
      ({ status := StatusBadRequest, message := "Fields cannot be empty.".toList }, db, log)
    else if !checkPass pass then
      ({ status := StatusBadRequest, message := passwordRules }, db, log)
    else
      match bc.GenerateFromPassword pass with
      | none =>
        ({ status := StatusInternalServerError
           message := "Failed to register. Password problem.".toList }, db,
          log ++ [{ level := ErrorLevel
                    fields := [("password".toList, pass)]
                    message := "spa-api/handlers.SignUp() bcrypt hashing error:".toList }])
      | some hashedPass =>
        let entry : User := { ID := 0, Username := user, Password := hashedPass }
        match db.CreateUser entry with
        | none =>
          ({ status := StatusConflict
             message := "Failed to register. This user exists.".toList }, db, log)
        | some db1 =>
          ({ status := StatusOK, message := "Success registration.".toList }, db1, log)

/-! ## middleware.Keys -/

/-- The call `os.Remove(name)`: `none` is its error, raised when nothing is
stored under `name` and when the removal is refused, which it is for the
paths of `removeErr`. -/
def FileSys.Remove (fs : FileSys) (removeErr : GoString → Bool) (name : GoString) :
    Option FileSys :=
  if (fs.data name).isNone || removeErr name then none
  else some { fs with data := fun q => if q = name then none else fs.data q }

/-- The call `os.WriteFile(name, data, perm)`: `none` is its error, in which
case nothing is stored under `name`. -/
def FileSys.WriteFile (fs : FileSys) (name : GoString) (data : List Nat) : Option FileSys :=
  if fs.saveErr name then none
  else some { fs with data := fun q => if q = name then some data else fs.data q }

/-- What a run of `Keys` meets outside the filesystem: the key
`rsa.GenerateKey` draws (`none` is its error), the PEM block of a private
key, the PEM block of its public key (`none` is the error of
`x509.MarshalPKIXPublicKey`), and the paths whose removal is refused. -/
structure KeyEnv where
  GenerateKey : Option Nat
  privPEM : Nat → List Nat
  pubPEM : Nat → Option (List Nat)
  removeErr : GoString → Bool

/-- A call `Keys` makes that removes, generates or writes. -/
inductive KeyOp
  | Remove (name : GoString)
  | GenerateKey
  | WriteFile (name : GoString)
deriving DecidableEq, Repr

/-- The function `Keys`: the filesystem it leaves and the removing,
generating and writing calls it made. The results of `os.Remove` and
`os.WriteFile` are not looked at. -/
def Keys (env : KeyEnv) (fs : FileSys) : FileSys × List KeyOp :=
  let check := 0
  let check :=
    match fs.Stat "keys/priv.pem".toList with
    | StatResult.notExist => check + 1
    | _ => check
  let check :=
    match fs.Stat "keys/pub.pem".toList with
    | StatResult.notExist => check + 1
    | _ => check
  if check = 0 then (fs, [])
  else
    let fs := (fs.Remove env.removeErr "keys/priv.pem".toList).getD fs
    let fs := (fs.Remove env.removeErr "keys/pub.pem".toList).getD fs
    let removed := [KeyOp.Remove "keys/priv.pem".toList, KeyOp.Remove "keys/pub.pem".toList]
    match env.GenerateKey with
    | none => (fs, removed ++ [KeyOp.GenerateKey])
    | some priv =>
      let privPEM := env.privPEM priv
      match env.pubPEM priv with
      | none => (fs, removed ++ [KeyOp.GenerateKey])
      | some pubPEM =>
        let fs := (fs.WriteFile "keys/priv.pem".toList privPEM).getD fs
        let fs := (fs.WriteFile "keys/pub.pem".toList pubPEM).getD fs
        (fs, removed ++ [KeyOp.GenerateKey, KeyOp.WriteFile "keys/priv.pem".toList,
          KeyOp.WriteFile "keys/pub.pem".toList])

/-! ## handlers.Delete -/

/-- What `c.ShouldBind(&delVals)` leaves in the field of a `models.File` that
`Delete` reads, and whether it returned an error. -/
structure DeleteBinding where
  ID : Nat
  err : Bool
deriving DecidableEq, Repr

/-- The query `db.C.First(&entry, "id = ? AND user_id = ?", id, userID)`:
`none` is its error. -/
def DB.FirstFile (db : DB) (id userID : Nat) : Option File :=
  db.files.find? (fun f => decide (f.ID = id) && decide (f.UserID = userID))

/-- The call `db.C.Unscoped().Delete(&entry)`: the record with the primary key
of `entry` is deleted for good; `none` is the error of the call, in which
case the records stay as they are. Whether the call fails is up to the
database: `deleteErr`. -/
def DB.Delete (db : DB) (deleteErr : Bool) (entry : File) : Option DB :=
  if deleteErr then none
  else some { db with files := db.files.filter (fun f => !decide (f.ID = entry.ID)) }

/-- The function `Delete` for the caller `userID`: the response it writes
(`none` when it returns without writing one), the filesystem and the
database it leaves. The calls of the logger are left out. -/
def Delete (removeErr : GoString → Bool) (deleteErr : Bool) (userID : Nat) (c : DeleteBinding)
    (fs : FileSys) (db : DB) : Option Response × FileSys × DB :=
  if c.err then
    (some { status := StatusBadRequest, message := "Cannot delete a file.".toList }, fs, db)
  else
    match db.FirstFile c.ID userID with
    | none =>
      (some { status := StatusBadRequest, message := "Can't find an entry.".toList }, fs, db)
    | some entry =>
      match fs.Remove removeErr entry.Path with
      | none => (none, fs, db)
      | some fs1 =>
        let db1 := (db.Delete deleteErr entry).getD db
        (some { status := StatusOK, message := [] }, fs1, db1)

/-- The status the client receives: the one the handler wrote, and 200, with
which gin's response writer starts, when the handler wrote none. -/
def statusSent (r : Option Response) : Nat :=
  match r with
  | some resp => resp.status
  | none => StatusOK

/-! ## Concrete inputs -/

/-- A database in which user 1 already has a record named `/1/a.txt`. -/
def dbTaken : DB :=
  { users := [], fileSeq := 1
    files := [{ ID := 1, UserID := 1, ListName := "a".toList, Name := "/1/a.txt".toList,
                Extension := ".txt".toList, Path := "upload/1/b.txt".toList, Date := 0,
                Size := 1 }] }

/-- A one-byte upload named `a.txt`. -/
def fileA : FileHeader := { Filename := "a.txt".toList, Size := 1, content := [7] }

/-- The upload of `TestUpload`: `test.file`, 77344 bytes long. -/
def testFile : FileHeader := { Filename := "test.file".toList, Size := 77344, content := [1, 2, 3] }

/-- A database without any record. -/
def dbEmpty : DB := { users := [], files := [], fileSeq := 0 }

/-- A one-byte upload named `b.txt`. -/
def fileB : FileHeader := { Filename := "b.txt".toList, Size := 1, content := [8] }

/-- A filesystem without files in which nothing can be written. -/
def fsUnwritable : FileSys :=
  { data := fun _ => none, statErr := fun _ => false, saveErr := fun _ => true }

/-- A one-byte upload named `c.txt`. -/
def fileC : FileHeader := { Filename := "c.txt".toList, Size := 1, content := [9] }

/-- A one-byte upload named `x.txt`. -/
def fileX : FileHeader := { Filename := "x.txt".toList, Size := 1, content := [5] }

/-- A schedule: the `i`-th goroutine moves `n` times in a row. -/
def moves (i n : Nat) : List Action := List.replicate n (Action.advance i)

/-! ## Concrete inputs for the account handlers -/

/-- A stand-in for bcrypt in the examples: the hash is the password reversed
behind a marker, and a password is accepted for the hash it produces. -/
def toyBcrypt : Bcrypt where
  digest := fun p => "$2a$".toList ++ p.reverse
  accepts := fun h p => decide (h = "$2a$".toList ++ p.reverse)

/-- The password the tests register with. -/
def goodPass : GoString := "abcdEFGH1234!@#$".toList

/-- A password of 73 characters that meets the password rules. -/
def longPass : GoString :=
  "aB!73Chars73Chars73Chars73Chars73Chars73Chars73Chars73Chars73Chars73Chars".toList

/-- A database with the user `testuser`, registered with `goodPass`. -/
def dbOneUser : DB :=
  { users := [{ ID := 1, Username := "testuser".toList,
                Password := toyBcrypt.digest goodPass }],
    files := [], fileSeq := 0 }

/-! ## Concrete inputs for key generation and deletion -/

/-- A run of `Keys` in which key 7 is drawn, both encodings succeed and no
removal is refused. -/
def keyEnv : KeyEnv :=
  { GenerateKey := some 7
    privPEM := fun k => [1, k]
    pubPEM := fun k => some [2, k]
    removeErr := fun _ => false }

/-- A run of `Keys` in which another key, 8, is drawn. -/
def keyEnv2 : KeyEnv :=
  { GenerateKey := some 8
    privPEM := fun k => [1, k]
    pubPEM := fun k => some [2, k]
    removeErr := fun _ => false }

/-- A filesystem holding both key files, the pair of key 3. -/
def fsBothKeys : FileSys :=
  { data := fun p =>
      if p = "keys/priv.pem".toList then some [1, 3]
      else if p = "keys/pub.pem".toList then some [2, 3] else none
    statErr := fun _ => false
    saveErr := fun _ => false }

/-- A filesystem without files in which `keys/pub.pem` cannot be written. -/
def fsPubUnwritable : FileSys :=
  { data := fun _ => none
    statErr := fun _ => false
    saveErr := fun p => decide (p = "keys/pub.pem".toList) }

/-- A database in which user 1 has the record 1 of the file stored under
`upload/1/a.txt`. -/
def dbOneFile : DB :=
  { users := [], fileSeq := 1
    files := [{ ID := 1, UserID := 1, ListName := "a".toList, Name := "/1/a.txt".toList,
                Extension := ".txt".toList, Path := "upload/1/a.txt".toList, Date := 0,
                Size := 1 }] }

/-- A filesystem holding the one file `upload/1/a.txt`. -/
def fsOneFile : FileSys :=
  { data := fun p => if p = "upload/1/a.txt".toList then some [7] else none
    statErr := fun _ => false
    saveErr := fun _ => false }

/-! ## Notions used in the proofs -/

/-- No byte of the string is a path separator. -/
def NoSep (s : GoString) : Prop := ∀ c ∈ s, isPathSeparator c = false

/-- A path element `Clean` keeps as it is: free of separators and none of
the empty string, `.` and `..`. -/
def Plain (x : GoString) : Prop := NoSep x ∧ x ≠ [] ∧ x ≠ ['.'] ∧ x ≠ ['.', '.']

/-- The number a string of decimal digits stands for, continuing from `acc`. -/
def decodeFrom (acc : Nat) (s : GoString) : Nat :=
  s.foldl (fun a c => 10 * a + (c.toNat - 48)) acc

/-- Whether a path that starts with `q` followed by a separator is rooted. -/
def rootedBefore (q : GoString) : Bool :=
  match q with
  | [] => true
  | c :: _ => isPathSeparator c

/-- The elements `Clean` keeps of `q` when a separator follows it. -/
def keptBefore (q : GoString) : List GoString :=
  (splitSep q).foldl (cleanStep (rootedBefore q)) []

/-- What `Clean` turns `q` and the separator after it into, when a plain
element follows. -/
def cleanPrefix (q : GoString) : GoString :=
  (if rootedBefore q then ['/'] else []) ++
    (if keptBefore q = [] then [] else stringsJoin (keptBefore q).reverse ['/'] ++ ['/'])

/-- The last element of the `num`-th path tried for a file of base name `b`
with extension `e`: stem, counter, extension. -/
def numberedElem (b e : GoString) (num : Nat) : GoString :=
  (if b = ['/'] then [] else TrimSuffix b e) ++ '(' :: (sprintD num ++ ')' :: e)

/-- What precedes the last element in every numbered path. -/
def numberedPrefix (d b : GoString) : GoString :=
  if b = ['/'] then (if d = [] then cleanPrefix [] else cleanPrefix (d ++ ['/']))
  else (if d = [] then [] else cleanPrefix d)

/-- The path two uploads of `x.txt` resolve first. -/
def xPath0 (d : GoString) : GoString := Join [d, "x.txt".toList]

/-- The path an upload of `x.txt` resolves when `xPath0` is taken. -/
def xPath1 (d : GoString) : GoString := Join [d, "x(1).txt".toList]

/-- The record stored for the first `x.txt`. -/
def xRec0 (now userID : Nat) (d : GoString) : File :=
  { mkEntry userID now fileX "x.txt".toList (xPath0 d) ".txt".toList with ID := 1 }

/-- The record stored for the second `x.txt`. -/
def xRec1 (now userID : Nat) (d : GoString) : File :=
  { mkEntry userID now fileX "x(1).txt".toList (xPath1 d) ".txt".toList with ID := 2 }

/-- The entries two uploads of `x.txt` may report once both are stored. -/
def xNames : List GoString := ["x.txt".toList, "x(1).txt".toList]

/-- A task is past its `SaveUploadedFile` on the success branch, and what it
read of `loadList` holds stored names only. -/
def PastSave : Phase → Prop
  | Phase.appendRead false => True
  | Phase.appendWrite false seen => ∀ e ∈ seen, e ∈ xNames
  | Phase.release => True
  | Phase.done => True
  | _ => False

/-- The collaborators while the first `x.txt` is stored and the second path
is free. -/
def FirstStored (now userID : Nat) (d : GoString) (w : World) : Prop :=
  w.fs.Stat (xPath0 d) = StatResult.ok ∧ w.fs.Stat (xPath1 d) = StatResult.notExist ∧
    w.db.files = [xRec0 now userID d] ∧ w.db.fileSeq = 1

/-- The progress of the second task when it probes only after the first has
written: it finds the first path taken, the second free, and stores its
record under the second. -/
def SecondAt (now userID : Nat) (d : GoString) (t : Task) (w : World) : Prop :=
  t.file = fileX ∧
    ((t.phase = Phase.probing ∧ t.num = 1 ∧ t.filePath = xPath0 d ∧
        t.fileBase = "x.txt".toList ∧ FirstStored now userID d w) ∨
      (t.phase = Phase.probing ∧ t.filePath = xPath1 d ∧
        t.fileBase = "x(1).txt".toList ∧ FirstStored now userID d w) ∨
      (t.phase = Phase.persist ∧ t.filePath = xPath1 d ∧
        t.fileBase = "x(1).txt".toList ∧ FirstStored now userID d w) ∨
      (t.phase = Phase.save ∧ t.fileBase = "x(1).txt".toList ∧
        w.db.files = [xRec0 now userID d, xRec1 now userID d]) ∨
      (PastSave t.phase ∧ t.fileBase = "x(1).txt".toList ∧
        w.db.files = [xRec0 now userID d, xRec1 now userID d]))

/-- The states of an upload of two files named `x.txt` from the moment the
first task has written its bytes while the second has not probed yet. -/
def WriteFirst (now userID : Nat) (d : GoString) (s : Sys) : Prop :=
  s.remaining = [] ∧ s.world.status = 0 ∧ (∀ e ∈ s.world.loadList, e ∈ xNames) ∧
    ∃ t0 t1, s.tasks = [t0, t1] ∧ t0.fileBase = "x.txt".toList ∧ PastSave t0.phase ∧
      SecondAt now userID d t1 s.world

/-- The upload of two files named `x.txt` into an empty directory once both
goroutines are started, the first has created its record and written its
bytes, and the second has not probed yet. -/
def xMid (now userID : Nat) (d : GoString) : Sys :=
  { remaining := []
    tasks :=
      [{ file := fileX, fileBase := "x.txt".toList, filePath := xPath0 d, num := 1,
         phase := Phase.appendRead false },
        Task.start d fileX]
    world :=
      { fs := { data := fun q => if q = xPath0 d then some fileX.content else none
                statErr := fun _ => false
                saveErr := fun _ => false }
        db := { users := [], files := [xRec0 now userID d], fileSeq := 1 }
        loadList := []
        status := 0
        chSemaphore := 2
        trace := [Event.created (mkEntry userID now fileX "x.txt".toList (xPath0 d) ".txt".toList),
          Event.saved (xPath0 d)] } }

/-- Whether the effect is a `Create` that was refused. -/
def Event.isRejected : Event → Bool
  | Event.rejected _ => true
  | _ => false

/-! ## Properties -/

theorem noSep_nil : NoSep [] := by intro c hc; cases hc

theorem noSep_append {a b : GoString} (ha : NoSep a) (hb : NoSep b) : NoSep (a ++ b) := by
  intro c hc
  rcases List.mem_append.mp hc with h | h
  · exact ha c h
  · exact hb c h

theorem noSep_cons {c : Char} {a : GoString} (hc : isPathSeparator c = false) (ha : NoSep a) :
    NoSep (c :: a) := by
  intro x hx
  rcases List.mem_cons.mp hx with h | h
  · rw [h]; exact hc
  · exact ha x h

/-! ### fmt.Sprintf("%d") -/

theorem digitChar_decode (k : Nat) (hk : k < 10) : (Nat.digitChar k).toNat - 48 = k := by
  interval_cases k <;> rfl

theorem digitChar_noSep (k : Nat) (hk : k < 10) : isPathSeparator (Nat.digitChar k) = false := by
  interval_cases k <;> rfl

theorem toDigitsCore_decode (fuel : Nat) : ∀ (n : Nat) (ds : List Char), n < fuel →
    decodeFrom 0 (Nat.toDigitsCore 10 fuel n ds) = decodeFrom n ds := by
  induction fuel with
  | zero => intro n ds h; omega
  | succ fuel ih =>
    intro n ds h
    have hd := digitChar_decode (n % 10) (Nat.mod_lt _ (by norm_num))
    by_cases h0 : n / 10 = 0
    · have hn : n % 10 = n := by omega
      simp only [Nat.toDigitsCore, h0, if_true]
      simp only [decodeFrom, List.foldl_cons, hd]
      congr 1
      omega
    · simp only [Nat.toDigitsCore, h0, if_false]
      rw [ih (n / 10) _ (by omega)]
      simp only [decodeFrom, List.foldl_cons, hd]
      congr 1
      omega

theorem sprintD_decode (n : Nat) : decodeFrom 0 (sprintD n) = n := by
  unfold sprintD Nat.toDigits
  rw [toDigitsCore_decode (n + 1) n [] (by omega)]
  rfl

theorem sprintD_injective : Function.Injective sprintD := by
  intro a b h
  have := congrArg (decodeFrom 0) h
  rwa [sprintD_decode, sprintD_decode] at this

theorem toDigitsCore_noSep (fuel : Nat) : ∀ (n : Nat) (ds : List Char), NoSep ds →
    NoSep (Nat.toDigitsCore 10 fuel n ds) := by
  induction fuel with
  | zero => intro n ds h; simpa [Nat.toDigitsCore] using h
  | succ fuel ih =>
    intro n ds h
    have hd := digitChar_noSep (n % 10) (Nat.mod_lt _ (by norm_num))
    by_cases h0 : n / 10 = 0
    · simp only [Nat.toDigitsCore, h0, if_true]
      exact noSep_cons hd h
    · simp only [Nat.toDigitsCore, h0, if_false]
      exact ih _ _ (noSep_cons hd h)

theorem sprintD_noSep (n : Nat) : NoSep (sprintD n) :=
  toDigitsCore_noSep _ _ _ noSep_nil

/-! ### filepath.Ext, strings.TrimSuffix, filepath.Base -/

theorem extScan_suffix : ∀ (rev acc : List Char), extScan rev acc <:+ rev.reverse ++ acc := by
  intro rev
  induction rev with
  | nil => intro acc; exact List.nil_suffix
  | cons c rest ih =>
    intro acc
    unfold extScan
    by_cases hs : isPathSeparator c = true
    · rw [if_pos hs]; exact List.nil_suffix
    · rw [if_neg hs]
      by_cases hd : c = '.'
      · rw [if_pos hd]
        refine ⟨rest.reverse, ?_⟩
        simp
      · rw [if_neg hd]
        have := ih (c :: acc)
        simpa using this

theorem extScan_noSep : ∀ (rev acc : List Char), NoSep acc → NoSep (extScan rev acc) := by
  intro rev
  induction rev with
  | nil => intro acc _; exact noSep_nil
  | cons c rest ih =>
    intro acc hacc
    unfold extScan
    by_cases hs : isPathSeparator c = true
    · rw [if_pos hs]; exact noSep_nil
    · rw [if_neg hs]
      have hc : isPathSeparator c = false := by simpa using hs
      by_cases hd : c = '.'
      · rw [if_pos hd]; exact noSep_cons hc hacc
      · rw [if_neg hd]; exact ih _ (noSep_cons hc hacc)

theorem Ext_suffix (b : GoString) : Ext b <:+ b := by
  have := extScan_suffix b.reverse []
  simpa [Ext] using this

theorem Ext_noSep (b : GoString) : NoSep (Ext b) := extScan_noSep _ _ noSep_nil

theorem TrimSuffix_append (t e : GoString) : TrimSuffix (t ++ e) e = t := by
  have h : HasSuffix (t ++ e) e = true := by
    simp [HasSuffix]
  simp [TrimSuffix, h]

/-- The stem and the extension `Upload` splits a base name into give the
base name back. -/
theorem stem_append_ext (b : GoString) : TrimSuffix b (Ext b) ++ Ext b = b := by
  obtain ⟨t, ht⟩ := Ext_suffix b
  have h := TrimSuffix_append t (Ext b)
  rw [ht] at h
  rw [h, ht]

theorem lastElement_noSep (p : GoString) : NoSep (lastElement p) := by
  intro c hc
  unfold lastElement at hc
  have h1 := List.mem_reverse.mp hc
  have h2 := List.mem_takeWhile_imp h1
  simpa using h2

theorem Base_ne_nil (f : GoString) : Base f ≠ [] := by
  unfold Base
  by_cases h : f = []
  · simp [h]
  · simp only [h, if_false]
    by_cases h2 : lastElement (stripTrailingSeparators f) = []
    · simp [h2]
    · simp [h2]

theorem Base_shape (f : GoString) : NoSep (Base f) ∨ Base f = ['/'] := by
  unfold Base
  by_cases h : f = []
  · left
    simp only [h, if_true]
    intro c hc
    simp at hc
    rw [hc]; rfl
  · simp only [h, if_false]
    by_cases h2 : lastElement (stripTrailingSeparators f) = []
    · right; simp [h2]
    · left; simp only [h2, if_false]; exact lastElement_noSep _

/-! ### filepath.Clean and filepath.Join on a path that ends in a plain element -/

theorem splitSep_ne_nil (a : GoString) : splitSep a ≠ [] := by
  cases a with
  | nil => simp [splitSep]
  | cons c cs =>
    unfold splitSep
    by_cases hs : isPathSeparator c = true
    · simp [hs]
    · simp only [hs]
      cases splitSep cs <;> simp

theorem splitSep_append_sep (a b : GoString) :
    splitSep (a ++ '/' :: b) = splitSep a ++ splitSep b := by
  induction a with
  | nil =>
    have : isPathSeparator '/' = true := rfl
    simp [splitSep, this]
  | cons c cs ih =>
    by_cases hs : isPathSeparator c = true
    · simp [splitSep, hs, ih]
    · obtain ⟨e, es, he⟩ := List.exists_cons_of_ne_nil (splitSep_ne_nil cs)
      simp [splitSep, hs, ih, he]

theorem splitSep_noSep (x : GoString) (hx : NoSep x) : splitSep x = [x] := by
  induction x with
  | nil => rfl
  | cons c cs ih =>
    have hc : isPathSeparator c = false := hx c (List.mem_cons_self _ _)
    have hcs : NoSep cs := fun d hd => hx d (List.mem_cons_of_mem _ hd)
    simp [splitSep, hc, ih hcs]

theorem cleanStep_plain (rooted : Bool) (out : List GoString) (x : GoString) (hx : Plain x) :
    cleanStep rooted out x = x :: out := by
  obtain ⟨_, h1, h2, h3⟩ := hx
  simp [cleanStep, h1, h2, h3]

theorem stringsJoin_cons_cons (e e2 : GoString) (t : List GoString) (sep : GoString) :
    stringsJoin (e :: e2 :: t) sep = e ++ sep ++ stringsJoin (e2 :: t) sep := rfl

theorem stringsJoin_snoc (l : List GoString) (x sep : GoString) :
    stringsJoin (l ++ [x]) sep = if l = [] then x else stringsJoin l sep ++ sep ++ x := by
  induction l with
  | nil => simp [stringsJoin]
  | cons e es ih =>
    cases es with
    | nil => simp [stringsJoin]
    | cons e2 es2 =>
      simp only [List.cons_append] at ih ⊢
      rw [stringsJoin_cons_cons, ih, stringsJoin_cons_cons]
      simp

theorem Clean_sep_plain (q x : GoString) (hx : Plain x) :
    Clean (q ++ '/' :: x) = cleanPrefix q ++ x := by
  have hsplit : splitSep (q ++ '/' :: x) = splitSep q ++ [x] := by
    rw [splitSep_append_sep, splitSep_noSep x hx.1]
  have hne : x ≠ [] := hx.2.1
  cases q with
  | nil =>
    have hr : isPathSeparator '/' = true := rfl
    have hk : keptBefore [] = [] := by
      simp [keptBefore, splitSep, cleanStep]
    simp only [List.nil_append] at hsplit ⊢
    simp only [Clean, hsplit, hr, List.foldl_append, List.foldl_cons, List.foldl_nil,
      cleanStep_plain _ _ x hx]
    simp [cleanPrefix, rootedBefore, hk, cleanRender, splitSep, cleanStep, stringsJoin]
  | cons c cs =>
    simp only [List.cons_append] at hsplit ⊢
    simp only [Clean, hsplit, List.foldl_append, List.foldl_cons, List.foldl_nil,
      cleanStep_plain _ _ x hx]
    simp only [cleanRender, List.reverse_cons, stringsJoin_snoc, cleanPrefix, rootedBefore,
      keptBefore]
    generalize List.foldl (cleanStep (isPathSeparator c)) [] (splitSep (c :: cs)) = st
    by_cases hr : isPathSeparator c = true <;> cases st <;> simp [hr, hne]

theorem Clean_plain (x : GoString) (hx : Plain x) : Clean x = x := by
  obtain ⟨c, cs, rfl⟩ := List.exists_cons_of_ne_nil hx.2.1
  have hc : isPathSeparator c = false := hx.1 c (List.mem_cons_self _ _)
  simp only [Clean, splitSep_noSep _ hx.1, List.foldl_cons, List.foldl_nil,
    cleanStep_plain _ _ _ hx]
  simp [cleanRender, hc, stringsJoin]

theorem cleanPrefix_shape (q : GoString) : ∃ p, cleanPrefix q = p ++ ['/'] ∨ cleanPrefix q = [] := by
  unfold cleanPrefix
  by_cases hk : keptBefore q = []
  · by_cases hr : rootedBefore q = true
    · exact ⟨[], by simp [hk, hr]⟩
    · exact ⟨[], by simp [hk, hr]⟩
  · refine ⟨(if rootedBefore q then ['/'] else []) ++ stringsJoin (keptBefore q).reverse ['/'], ?_⟩
    left
    simp [hk]

theorem takeWhile_append_stop {α : Type} (p : α → Bool) (l1 l2 : List α) (a : α)
    (h1 : ∀ x ∈ l1, p x = true) (ha : p a = false) :
    (l1 ++ a :: l2).takeWhile p = l1 := by
  induction l1 with
  | nil => simp [List.takeWhile, ha]
  | cons b bs ih =>
    have hb := h1 b (List.mem_cons_self _ _)
    simp only [List.cons_append, List.takeWhile_cons, hb, if_true]
    rw [ih (fun x hx => h1 x (List.mem_cons_of_mem _ hx))]

theorem Base_prefix_plain (p x : GoString) (hx : Plain x) (hp : (∃ p2, p = p2 ++ ['/']) ∨ p = []) :
    Base (p ++ x) = x := by
  obtain ⟨hns, hne, _, _⟩ := hx
  have hne2 : p ++ x ≠ [] := by simp [hne]
  obtain ⟨l, hl⟩ : ∃ l, x.reverse = l := ⟨_, rfl⟩
  have hlne : l ≠ [] := by rw [← hl]; simpa using hne
  obtain ⟨c, cs, hcs⟩ := List.exists_cons_of_ne_nil hlne
  have hall : ∀ y ∈ x.reverse, (!isPathSeparator y) = true := by
    intro y hy
    have := hns y (List.mem_reverse.mp hy)
    simp [this]
  have hc : isPathSeparator c = false := by
    have : c ∈ x.reverse := by rw [hl, hcs]; exact List.mem_cons_self _ _
    exact hns c (List.mem_reverse.mp this)
  have hstrip : stripTrailingSeparators (p ++ x) = p ++ x := by
    unfold stripTrailingSeparators
    rw [List.reverse_append, hl, hcs]
    simp only [List.cons_append, List.dropWhile_cons, hc]
    simp only [Bool.false_eq_true, if_false]
    rw [← List.cons_append, ← hcs, ← hl, ← List.reverse_append, List.reverse_reverse]
  have hlast : lastElement (p ++ x) = x := by
    unfold lastElement
    rw [List.reverse_append]
    rcases hp with ⟨p2, rfl⟩ | rfl
    · rw [List.reverse_append]
      simp only [List.reverse_cons, List.reverse_nil, List.nil_append, List.singleton_append]
      rw [takeWhile_append_stop _ _ _ _ hall (by rfl), List.reverse_reverse]
    · simp only [List.reverse_nil, List.append_nil]
      rw [List.takeWhile_eq_self_iff.mpr hall, List.reverse_reverse]
  unfold Base
  simp only [hne2, if_false, hstrip, hlast, hne]

/-! ### The paths tried after a collision -/

theorem noSep_of_prefix {s e b : GoString} (h : s ++ e = b) (hb : NoSep b) : NoSep s := by
  intro c hc
  exact hb c (by rw [← h]; exact List.mem_append_left _ hc)

theorem numberedElem_plain (f : GoString) (n : Nat) :
    Plain (numberedElem (Base f) (Ext (Base f)) n) := by
  have hmem : '(' ∈ numberedElem (Base f) (Ext (Base f)) n := by
    simp [numberedElem]
  have hstem : NoSep (if Base f = ['/'] then [] else TrimSuffix (Base f) (Ext (Base f))) := by
    by_cases hb : Base f = ['/']
    · simp only [hb, if_true]; exact noSep_nil
    · simp only [hb, if_false]
      rcases Base_shape f with h | h
      · exact noSep_of_prefix (stem_append_ext (Base f)) h
      · exact absurd h hb
  refine ⟨?_, ?_, ?_, ?_⟩
  · unfold numberedElem
    refine noSep_append hstem (noSep_cons rfl (noSep_append (sprintD_noSep n) ?_))
    exact noSep_cons rfl (Ext_noSep _)
  · intro h; rw [h] at hmem; cases hmem
  · intro h; rw [h] at hmem; simp at hmem
  · intro h; rw [h] at hmem; simp at hmem

theorem Join_pair (d y : GoString) :
    Join [d, y] = if d = [] then (if y = [] then [] else Clean y) else Clean (d ++ '/' :: y) := by
  by_cases hd : d = []
  · by_cases hy : y = []
    · simp [Join, hd, hy]
    · simp [Join, hd, hy, stringsJoin]
  · simp [Join, hd, stringsJoin]

theorem numbered_eq (d f : GoString) (n : Nat) :
    numbered d (TrimSuffix (Base f) (Ext (Base f))) (Ext (Base f)) n =
      numberedPrefix d (Base f) ++ numberedElem (Base f) (Ext (Base f)) n := by
  have hp := numberedElem_plain f n
  by_cases hb : Base f = ['/']
  · have he2 : Ext ['/'] = [] := by decide
    have he : Ext (Base f) = [] := by rw [hb]; exact he2
    have hs : TrimSuffix (Base f) (Ext (Base f)) = ['/'] := by rw [he, hb]; decide
    have hx : numberedElem (Base f) (Ext (Base f)) n = '(' :: (sprintD n ++ [')']) := by
      simp [numberedElem, hb, he2]
    rw [hx] at hp
    unfold numbered
    simp only [hs, he, hx, Join_pair, numberedPrefix, hb, if_true, List.append_nil]
    by_cases hd : d = []
    · simp only [hd, if_true]
      have := Clean_sep_plain [] _ hp
      simpa using this
    · simp only [hd, if_false]
      have := Clean_sep_plain (d ++ ['/']) _ hp
      simpa using this
  · have hx : numberedElem (Base f) (Ext (Base f)) n =
        TrimSuffix (Base f) (Ext (Base f)) ++ '(' :: (sprintD n ++ ')' :: Ext (Base f)) := by
      simp [numberedElem, hb]
    have hy : TrimSuffix (Base f) (Ext (Base f)) ++ (['('] ++ sprintD n ++ [')']) ++ Ext (Base f)
        = numberedElem (Base f) (Ext (Base f)) n := by
      rw [hx]; simp
    unfold numbered
    simp only [hy, Join_pair, numberedPrefix, hb, if_false]
    by_cases hd : d = []
    · simp only [hd, if_true, hp.2.1, if_false, List.nil_append]
      exact Clean_plain _ hp
    · simp only [hd, if_false]
      exact Clean_sep_plain d _ hp

theorem numberedPrefix_shape (d b : GoString) :
    (∃ p, numberedPrefix d b = p ++ ['/']) ∨ numberedPrefix d b = [] := by
  unfold numberedPrefix
  by_cases hb : b = ['/'] <;> by_cases hd : d = [] <;> simp only [hb, hd, if_true, if_false]
  · obtain ⟨p, h | h⟩ := cleanPrefix_shape []
    · exact Or.inl ⟨p, h⟩
    · exact Or.inr h
  · obtain ⟨p, h | h⟩ := cleanPrefix_shape (d ++ ['/'])
    · exact Or.inl ⟨p, h⟩
    · exact Or.inr h
  · exact Or.inr trivial
  · obtain ⟨p, h | h⟩ := cleanPrefix_shape d
    · exact Or.inl ⟨p, h⟩
    · exact Or.inr h

theorem numberedElem_injective (b e : GoString) : Function.Injective (numberedElem b e) := by
  intro n m h
  unfold numberedElem at h
  have h1 := List.append_cancel_left h
  have h2 : sprintD n ++ ')' :: e = sprintD m ++ ')' :: e := by simpa using h1
  have h3 : (sprintD n ++ [')']) ++ e = (sprintD m ++ [')']) ++ e := by simpa using h2
  have h4 := List.append_cancel_right h3
  have h5 := List.append_cancel_right h4
  exact sprintD_injective h5

/-- Distinct counters give distinct paths. -/
theorem numbered_injective (d f : GoString) :
    Function.Injective (numbered d (TrimSuffix (Base f) (Ext (Base f))) (Ext (Base f))) := by
  intro n m h
  rw [numbered_eq, numbered_eq] at h
  exact numberedElem_injective _ _ (List.append_cancel_left h)

/-- The base name of a numbered path is its last element. -/
theorem Base_numbered (d f : GoString) (n : Nat) :
    Base (numbered d (TrimSuffix (Base f) (Ext (Base f))) (Ext (Base f)) n) =
      numberedElem (Base f) (Ext (Base f)) n := by
  rw [numbered_eq]
  exact Base_prefix_plain _ _ (numberedElem_plain f n) (numberedPrefix_shape d (Base f))

/-! ### The probing loop -/

theorem ofPaths_Stat (existing : List GoString) (p : GoString) :
    (FileSys.ofPaths existing).Stat p =
      if p ∈ existing then StatResult.ok else StatResult.notExist := by
  by_cases h : p ∈ existing <;> simp [FileSys.Stat, FileSys.ofPaths, h]

/-- A finite set of paths leaves some counter free. -/
theorem exists_free_counter (d f : GoString) (existing : List GoString) :
    ∃ n, 1 ≤ n ∧ numbered d (TrimSuffix (Base f) (Ext (Base f))) (Ext (Base f)) n ∉ existing := by
  by_contra hcon
  push_neg at hcon
  have hinj := numbered_injective d f
  have hle : (Finset.Icc 1 (existing.length + 1)).card ≤ existing.toFinset.card := by
    apply Finset.card_le_card_of_injOn
      (numbered d (TrimSuffix (Base f) (Ext (Base f))) (Ext (Base f)))
    · intro n hn
      have h1 : 1 ≤ n := (Finset.mem_Icc.mp hn).1
      exact List.mem_toFinset.mpr (hcon n h1)
    · intro a _ b _ hab
      exact hinj hab
  have h2 : existing.toFinset.card ≤ existing.length := List.toFinset_card_le existing
  simp at hle
  omega

theorem probeLoop_run (existing : List GoString) (d s e : GoString) (k : Nat) :
    ∀ (j fuel : Nat), (∀ m, j ≤ m → m < j + k → numbered d s e m ∈ existing) →
      numbered d s e (j + k) ∉ existing → k < fuel →
      probeLoop (FileSys.ofPaths existing) d s e fuel (numbered d s e j)
          (Base (numbered d s e j)) (j + 1) =
        some (numbered d s e (j + k), Base (numbered d s e (j + k))) := by
  induction k with
  | zero =>
    intro j fuel _ hfree hfuel
    obtain ⟨fuel, rfl⟩ : ∃ g, fuel = g + 1 := ⟨fuel - 1, by omega⟩
    have hfree2 : numbered d s e j ∉ existing := by simpa using hfree
    simp [probeLoop, ofPaths_Stat, hfree2]
  | succ k ih =>
    intro j fuel hall hfree hfuel
    obtain ⟨fuel, rfl⟩ : ∃ g, fuel = g + 1 := ⟨fuel - 1, by omega⟩
    have hj : numbered d s e j ∈ existing := hall j (le_refl _) (by omega)
    have hnext := ih (j + 1) fuel (fun m h1 h2 => hall m (by omega) (by omega))
      (by rw [show j + 1 + k = j + (k + 1) by omega]; exact hfree) (by omega)
    rw [show j + 1 + k = j + (k + 1) by omega] at hnext
    simp only [probeLoop, ofPaths_Stat, hj, if_true]
    exact hnext

theorem Join_plain (d b : GoString) (hb : Plain b) :
    Join [d, b] = (if d = [] then [] else cleanPrefix d) ++ b := by
  rw [Join_pair]
  by_cases hd : d = []
  · simp only [hd, if_true, hb.2.1, if_false, List.nil_append]
    exact Clean_plain _ hb
  · simp only [hd, if_false]
    exact Clean_sep_plain d _ hb

theorem resolve_run (d f : GoString) (existing : List GoString) :
    ∃ fuel path base,
      (∀ k, fuel ≤ k → resolve (FileSys.ofPaths existing) d f k = some (path, base)) ∧
      (Join [d, Base f] ∉ existing → path = Join [d, Base f] ∧ base = Base f) ∧
      (Join [d, Base f] ∈ existing → ∃ n, 1 ≤ n ∧
        path = numbered d (TrimSuffix (Base f) (Ext (Base f))) (Ext (Base f)) n ∧
        base = Base path ∧ path ∉ existing ∧
        ∀ m, 1 ≤ m → m < n →
          numbered d (TrimSuffix (Base f) (Ext (Base f))) (Ext (Base f)) m ∈ existing) := by
  by_cases h0 : Join [d, Base f] ∈ existing
  · have hex := exists_free_counter d f existing
    classical
    let n := Nat.find hex
    have hn : 1 ≤ n ∧ _ := Nat.find_spec hex
    have hmin : ∀ m, 1 ≤ m → m < n →
        numbered d (TrimSuffix (Base f) (Ext (Base f))) (Ext (Base f)) m ∈ existing := by
      intro m h1 h2
      have := Nat.find_min hex h2
      by_contra hc
      exact this ⟨h1, hc⟩
    refine ⟨n + 1, numbered d (TrimSuffix (Base f) (Ext (Base f))) (Ext (Base f)) n,
      Base (numbered d (TrimSuffix (Base f) (Ext (Base f))) (Ext (Base f)) n), ?_, ?_, ?_⟩
    · intro k hk
      obtain ⟨g, rfl⟩ : ∃ g, k = g + 1 := ⟨k - 1, by omega⟩
      have hrun := probeLoop_run existing d (TrimSuffix (Base f) (Ext (Base f))) (Ext (Base f))
        (n - 1) 1 g (fun m h1 h2 => hmin m h1 (by omega))
        (by rw [show 1 + (n - 1) = n by omega]; exact hn.2) (by omega)
      rw [show 1 + (n - 1) = n by omega] at hrun
      simp only [resolve, probeLoop, ofPaths_Stat, h0, if_true]
      exact hrun
    · intro h; exact absurd h0 h
    · intro _
      exact ⟨n, hn.1, rfl, rfl, hn.2, hmin⟩
  · refine ⟨1, Join [d, Base f], Base f, ?_, ?_, ?_⟩
    · intro k hk
      obtain ⟨g, rfl⟩ : ∃ g, k = g + 1 := ⟨k - 1, by omega⟩
      simp [resolve, probeLoop, ofPaths_Stat, h0]
    · intro _; exact ⟨rfl, rfl⟩
    · intro h; exact absurd h h0

/-- Claim C1. Collision resolution. For every directory `d`, every uploaded name
and every finite set `existing` of paths all of whose probes succeed or report
not-found, the probing loop of `Upload` returns once it is given enough probes,
and the path it returns is `d/s+e` (stem `s`, extension `e` of the base name)
when that path is not in `existing`, and otherwise `d/s(n)e` for the smallest
`n ≥ 1` whose path is not in `existing`. With exactly `d/a.txt` and `d/a(1).txt`
existing, `a.txt` resolves to `d/a(2).txt`. -/
theorem resolve_smallest_free_counter :
    (∀ (d filename : GoString) (existing : List GoString),
      ∃ fuel path base,
        (∀ k, fuel ≤ k →
          resolve (FileSys.ofPaths existing) d filename k = some (path, base)) ∧
        (Join [d, TrimSuffix (Base filename) (Ext (Base filename)) ++ Ext (Base filename)]
            ∉ existing →
          path = Join [d, TrimSuffix (Base filename) (Ext (Base filename))
            ++ Ext (Base filename)]) ∧
        (Join [d, TrimSuffix (Base filename) (Ext (Base filename)) ++ Ext (Base filename)]
            ∈ existing →
          ∃ n, 1 ≤ n ∧
            path = Join [d, TrimSuffix (Base filename) (Ext (Base filename))
              ++ "(".toList ++ sprintD n ++ ")".toList ++ Ext (Base filename)] ∧
            path ∉ existing ∧
            ∀ m, 1 ≤ m → m < n →
              Join [d, TrimSuffix (Base filename) (Ext (Base filename))
                ++ "(".toList ++ sprintD m ++ ")".toList ++ Ext (Base filename)] ∈ existing)) ∧
    (∀ d : GoString, ∃ fuel, ∀ k, fuel ≤ k →
      (resolve (FileSys.ofPaths [Join [d, "a.txt".toList], Join [d, "a(1).txt".toList]])
        d "a.txt".toList k).map Prod.fst = some (Join [d, "a(2).txt".toList])) := by
  have hnum : ∀ (d s e : GoString) (n : Nat),
      Join [d, s ++ "(".toList ++ sprintD n ++ ")".toList ++ e] = numbered d s e n := by
    intro d s e n
    simp [numbered]
  refine ⟨?_, ?_⟩
  · intro d filename existing
    obtain ⟨fuel, path, base, hrun, hfree, htaken⟩ := resolve_run d filename existing
    rw [stem_append_ext]
    refine ⟨fuel, path, base, hrun, fun h => (hfree h).1, ?_⟩
    intro h
    obtain ⟨n, h1, h2, _, h4, h5⟩ := htaken h
    refine ⟨n, h1, ?_, h4, ?_⟩
    · rw [hnum]; exact h2
    · intro m hm1 hm2
      rw [hnum]; exact h5 m hm1 hm2
  · intro d
    have hB : Base "a.txt".toList = "a.txt".toList := by decide
    have hE : Ext "a.txt".toList = ".txt".toList := by decide
    have hT : TrimSuffix "a.txt".toList ".txt".toList = "a".toList := by decide
    obtain ⟨fuel, path, base, hrun, _, htaken⟩ := resolve_run d "a.txt".toList
      [Join [d, "a.txt".toList], Join [d, "a(1).txt".toList]]
    rw [hB, hE, hT] at htaken
    have hinj := numbered_injective d "a.txt".toList
    rw [hB, hE, hT] at hinj
    have e1 : "a".toList ++ (['('] ++ sprintD 1 ++ [')']) ++ ".txt".toList = "a(1).txt".toList := by
      decide
    have e2 : "a".toList ++ (['('] ++ sprintD 2 ++ [')']) ++ ".txt".toList = "a(2).txt".toList := by
      decide
    have h1 : numbered d "a".toList ".txt".toList 1 = Join [d, "a(1).txt".toList] := by
      simp only [numbered, e1]
    have h2 : numbered d "a".toList ".txt".toList 2 = Join [d, "a(2).txt".toList] := by
      simp only [numbered, e2]
    have hp0 : Plain "a.txt".toList := by
      refine ⟨?_, by decide, by decide, by decide⟩
      intro c hc
      revert c
      decide
    have hp2 : Plain "a(2).txt".toList := by
      refine ⟨?_, by decide, by decide, by decide⟩
      intro c hc
      revert c
      decide
    have h02 : Join [d, "a(2).txt".toList] ≠ Join [d, "a.txt".toList] := by
      rw [Join_plain d _ hp0, Join_plain d _ hp2]
      intro h
      have := List.append_cancel_left h
      revert this
      decide
    have h12 : numbered d "a".toList ".txt".toList 2 ≠ numbered d "a".toList ".txt".toList 1 :=
      fun h => absurd (hinj h) (by decide)
    obtain ⟨n, hn1, hpath, _, hfree, hmin⟩ := htaken (List.mem_cons_self _ _)
    have hn : n = 2 := by
      by_contra hne
      rcases Nat.lt_or_ge n 2 with hlt | hge
      · have : n = 1 := by omega
        rw [this, h1] at hpath
        rw [hpath] at hfree
        exact hfree (List.mem_cons_of_mem _ (List.mem_cons_self _ _))
      · have h3 := hmin 2 (by omega) (by omega)
        rw [h2] at h3 h12
        rw [h1] at h12
        rcases List.mem_cons.mp h3 with h | h
        · exact h02 h
        · exact h12 (List.mem_singleton.mp h)
    refine ⟨fuel, fun k hk => ?_⟩
    rw [hrun k hk, hpath, hn, h2]
    rfl

/-! ### One task -/

theorem uploadTask_of_resolve (fuel now userID : Nat) (d : GoString) (file : FileHeader)
    (w : World) (path base : GoString)
    (hres : resolve w.fs d file.Filename fuel = some (path, base)) :
    uploadTask fuel now userID d file w =
      match w.db.Create (mkEntry userID now file base path (Ext (Base file.Filename))) with
      | none =>
        some { w with
          status := StatusConflict
          loadList := w.loadList ++ [base ++ " FAILED!".toList]
          trace := w.trace ++
            [Event.rejected (mkEntry userID now file base path (Ext (Base file.Filename)))] }
      | some db =>
        match w.fs.SaveUploadedFile file.content path with
        | none =>
          some { w with
            db := db
            loadList := w.loadList ++ [base]
            chSemaphore := w.chSemaphore - 1
            trace := w.trace ++
              [Event.created (mkEntry userID now file base path (Ext (Base file.Filename))),
                Event.saveFailed path] }
        | some fs =>
          some { w with
            fs := fs
            db := db
            loadList := w.loadList ++ [base]
            chSemaphore := w.chSemaphore - 1
            trace := w.trace ++
              [Event.created (mkEntry userID now file base path (Ext (Base file.Filename))),
                Event.saved path] } := by
  simp only [uploadTask, hres]

/-- Claim C2. Step order of one task. Once the path of a file is resolved, the
task calls `Create` first. If `Create` fails, the task ends there: the
filesystem and the database are as before (no bytes written, no record), the
only effect recorded is the rejection, the file is listed with `FAILED!` and
the status is 409. If `Create` succeeds, the record is in the database and the
only write attempted is the one to the resolved path, after the creation. -/
theorem uploadTask_persists_before_writing (fuel now userID : Nat) (d : GoString)
    (file : FileHeader) (w : World) (path base : GoString)
    (hres : resolve w.fs d file.Filename fuel = some (path, base)) :
    (w.db.Create (mkEntry userID now file base path (Ext (Base file.Filename))) = none →
      ∃ w2, uploadTask fuel now userID d file w = some w2 ∧
        w2.fs = w.fs ∧ w2.db = w.db ∧
        w2.trace = w.trace ++
          [Event.rejected (mkEntry userID now file base path (Ext (Base file.Filename)))] ∧
        w2.loadList = w.loadList ++ [base ++ " FAILED!".toList] ∧
        w2.status = StatusConflict) ∧
    (∀ db, w.db.Create (mkEntry userID now file base path (Ext (Base file.Filename))) = some db →
      ∃ w2, uploadTask fuel now userID d file w = some w2 ∧
        w2.db = db ∧
        (∃ ev, w2.trace = w.trace ++
            [Event.created (mkEntry userID now file base path (Ext (Base file.Filename))), ev] ∧
          (ev = Event.saved path ∧ w.fs.SaveUploadedFile file.content path = some w2.fs ∨
            ev = Event.saveFailed path ∧ w2.fs = w.fs))) := by
  have h := uploadTask_of_resolve fuel now userID d file w path base hres
  refine ⟨?_, ?_⟩
  · intro hc
    rw [hc] at h
    exact ⟨_, h, rfl, rfl, rfl, rfl, rfl⟩
  · intro db hc
    rw [hc] at h
    cases hs : w.fs.SaveUploadedFile file.content path with
    | none =>
      rw [hs] at h
      exact ⟨_, h, rfl, _, rfl, Or.inr ⟨rfl, rfl⟩⟩
    | some fs =>
      rw [hs] at h
      exact ⟨_, h, rfl, _, rfl, Or.inl ⟨rfl, rfl⟩⟩

theorem uploadTask_persists_before_writing_witness :
    resolve (World.init (FileSys.ofPaths []) dbTaken).fs "upload/1".toList fileA.Filename 1 =
        some ("upload/1/a.txt".toList, "a.txt".toList) ∧
      ∃ w2, uploadTask 1 0 1 "upload/1".toList fileA (World.init (FileSys.ofPaths []) dbTaken)
          = some w2 ∧ w2.db = dbTaken ∧ w2.status = StatusConflict :=
  ⟨by decide,
    let h := (uploadTask_persists_before_writing 1 0 1 "upload/1".toList fileA
      (World.init (FileSys.ofPaths []) dbTaken) "upload/1/a.txt".toList "a.txt".toList
      (by decide)).1 (by decide)
    ⟨h.choose, h.choose_spec.1, h.choose_spec.2.2.1, h.choose_spec.2.2.2.2.2⟩⟩

/-! ### The record -/

theorem probeLoop_result (fs : FileSys) (d f : GoString) (fuel : Nat) :
    ∀ (path base : GoString) (num : Nat) (p b : GoString),
      probeLoop fs d (TrimSuffix (Base f) (Ext (Base f))) (Ext (Base f)) fuel path base num
          = some (p, b) →
        (p = path ∧ b = base) ∨
          ∃ n, num ≤ n ∧
            p = numbered d (TrimSuffix (Base f) (Ext (Base f))) (Ext (Base f)) n ∧
            b = numberedElem (Base f) (Ext (Base f)) n := by
  induction fuel with
  | zero => intro path base num p b h; simp [probeLoop] at h
  | succ fuel ih =>
    intro path base num p b h
    unfold probeLoop at h
    cases hs : fs.Stat path with
    | notExist =>
      rw [hs] at h
      simp only [Option.some.injEq, Prod.mk.injEq] at h
      exact Or.inl ⟨h.1.symm, h.2.symm⟩
    | otherErr =>
      rw [hs] at h
      simp only [Option.some.injEq, Prod.mk.injEq] at h
      exact Or.inl ⟨h.1.symm, h.2.symm⟩
    | ok =>
      rw [hs] at h
      simp only at h
      rcases ih _ _ _ _ _ h with ⟨h1, h2⟩ | ⟨n, h1, h2, h3⟩
      · exact Or.inr ⟨num, le_refl _, h1, by rw [h2, Base_numbered]⟩
      · exact Or.inr ⟨n, by omega, h2, h3⟩

theorem cleanRender_ne_nil (rooted : Bool) (out : List GoString) : cleanRender rooted out ≠ [] := by
  unfold cleanRender
  by_cases h : (if rooted = true then ['/'] else []) ++ stringsJoin out.reverse ['/'] = []
  · simp only [h, if_true]; decide
  · simp only [h, if_false]; exact h

theorem Clean_ne_nil (p : GoString) : Clean p ≠ [] := by
  cases p with
  | nil => simp [Clean]
  | cons c cs => exact cleanRender_ne_nil _ _

theorem userDir_ne_nil (testMode : Bool) (userID : Nat) : userDir testMode userID ≠ [] := by
  unfold userDir
  cases testMode
  · simp only [Bool.false_eq_true, if_false, Join]
    rw [if_neg (by decide)]
    exact Clean_ne_nil _
  · simp only [if_true, Join]
    rw [if_neg (by decide)]
    exact Clean_ne_nil _

theorem cleanPrefix_trailing_sep (d : GoString) (hd : d ≠ []) :
    cleanPrefix (d ++ ['/']) = cleanPrefix d := by
  obtain ⟨c, cs, rfl⟩ := List.exists_cons_of_ne_nil hd
  have hr : rootedBefore (c :: cs ++ ['/']) = rootedBefore (c :: cs) := rfl
  have hk : keptBefore (c :: cs ++ ['/']) = keptBefore (c :: cs) := by
    unfold keptBefore
    rw [hr, splitSep_append_sep]
    simp [splitSep, cleanStep]
  unfold cleanPrefix
  rw [hr, hk]

/-- A numbered path is the directory joined with its own base name. -/
theorem Join_numberedElem (d f : GoString) (hd : d ≠ []) (n : Nat) :
    Join [d, numberedElem (Base f) (Ext (Base f)) n] =
      numbered d (TrimSuffix (Base f) (Ext (Base f))) (Ext (Base f)) n := by
  rw [numbered_eq, Join_plain d _ (numberedElem_plain f n)]
  congr 1
  unfold numberedPrefix
  by_cases hb : Base f = ['/']
  · simp only [hb, hd, if_true, if_false]
    exact (cleanPrefix_trailing_sep d hd).symm
  · simp only [hb, hd, if_false]

theorem numberedElem_ext (b e : GoString) (n : Nat) :
    TrimSuffix (numberedElem b e n) e ++ e = numberedElem b e n := by
  have h : numberedElem b e n =
      ((if b = ['/'] then [] else TrimSuffix b e) ++ '(' :: (sprintD n ++ [')'])) ++ e := by
    simp [numberedElem]
  rw [h, TrimSuffix_append]

theorem resolve_result (fs : FileSys) (d f : GoString) (hd : d ≠ []) (fuel : Nat)
    (path base : GoString) (h : resolve fs d f fuel = some (path, base)) :
    path = Join [d, base] ∧ TrimSuffix base (Ext (Base f)) ++ Ext (Base f) = base := by
  unfold resolve at h
  rcases probeLoop_result fs d f fuel _ _ _ _ _ h with ⟨h1, h2⟩ | ⟨n, _, h2, h3⟩
  · rw [h1, h2]
    exact ⟨rfl, stem_append_ext _⟩
  · rw [h2, h3]
    exact ⟨(Join_numberedElem d f hd n).symm, numberedElem_ext _ _ _⟩

theorem extScan_dot : ∀ (rev acc : List Char),
    extScan rev acc = [] ∨ (extScan rev acc).head? = some '.' := by
  intro rev
  induction rev with
  | nil => intro acc; exact Or.inl rfl
  | cons c rest ih =>
    intro acc
    unfold extScan
    by_cases hs : isPathSeparator c = true
    · rw [if_pos hs]; exact Or.inl rfl
    · rw [if_neg hs]
      by_cases hd : c = '.'
      · rw [if_pos hd, hd]; exact Or.inr rfl
      · rw [if_neg hd]; exact ih _

theorem DB.Create_files (db db2 : DB) (entry : File) (h : db.Create entry = some db2) :
    db2.files = db.files ++ [{ entry with ID := db.fileSeq + 1 }] := by
  unfold DB.Create at h
  split at h
  · cases h
  · simp only [Option.some.injEq] at h
    rw [← h]

/-- Claim C5. The record built by `Upload`. Whenever a task of user `u` stores a
record, the record is the last of the table and `b`, the base name the task
reports, determines it: `UserID = u`, `Name = "/u/" + b`, `Extension` is the
extension of the uploaded base name (empty or starting with a dot), `ListName`
is `b` without that extension (which `b` does end in), `Path` is the user's
directory joined with `b`, `Size` is the uploaded length; hence
`Name = "/u/" + ListName + Extension`. In test mode `test.file` of user 1 is
recorded as `/1/test.file`, `test`, `.file`, and as `/1/test(1).file`,
`test(1)`, `.file` when `upload/test/1/test.file` exists. -/
theorem upload_record_fields :
    (∀ (fuel now userID : Nat) (testMode : Bool) (file : FileHeader) (w w2 : World),
      uploadTask fuel now userID (userDir testMode userID) file w = some w2 →
      w2.db ≠ w.db →
      ∃ r b, w2.db.files = w.db.files ++ [r] ∧ w2.loadList = w.loadList ++ [b] ∧
        r.UserID = userID ∧
        r.Name = "/".toList ++ sprintD userID ++ "/".toList ++ b ∧
        r.Extension = Ext (Base file.Filename) ∧
        (r.Extension = [] ∨ r.Extension.head? = some '.') ∧
        r.ListName = TrimSuffix b r.Extension ∧
        r.ListName ++ r.Extension = b ∧
        r.Path = Join [userDir testMode userID, b] ∧
        r.Size = file.Size ∧
        r.Name = "/".toList ++ sprintD userID ++ "/".toList ++ r.ListName ++ r.Extension) ∧
    (∃ w2, uploadTask 1 0 1 (userDir true 1) testFile (World.init (FileSys.ofPaths []) dbEmpty)
        = some w2 ∧
      w2.db.files.map (fun r => (r.Name, r.ListName, r.Extension, r.Path, r.Size)) =
        [("/1/test.file".toList, "test".toList, ".file".toList,
          "upload/test/1/test.file".toList, 77344)]) ∧
    (∃ w2, uploadTask 2 0 1 (userDir true 1) testFile
        (World.init (FileSys.ofPaths ["upload/test/1/test.file".toList]) dbEmpty) = some w2 ∧
      w2.db.files.map (fun r => (r.Name, r.ListName, r.Extension, r.Path, r.Size)) =
        [("/1/test(1).file".toList, "test(1)".toList, ".file".toList,
          "upload/test/1/test(1).file".toList, 77344)]) := by
  refine ⟨?_, ⟨_, rfl, by decide⟩, ⟨_, rfl, by decide⟩⟩
  intro fuel now userID testMode file w w2 hrun hdb
  cases hres : resolve w.fs (userDir testMode userID) file.Filename fuel with
  | none => simp [uploadTask, hres] at hrun
  | some pb =>
    obtain ⟨path, base⟩ := pb
    have hr := resolve_result w.fs _ file.Filename (userDir_ne_nil testMode userID) fuel
      path base hres
    rw [uploadTask_of_resolve fuel now userID _ file w path base hres] at hrun
    cases hc : w.db.Create (mkEntry userID now file base path (Ext (Base file.Filename))) with
    | none =>
      rw [hc] at hrun
      simp only [Option.some.injEq] at hrun
      rw [← hrun] at hdb
      exact absurd rfl hdb
    | some db =>
      rw [hc] at hrun
      have hfiles := DB.Create_files _ _ _ hc
      have hw : w2.db = db ∧ w2.loadList = w.loadList ++ [base] := by
        cases hs : w.fs.SaveUploadedFile file.content path with
        | none =>
          rw [hs] at hrun
          simp only [Option.some.injEq] at hrun
          rw [← hrun]; exact ⟨rfl, rfl⟩
        | some fs =>
          rw [hs] at hrun
          simp only [Option.some.injEq] at hrun
          rw [← hrun]; exact ⟨rfl, rfl⟩
      refine ⟨_, base, by rw [hw.1, hfiles], hw.2, rfl, rfl, rfl, extScan_dot _ _, rfl, hr.2, hr.1,
        rfl, ?_⟩
      simp only [mkEntry, List.append_assoc, hr.2]
      rfl

/-! ### The response -/

theorem intercalate_cons_cons (sep a b : GoString) (l : List GoString) :
    sep.intercalate (a :: b :: l) = a ++ sep ++ sep.intercalate (b :: l) := by
  simp [List.intercalate, List.intersperse]

theorem messageLoop_eq (l : List GoString) : ∀ (i : Nat) (msg : GoString),
    messageLoop (i + l.length) i l msg = msg ++ ", ".toList.intercalate l := by
  induction l with
  | nil => intro i msg; simp [messageLoop, List.intercalate]
  | cons val rest ih =>
    intro i msg
    cases rest with
    | nil =>
      simp [messageLoop, List.intercalate]
    | cons v2 rest2 =>
      have hlen : i + (val :: v2 :: rest2).length = (i + 1) + (v2 :: rest2).length := by
        simp only [List.length_cons]; omega
      have hlt : i < i + (val :: v2 :: rest2).length - 1 := by
        simp only [List.length_cons]; omega
      unfold messageLoop
      rw [if_pos hlt, hlen, ih (i + 1), intercalate_cons_cons]
      simp

theorem respond_message (w : World) :
    (respond w).message = "Loaded files: ".toList ++ ", ".toList.intercalate w.loadList := by
  have h := messageLoop_eq w.loadList 0 "Loaded files: ".toList
  simp only [Nat.zero_add] at h
  simp only [respond, h]

/-! ### Errors that are not acted on -/

/-- Claim C3. A write that fails is reported as a success. User 1 uploads
`a.txt` while nothing can be written: `SaveUploadedFile` fails after the record
was created, yet `Upload` answers 200 with `a.txt` listed as loaded, the record
for `upload/1/a.txt` stays in the table and no bytes are stored under that
path. -/
theorem upload_reports_unwritten_file_as_loaded :
    ∃ r w, Upload 1 0 false 1 [fileA] fsUnwritable dbEmpty = some (r, w) ∧
      r = { status := 200, message := "Loaded files: a.txt".toList } ∧
      w.db.files.map (fun f => f.Path) = ["upload/1/a.txt".toList] ∧
      w.fs.data "upload/1/a.txt".toList = none ∧
      w.trace.getLast? = some (Event.saveFailed "upload/1/a.txt".toList) :=
  ⟨_, _, rfl, by decide, by decide, by decide, by decide⟩

theorem taskSteps_add (now userID : Nat) (d : GoString) (k1 k2 : Nat) :
    ∀ (t t1 t2 : Task) (w w1 w2 : World),
      taskSteps now userID d k1 t w = some (t1, w1) →
      taskSteps now userID d k2 t1 w1 = some (t2, w2) →
      taskSteps now userID d (k1 + k2) t w = some (t2, w2) := by
  induction k1 with
  | zero =>
    intro t t1 t2 w w1 w2 h1 h2
    simp only [taskSteps, Option.some.injEq, Prod.mk.injEq] at h1
    rw [h1.1, h1.2, Nat.zero_add]
    exact h2
  | succ k ih =>
    intro t t1 t2 w w1 w2 h1 h2
    rw [show k + 1 + k2 = (k + k2) + 1 by omega]
    unfold taskSteps at h1 ⊢
    cases hs : taskStep now userID d t w with
    | none => simp [hs] at h1
    | some p =>
      obtain ⟨ta, wa⟩ := p
      simp only [hs] at h1 ⊢
      exact ih ta t1 t2 wa w1 w2 h1 h2

theorem probeLoop_steps (now userID : Nat) (d : GoString) (file : FileHeader) (w : World)
    (fuel : Nat) : ∀ (path base : GoString) (num : Nat) (p b : GoString),
      probeLoop w.fs d (TrimSuffix (Base file.Filename) (Ext (Base file.Filename)))
        (Ext (Base file.Filename)) fuel path base num = some (p, b) →
      ∃ k num2, taskSteps now userID d k
          { file := file, fileBase := base, filePath := path, num := num, phase := Phase.probing } w
        = some ({ file := file, fileBase := b, filePath := p, num := num2,
                  phase := Phase.persist }, w) := by
  induction fuel with
  | zero => intro path base num p b h; simp [probeLoop] at h
  | succ fuel ih =>
    intro path base num p b h
    unfold probeLoop at h
    cases hs : w.fs.Stat path with
    | notExist =>
      simp only [hs, Option.some.injEq, Prod.mk.injEq] at h
      obtain ⟨rfl, rfl⟩ := h
      refine ⟨1, num, ?_⟩
      simp only [taskSteps, taskStep, hs]
    | otherErr =>
      simp only [hs, Option.some.injEq, Prod.mk.injEq] at h
      obtain ⟨rfl, rfl⟩ := h
      refine ⟨1, num, ?_⟩
      simp only [taskSteps, taskStep, hs]
    | ok =>
      simp only [hs] at h
      obtain ⟨k, num2, hk⟩ := ih _ _ _ _ _ h
      refine ⟨k + 1, num2, ?_⟩
      simp only [taskSteps, taskStep, hs, Task.fileName, Task.fileExt]
      exact hk

/-- The task run without interruption is the goroutine's actions taken one
after the other: whatever `uploadTask` returns is reached by finitely many
steps of the started goroutine, which has then returned. -/
theorem uploadTask_is_run_of_steps (fuel now userID : Nat) (d : GoString) (file : FileHeader)
    (w w2 : World) (h : uploadTask fuel now userID d file w = some w2) :
    ∃ k t2, taskSteps now userID d k (Task.start d file) w = some (t2, w2) ∧
      t2.phase = Phase.done := by
  cases hres : resolve w.fs d file.Filename fuel with
  | none => simp [uploadTask, hres] at h
  | some pb =>
    obtain ⟨path, base⟩ := pb
    rw [uploadTask_of_resolve fuel now userID d file w path base hres] at h
    obtain ⟨k, num2, hk⟩ := probeLoop_steps now userID d file w fuel _ _ _ _ _ hres
    have hk : taskSteps now userID d k (Task.start d file) w =
        some ({ file := file, fileBase := base, filePath := path, num := num2,
                phase := Phase.persist }, w) := hk
    cases hc : w.db.Create (mkEntry userID now file base path (Ext (Base file.Filename))) with
    | none =>
      simp only [hc, Option.some.injEq] at h
      refine ⟨k + 3, Task.mk file base path num2 Phase.done,
        taskSteps_add now userID d k 3 _ _ _ _ _ _ hk ?_, rfl⟩
      simp only [taskSteps, taskStep, Task.fileExt, hc, if_true, ← h]
    | some db =>
      simp only [hc] at h
      cases hs : w.fs.SaveUploadedFile file.content path with
      | none =>
        simp only [hs, Option.some.injEq] at h
        refine ⟨k + 5, Task.mk file base path num2 Phase.done,
          taskSteps_add now userID d k 5 _ _ _ _ _ _ hk ?_, rfl⟩
        simp only [taskSteps, taskStep, Task.fileExt, hc, hs, Bool.false_eq_true, if_false, ← h,
          List.append_assoc, List.singleton_append]
      | some fs =>
        simp only [hs, Option.some.injEq] at h
        refine ⟨k + 5, Task.mk file base path num2 Phase.done,
          taskSteps_add now userID d k 5 _ _ _ _ _ _ hk ?_, rfl⟩
        simp only [taskSteps, taskStep, Task.fileExt, hc, hs, Bool.false_eq_true, if_false, ← h,
          List.append_assoc, List.singleton_append]

/-! ### The tasks interleaved: the semaphore -/

theorem countP_set_add {α : Type} (p : α → Bool) (l : List α) (i : Nat) (a b : α)
    (h : l[i]? = some a) :
    (l.set i b).countP p + (if p a then 1 else 0) = l.countP p + (if p b then 1 else 0) := by
  induction l generalizing i with
  | nil => simp at h
  | cons x xs ih =>
    cases i with
    | zero =>
      simp only [List.getElem?_cons_zero, Option.some.injEq] at h
      subst h
      simp only [List.set_cons_zero, List.countP_cons]
      omega
    | succ i =>
      simp only [List.getElem?_cons_succ] at h
      have := ih i h
      simp only [List.set_cons_succ, List.countP_cons]
      omega

theorem taskStep_sem (now userID : Nat) (d : GoString) (t t2 : Task) (w w2 : World)
    (h : taskStep now userID d t w = some (t2, w2)) :
    t.running = true ∧ w2.chSemaphore ≤ w.chSemaphore ∧ w.chSemaphore ≤ w2.chSemaphore + 1 ∧
      (t2.running = true → w2.chSemaphore = w.chSemaphore) := by
  unfold taskStep at h
  cases hp : t.phase with
  | probing =>
    simp only [hp] at h
    cases hs : w.fs.Stat t.filePath <;> simp only [hs, Option.some.injEq, Prod.mk.injEq] at h <;>
      obtain ⟨h1, h2⟩ := h <;> subst h1 <;> subst h2 <;> simp [Task.running, hp]
  | persist =>
    simp only [hp] at h
    cases hc : w.db.Create (mkEntry userID now t.file t.fileBase t.filePath t.fileExt) <;>
      simp only [hc, Option.some.injEq, Prod.mk.injEq] at h <;>
      obtain ⟨h1, h2⟩ := h <;> subst h1 <;> subst h2 <;> simp [Task.running, hp]
  | save =>
    simp only [hp] at h
    cases hc : w.fs.SaveUploadedFile t.file.content t.filePath <;>
      simp only [hc, Option.some.injEq, Prod.mk.injEq] at h <;>
      obtain ⟨h1, h2⟩ := h <;> subst h1 <;> subst h2 <;> simp [Task.running, hp]
  | appendRead failed =>
    simp only [hp, Option.some.injEq, Prod.mk.injEq] at h
    obtain ⟨h1, h2⟩ := h
    subst h1; subst h2
    simp [Task.running, hp]
  | appendWrite failed seen =>
    simp only [hp] at h
    cases failed <;> simp only [Bool.false_eq_true, if_false, if_true, Option.some.injEq,
      Prod.mk.injEq] at h <;>
      obtain ⟨h1, h2⟩ := h <;> subst h1 <;> subst h2 <;> simp [Task.running, hp]
  | release =>
    simp only [hp, Option.some.injEq, Prod.mk.injEq] at h
    obtain ⟨h1, h2⟩ := h
    subst h1; subst h2
    simp [Task.running, hp]
    omega
  | done =>
    simp only [hp] at h
    cases h

theorem step_launch (now userID : Nat) (d : GoString) (s s2 : Sys)
    (h : step now userID d s Action.launch = some s2) :
    ∃ file rest, s.remaining = file :: rest ∧ s.world.chSemaphore < 3 ∧
      s2 = { remaining := rest
             tasks := s.tasks ++ [Task.start d file]
             world := { s.world with chSemaphore := s.world.chSemaphore + 1 } } := by
  simp only [step] at h
  cases hr : s.remaining with
  | nil => simp [hr] at h
  | cons file rest =>
    simp only [hr] at h
    by_cases hs : s.world.chSemaphore < 3
    · simp only [hs, if_true, Option.some.injEq] at h
      exact ⟨file, rest, rfl, hs, h.symm⟩
    · simp [hs] at h

theorem step_advance (now userID : Nat) (d : GoString) (s s2 : Sys) (i : Nat)
    (h : step now userID d s (Action.advance i) = some s2) :
    ∃ t t2 w, s.tasks[i]? = some t ∧ taskStep now userID d t s.world = some (t2, w) ∧
      s2 = { s with tasks := s.tasks.set i t2, world := w } := by
  simp only [step] at h
  cases ht : s.tasks[i]? with
  | none => simp [ht] at h
  | some t =>
    simp only [ht] at h
    cases hts : taskStep now userID d t s.world with
    | none => simp [hts] at h
    | some p =>
      obtain ⟨t2, w⟩ := p
      simp only [hts, Option.some.injEq] at h
      exact ⟨t, t2, w, rfl, hts, h.symm⟩

/-- The bound kept by every step: no more goroutines in flight than values
in `chSemaphore`, and no more than three values. -/
theorem step_inFlight (now userID : Nat) (d : GoString) (s s2 : Sys) (a : Action)
    (h : step now userID d s a = some s2)
    (hinv : s.inFlight ≤ s.world.chSemaphore ∧ s.world.chSemaphore ≤ 3) :
    s2.inFlight ≤ s2.world.chSemaphore ∧ s2.world.chSemaphore ≤ 3 := by
  cases a with
  | launch =>
    obtain ⟨file, rest, _, hs, rfl⟩ := step_launch now userID d s s2 h
    simp only [Sys.inFlight, List.countP_append, List.countP_cons, List.countP_nil] at hinv ⊢
    have hr : (Task.start d file).running = true := rfl
    simp only [hr, if_true]
    omega
  | advance i =>
    obtain ⟨t, t2, w2, ht, hts, rfl⟩ := step_advance now userID d s s2 i h
    obtain ⟨hr, h1, h2, h3⟩ := taskStep_sem now userID d t t2 s.world w2 hts
    have hc := countP_set_add Task.running s.tasks i t t2 ht
    simp only [hr, if_true] at hc
    simp only [Sys.inFlight] at hinv ⊢
    by_cases hr2 : t2.running = true
    · simp only [hr2, if_true] at hc
      have := h3 hr2
      omega
    · simp only [hr2] at hc
      simp only [Bool.false_eq_true, if_false] at hc
      omega

theorem run_inFlight (now userID : Nat) (d : GoString) (sched : List Action) :
    ∀ (s s2 : Sys), run now userID d s sched = some s2 →
      s.inFlight ≤ s.world.chSemaphore ∧ s.world.chSemaphore ≤ 3 →
      s2.inFlight ≤ s2.world.chSemaphore ∧ s2.world.chSemaphore ≤ 3 := by
  induction sched with
  | nil =>
    intro s s2 h hinv
    simp only [run, Option.some.injEq] at h
    rw [← h]; exact hinv
  | cons a rest ih =>
    intro s s2 h hinv
    unfold run at h
    split at h
    · cases h
    · rename_i s1 hs
      exact ih s1 s2 h (step_inFlight now userID d s s1 a hs hinv)

/-- Claim C6. Bounded parallelism. In every state an upload can reach, whatever
the batch, the collaborators and the order of the steps, at most 3 goroutines
are in flight (started and not yet returned). -/
theorem upload_at_most_three_in_flight (now userID : Nat) (d : GoString)
    (files : List FileHeader) (fs : FileSys) (db : DB) (sched : List Action) (s : Sys)
    (h : run now userID d (Sys.init files fs db) sched = some s) :
    s.inFlight ≤ 3 := by
  have := run_inFlight now userID d sched (Sys.init files fs db) s h
    ⟨by simp [Sys.init, Sys.inFlight, World.init], by simp [Sys.init, World.init]⟩
  omega

theorem upload_at_most_three_in_flight_witness :
    (∃ s, run 0 1 "upload/1".toList
        (Sys.init [fileA, fileC, fileX, fileB] (FileSys.ofPaths []) dbEmpty)
        [Action.launch, Action.launch, Action.launch, Action.advance 1] = some s ∧
      s.inFlight = 3 ∧ (step 0 1 "upload/1".toList s Action.launch).isNone = true) ∧
    ∀ s, run 0 1 "upload/1".toList
        (Sys.init [fileA, fileC, fileX, fileB] (FileSys.ofPaths []) dbEmpty)
        [Action.launch, Action.launch, Action.launch, Action.advance 1] = some s →
      s.inFlight ≤ 3 :=
  ⟨⟨_, rfl, by decide, by decide⟩,
    fun s h => upload_at_most_three_in_flight 0 1 "upload/1".toList _ _ _ _ s h⟩

theorem taskStep_status (now userID : Nat) (d : GoString) (t t2 : Task) (w w2 : World)
    (hinv : w.status = if w.trace.any Event.isRejected then StatusConflict else 0)
    (h : taskStep now userID d t w = some (t2, w2)) :
    w2.status = if w2.trace.any Event.isRejected then StatusConflict else 0 := by
  unfold taskStep at h
  cases hp : t.phase with
  | probing =>
    simp only [hp] at h
    cases hs : w.fs.Stat t.filePath <;> simp only [hs, Option.some.injEq, Prod.mk.injEq] at h <;>
      obtain ⟨_, h2⟩ := h <;> subst h2 <;> exact hinv
  | persist =>
    simp only [hp] at h
    cases hc : w.db.Create (mkEntry userID now t.file t.fileBase t.filePath t.fileExt) <;>
      simp only [hc, Option.some.injEq, Prod.mk.injEq] at h <;>
      obtain ⟨_, h2⟩ := h <;> subst h2
    · simp [Event.isRejected]
    · simpa [Event.isRejected] using hinv
  | save =>
    simp only [hp] at h
    cases hc : w.fs.SaveUploadedFile t.file.content t.filePath <;>
      simp only [hc, Option.some.injEq, Prod.mk.injEq] at h <;>
      obtain ⟨_, h2⟩ := h <;> subst h2 <;> simpa [Event.isRejected] using hinv
  | appendRead failed =>
    simp only [hp, Option.some.injEq, Prod.mk.injEq] at h
    obtain ⟨_, h2⟩ := h
    subst h2
    exact hinv
  | appendWrite failed seen =>
    simp only [hp] at h
    cases failed <;> simp only [Bool.false_eq_true, if_false, if_true, Option.some.injEq,
      Prod.mk.injEq] at h <;>
      obtain ⟨_, h2⟩ := h <;> subst h2 <;> exact hinv
  | release =>
    simp only [hp, Option.some.injEq, Prod.mk.injEq] at h
    obtain ⟨_, h2⟩ := h
    subst h2
    exact hinv
  | done =>
    simp only [hp] at h
    cases h

theorem run_status (now userID : Nat) (d : GoString) (sched : List Action) :
    ∀ (s s2 : Sys), run now userID d s sched = some s2 →
      (s.world.status = if s.world.trace.any Event.isRejected then StatusConflict else 0) →
      s2.world.status = if s2.world.trace.any Event.isRejected then StatusConflict else 0 := by
  induction sched with
  | nil =>
    intro s s2 h hinv
    simp only [run, Option.some.injEq] at h
    rw [← h]; exact hinv
  | cons a rest ih =>
    intro s s2 h hinv
    unfold run at h
    cases hs : step now userID d s a with
    | none => simp [hs] at h
    | some s1 =>
      simp only [hs] at h
      refine ih s1 s2 h ?_
      cases a with
      | launch =>
        obtain ⟨file, rest, _, _, rfl⟩ := step_launch now userID d s s1 hs
        exact hinv
      | advance i =>
        obtain ⟨t, t2, w2, _, hts, rfl⟩ := step_advance now userID d s s1 i hs
        exact taskStep_status now userID d t t2 s.world w2 hinv hts

/-- Claim C4. The response of `Upload` is built from `loadList` and `status`,
which the goroutines write without synchronisation, so it follows the
outcomes of the files only while no two appends overlap. User 1 uploads
`a.txt` and `c.txt` while a record named `/1/a.txt` exists: the `Create` for
`a.txt` is refused, `c.txt` is persisted and written. When the goroutines run
one after the other the answer is 409 with `a.txt FAILED!` and `c.txt` listed.
When both read `loadList` while it is still empty and each then assigns its
own result, every task has returned, one record was added, and the answer is
409 with the message `Loaded files: c.txt`: one entry for two files, and none
marked as failed. In whatever order the steps are taken, the status is 409
when a `Create` was refused and 200 otherwise, and the message is
`Loaded files: ` followed by the entries of `loadList` separated by `, `; an
empty batch has finished at once and is answered 200 with no entry. -/
theorem upload_response_misses_entry_when_appends_overlap :
    (∃ s, run 0 1 "upload/1".toList (Sys.init [fileA, fileC] (FileSys.ofPaths []) dbTaken)
        ([Action.launch, Action.launch] ++ moves 0 2 ++ moves 1 3 ++
          [Action.advance 0, Action.advance 1, Action.advance 0, Action.advance 1,
            Action.advance 1]) = some s ∧
      s.finished = true ∧
      s.world.db.files.map (fun f => f.Path) =
        ["upload/1/b.txt".toList, "upload/1/c.txt".toList] ∧
      s.world.trace.any Event.isRejected = true ∧
      s.world.loadList = ["c.txt".toList] ∧
      respond s.world = { status := 409, message := "Loaded files: c.txt".toList }) ∧
    (∃ s, run 0 1 "upload/1".toList (Sys.init [fileA, fileC] (FileSys.ofPaths []) dbTaken)
        ([Action.launch] ++ moves 0 4 ++ [Action.launch] ++ moves 1 6) = some s ∧
      s.finished = true ∧
      respond s.world =
        { status := 409, message := "Loaded files: a.txt FAILED!, c.txt".toList }) ∧
    (∀ (now userID : Nat) (d : GoString) (files : List FileHeader) (fs : FileSys) (db : DB)
        (sched : List Action) (s : Sys),
      run now userID d (Sys.init files fs db) sched = some s →
      (respond s.world).status =
          (if s.world.trace.any Event.isRejected then StatusConflict else StatusOK) ∧
        (respond s.world).message =
          "Loaded files: ".toList ++ ", ".toList.intercalate s.world.loadList) ∧
    (∀ (fs : FileSys) (db : DB),
      (Sys.init [] fs db).finished = true ∧
        respond (Sys.init [] fs db).world =
          { status := 200, message := "Loaded files: ".toList }) := by
  refine ⟨⟨_, rfl, by decide, by decide, by decide, by decide, by decide⟩,
    ⟨_, rfl, by decide, by decide⟩, ?_, ?_⟩
  · intro now userID d files fs db sched s h
    have hst := run_status now userID d sched _ s h rfl
    refine ⟨?_, respond_message s.world⟩
    simp only [respond, hst]
    by_cases hr : s.world.trace.any Event.isRejected = true
    · simp only [hr, if_true]
      rfl
    · simp only [hr, if_false]
      rfl
  · intro fs db
    exact ⟨rfl, rfl⟩

/-! ### The tasks interleaved: what the early return and the shared slice do -/

/-- Claim C7. A failed task keeps its slot. User 1 uploads four files named
`a.txt` while a record named `/1/a.txt` exists and no file `upload/1/a.txt`
does: the first three goroutines are started, each fails to create its record
and returns without the receive from `chSemaphore`. In the state reached one
file remains to be started, no goroutine is in flight, the channel holds three
values, and no step is possible: the coordinator stays blocked on its send and
the upload never returns. -/
theorem upload_blocks_after_three_failed_tasks :
    ∃ s, run 0 1 "upload/1".toList
        (Sys.init [fileA, fileA, fileA, fileA] (FileSys.ofPaths []) dbTaken)
        ([Action.launch, Action.launch, Action.launch] ++ moves 0 4 ++ moves 1 4 ++ moves 2 4)
        = some s ∧
      s.remaining = [fileA] ∧ s.inFlight = 0 ∧ s.world.chSemaphore = 3 ∧
      s.world.status = StatusConflict ∧
      ∀ a, (step 0 1 "upload/1".toList s a).isNone = true := by
  refine ⟨_, rfl, by decide, by decide, by decide, by decide, ?_⟩
  intro a
  cases a with
  | launch => decide
  | advance i =>
    match i with
    | 0 => decide
    | 1 => decide
    | 2 => decide
    | _ + 3 => rfl

/-- Claim C9. Two appends that overlap lose an outcome. User 1 uploads `a.txt`
and `c.txt`; both goroutines create their record and write their bytes, both
read `loadList` while it is still empty, and each then assigns its own
one-element result. When `tasksGroup.Wait()` returns, both records exist, the
list holds one entry for two files, and the answer is 200 with `c.txt` alone
listed. -/
theorem upload_loses_outcome_of_overlapping_appends :
    ∃ s, run 0 1 "upload/1".toList (Sys.init [fileA, fileC] (FileSys.ofPaths []) dbEmpty)
        ([Action.launch, Action.launch] ++ moves 0 3 ++ moves 1 3 ++
          [Action.advance 0, Action.advance 1, Action.advance 0, Action.advance 1,
            Action.advance 0, Action.advance 1]) = some s ∧
      s.finished = true ∧
      s.world.db.files.map (fun f => f.Path) =
        ["upload/1/a.txt".toList, "upload/1/c.txt".toList] ∧
      s.world.loadList = ["c.txt".toList] ∧
      respond s.world = { status := 200, message := "Loaded files: c.txt".toList } :=
  ⟨_, rfl, by decide, by decide, by decide, by decide⟩

/-! ### The tasks interleaved: the same name twice -/

/-- Counterexample to claim C8: user 1 uploads two files named `x.txt` into an
empty directory and both goroutines probe before either creates its record.
Both resolve `upload/1/x.txt`; the second `Create` is refused, so one record
exists when the upload ends and the answer is 409 with the second file listed
as failed. -/
theorem same_name_twice_second_create_refused :
    ∃ s, run 0 1 "upload/1".toList (Sys.init [fileX, fileX] (FileSys.ofPaths []) dbEmpty)
        ([Action.launch, Action.launch, Action.advance 0, Action.advance 1] ++
          moves 0 5 ++ moves 1 3) = some s ∧
      s.finished = true ∧
      s.world.db.files.map (fun f => f.Path) = ["upload/1/x.txt".toList] ∧
      respond s.world =
        { status := 409, message := "Loaded files: x.txt, x.txt FAILED!".toList } :=
  ⟨_, rfl, by decide, by decide, by decide⟩

theorem xPath_ne (d : GoString) : xPath0 d ≠ xPath1 d := by
  have hp0 : Plain "x.txt".toList := by
    refine ⟨?_, by decide, by decide, by decide⟩
    intro c hc
    revert c
    decide
  have hp1 : Plain "x(1).txt".toList := by
    refine ⟨?_, by decide, by decide, by decide⟩
    intro c hc
    revert c
    decide
  unfold xPath0 xPath1
  rw [Join_plain d _ hp0, Join_plain d _ hp1]
  intro h
  have := List.append_cancel_left h
  revert this
  decide

theorem numbered_x (d : GoString) : numbered d "x".toList ".txt".toList 1 = xPath1 d := by
  have e1 : "x".toList ++ (['('] ++ sprintD 1 ++ [')']) ++ ".txt".toList = "x(1).txt".toList := by
    decide
  simp only [numbered, e1, xPath1]

theorem Base_xPath1 (d : GoString) (hd : d ≠ []) : Base (xPath1 d) = "x(1).txt".toList := by
  have hp1 : Plain "x(1).txt".toList := by
    refine ⟨?_, by decide, by decide, by decide⟩
    intro c hc
    revert c
    decide
  unfold xPath1
  rw [Join_plain d _ hp1]
  simp only [hd, if_false]
  apply Base_prefix_plain _ _ hp1
  obtain ⟨p, h | h⟩ := cleanPrefix_shape d
  · exact Or.inl ⟨p, h⟩
  · exact Or.inr h

theorem taskStep_pastSave (now userID : Nat) (d : GoString) (t t2 : Task) (w w2 : World)
    (hp : PastSave t.phase) (hb : t.fileBase ∈ xNames) (hl : ∀ e ∈ w.loadList, e ∈ xNames)
    (h : taskStep now userID d t w = some (t2, w2)) :
    PastSave t2.phase ∧ t2.fileBase = t.fileBase ∧ t2.file = t.file ∧
      w2.fs = w.fs ∧ w2.db = w.db ∧ w2.status = w.status ∧
      ∀ e ∈ w2.loadList, e ∈ xNames := by
  unfold taskStep at h
  cases hph : t.phase with
  | probing => rw [hph] at hp; cases hp
  | persist => rw [hph] at hp; cases hp
  | save => rw [hph] at hp; cases hp
  | appendRead failed =>
    rw [hph] at hp
    cases failed with
    | true => cases hp
    | false =>
      simp only [hph, Option.some.injEq, Prod.mk.injEq] at h
      obtain ⟨h1, h2⟩ := h
      subst h1; subst h2
      exact ⟨hl, rfl, rfl, rfl, rfl, rfl, hl⟩
  | appendWrite failed seen =>
    rw [hph] at hp
    cases failed with
    | true => cases hp
    | false =>
      simp only [hph, Bool.false_eq_true, if_false, Option.some.injEq, Prod.mk.injEq] at h
      obtain ⟨h1, h2⟩ := h
      subst h1; subst h2
      refine ⟨trivial, rfl, rfl, rfl, rfl, rfl, ?_⟩
      intro e he
      rcases List.mem_append.mp he with h3 | h3
      · exact hp e h3
      · rw [List.mem_singleton.mp h3]; exact hb
  | release =>
    simp only [hph, Option.some.injEq, Prod.mk.injEq] at h
    obtain ⟨h1, h2⟩ := h
    subst h1; subst h2
    exact ⟨trivial, rfl, rfl, rfl, rfl, rfl, hl⟩
  | done =>
    simp only [hph] at h
    cases h

theorem secondAt_congr (now userID : Nat) (d : GoString) (t : Task) (w w2 : World)
    (hfs : w2.fs = w.fs) (hdb : w2.db = w.db) (h : SecondAt now userID d t w) :
    SecondAt now userID d t w2 := by
  unfold SecondAt FirstStored at *
  rw [hfs, hdb]
  exact h

theorem fileX_ext (t : Task) (h : t.file = fileX) : t.fileExt = ".txt".toList := by
  unfold Task.fileExt
  rw [h]
  decide

theorem fileX_name (t : Task) (h : t.file = fileX) : t.fileName = "x".toList := by
  unfold Task.fileName Task.fileExt
  rw [h]
  decide

theorem create_second (now userID : Nat) (d : GoString) (db : DB)
    (hf : db.files = [xRec0 now userID d]) (hq : db.fileSeq = 1) :
    ∃ db2, db.Create (mkEntry userID now fileX "x(1).txt".toList (xPath1 d) ".txt".toList)
        = some db2 ∧ db2.files = [xRec0 now userID d, xRec1 now userID d] := by
  have hname : (xRec0 now userID d).Name ≠
      (mkEntry userID now fileX "x(1).txt".toList (xPath1 d) ".txt".toList).Name := by
    simp only [xRec0, mkEntry]
    intro h
    have h1 := List.append_cancel_left h
    revert h1
    decide
  have hpath : (xRec0 now userID d).Path ≠
      (mkEntry userID now fileX "x(1).txt".toList (xPath1 d) ".txt".toList).Path := by
    simp only [xRec0, mkEntry]
    exact xPath_ne d
  refine ⟨{ db with
      files := db.files ++
        [{ mkEntry userID now fileX "x(1).txt".toList (xPath1 d) ".txt".toList with
            ID := db.fileSeq + 1 }]
      fileSeq := db.fileSeq + 1 }, ?_, ?_⟩
  · unfold DB.Create
    rw [if_neg]
    simp only [hf, List.any_cons, List.any_nil, Bool.or_false, Bool.or_eq_true, decide_eq_true_eq]
    rintro (h | h)
    · exact hname h
    · exact hpath h
  · simp only [hf, hq, xRec1, List.singleton_append]

theorem taskStep_second (now userID : Nat) (d : GoString) (hd : d ≠ []) (t t2 : Task)
    (w w2 : World) (hl : ∀ e ∈ w.loadList, e ∈ xNames) (hs : SecondAt now userID d t w)
    (h : taskStep now userID d t w = some (t2, w2)) :
    SecondAt now userID d t2 w2 ∧ w2.status = w.status ∧ ∀ e ∈ w2.loadList, e ∈ xNames := by
  obtain ⟨hfile, hcase⟩ := hs
  have hext := fileX_ext t hfile
  have hnm := fileX_name t hfile
  rcases hcase with ⟨hph, hnum, hpath, hbase, hw⟩ | ⟨hph, hpath, hbase, hw⟩ |
    ⟨hph, hpath, hbase, hw⟩ | ⟨hph, hbase, hw⟩ | ⟨hph, hbase, hw⟩
  · unfold taskStep at h
    simp only [hph, hpath, hw.1, Option.some.injEq, Prod.mk.injEq] at h
    obtain ⟨h1, h2⟩ := h
    subst h1; subst h2
    refine ⟨⟨hfile, Or.inr (Or.inl ⟨rfl, ?_, ?_, hw⟩)⟩, rfl, hl⟩
    · simp only [hnm, hext, hnum, numbered_x]
    · simp only [hnm, hext, hnum, numbered_x, Base_xPath1 d hd]
  · unfold taskStep at h
    simp only [hph, hpath, hw.2.1, Option.some.injEq, Prod.mk.injEq] at h
    obtain ⟨h1, h2⟩ := h
    subst h1; subst h2
    exact ⟨⟨hfile, Or.inr (Or.inr (Or.inl ⟨rfl, rfl, hbase, hw⟩))⟩, rfl, hl⟩
  · obtain ⟨db2, hc, hfiles⟩ := create_second now userID d w.db hw.2.2.1 hw.2.2.2
    unfold taskStep at h
    simp only [hph, hpath, hbase, hext, hfile, hc, Option.some.injEq, Prod.mk.injEq] at h
    obtain ⟨h1, h2⟩ := h
    subst h1; subst h2
    exact ⟨⟨rfl, Or.inr (Or.inr (Or.inr (Or.inl ⟨rfl, rfl, hfiles⟩)))⟩, rfl, hl⟩
  · unfold taskStep at h
    simp only [hph] at h
    cases hsv : w.fs.SaveUploadedFile t.file.content t.filePath <;>
      simp only [hsv, Option.some.injEq, Prod.mk.injEq] at h <;>
      obtain ⟨h1, h2⟩ := h <;> subst h1 <;> subst h2 <;>
      exact ⟨⟨hfile, Or.inr (Or.inr (Or.inr (Or.inr ⟨trivial, hbase, hw⟩)))⟩, rfl, hl⟩
  · have hb : t.fileBase ∈ xNames := by rw [hbase]; decide
    obtain ⟨h1, h2, h3, _, h5, h6, h7⟩ := taskStep_pastSave now userID d t t2 w w2 hph hb hl h
    refine ⟨⟨by rw [h3]; exact hfile, Or.inr (Or.inr (Or.inr (Or.inr ⟨h1, ?_, ?_⟩)))⟩, h6, h7⟩
    · rw [h2]; exact hbase
    · rw [h5]; exact hw

/-- The invariant is kept by every step. -/
theorem step_writeFirst (now userID : Nat) (d : GoString) (hd : d ≠ []) (s s2 : Sys) (a : Action)
    (hinv : WriteFirst now userID d s) (h : step now userID d s a = some s2) :
    WriteFirst now userID d s2 := by
  obtain ⟨hrem, hst, hl, t0, t1, htasks, hb0, hp0, hsec⟩ := hinv
  cases a with
  | launch =>
    obtain ⟨file, rest, hr, _, _⟩ := step_launch now userID d s s2 h
    rw [hrem] at hr
    cases hr
  | advance i =>
    obtain ⟨t, t2, w2, ht, hts, rfl⟩ := step_advance now userID d s s2 i h
    rw [htasks] at ht
    match i, ht with
    | 0, ht =>
      simp only [List.getElem?_cons_zero, Option.some.injEq] at ht
      subst ht
      have hb : t0.fileBase ∈ xNames := by rw [hb0]; decide
      obtain ⟨h1, h2, _, h4, h5, h6, h7⟩ :=
        taskStep_pastSave now userID d t0 t2 s.world w2 hp0 hb hl hts
      refine ⟨hrem, by rw [h6]; exact hst, h7, t2, t1, ?_, by rw [h2]; exact hb0, h1,
        secondAt_congr now userID d t1 s.world w2 h4 h5 hsec⟩
      simp only [htasks, List.set_cons_zero]
    | 1, ht =>
      simp only [List.getElem?_cons_succ, List.getElem?_cons_zero, Option.some.injEq] at ht
      subst ht
      obtain ⟨h1, h2, h3⟩ := taskStep_second now userID d hd t1 t2 s.world w2 hl hsec hts
      have hp0b : PastSave t0.phase := hp0
      refine ⟨hrem, by rw [h2]; exact hst, h3, t0, t2, ?_, hb0, hp0b, h1⟩
      simp only [htasks, List.set_cons_succ, List.set_cons_zero]
    | _ + 2, ht =>
      simp at ht

theorem run_writeFirst (now userID : Nat) (d : GoString) (hd : d ≠ []) (sched : List Action) :
    ∀ (s s2 : Sys), WriteFirst now userID d s → run now userID d s sched = some s2 →
      WriteFirst now userID d s2 := by
  induction sched with
  | nil =>
    intro s s2 hinv h
    simp only [run, Option.some.injEq] at h
    rw [← h]; exact hinv
  | cons a rest ih =>
    intro s s2 hinv h
    unfold run at h
    cases hs : step now userID d s a with
    | none => simp [hs] at h
    | some s1 =>
      simp only [hs] at h
      exact ih s1 s2 (step_writeFirst now userID d hd s s1 a hinv hs) h

theorem xMid_reached (now userID : Nat) (d : GoString) :
    run now userID d (Sys.init [fileX, fileX] (FileSys.ofPaths []) dbEmpty)
      ([Action.launch, Action.launch] ++ moves 0 3) = some (xMid now userID d) := by
  have hB : Base fileX.Filename = "x.txt".toList := by decide
  have hE : Ext "x.txt".toList = ".txt".toList := by decide
  have hstat : ∀ p, (FileSys.ofPaths []).Stat p = StatResult.notExist := by
    intro p
    simp [ofPaths_Stat]
  have hsave : ∀ p c, (FileSys.ofPaths []).SaveUploadedFile c p =
      some { data := fun q => if q = p then some c else none
             statErr := fun _ => false
             saveErr := fun _ => false } := by
    intro p c
    rfl
  have hcreate : ∀ e, dbEmpty.Create e =
      some { users := [], files := [{ e with ID := 1 }], fileSeq := 1 } := by
    intro e
    rfl
  simp only [moves, List.replicate, List.cons_append, List.nil_append, run, step, Sys.init,
    World.init, Task.start, taskStep, hstat, hsave, hcreate, hB, hE, Task.fileExt,
    List.getElem?_cons_zero, List.set_cons_zero, Nat.lt_irrefl, if_true, if_false,
    Nat.zero_lt_succ, Nat.reduceLT, Nat.reduceAdd]
  rfl

theorem xMid_writeFirst (now userID : Nat) (d : GoString) :
    WriteFirst now userID d (xMid now userID d) := by
  have hbase : (Task.start d fileX).fileBase = "x.txt".toList := by
    show Base fileX.Filename = "x.txt".toList
    decide
  have hpath : (Task.start d fileX).filePath = xPath0 d := by
    show Join [d, Base fileX.Filename] = Join [d, "x.txt".toList]
    rw [show Base fileX.Filename = "x.txt".toList by decide]
  have hs0 : (xMid now userID d).world.fs.Stat (xPath0 d) = StatResult.ok := by
    simp [xMid, FileSys.Stat]
  have hs1 : (xMid now userID d).world.fs.Stat (xPath1 d) = StatResult.notExist := by
    simp [xMid, FileSys.Stat, Ne.symm (xPath_ne d)]
  refine ⟨rfl, rfl, ?_, _, _, rfl, rfl, trivial, ?_⟩
  · intro e he
    cases he
  · exact ⟨rfl, Or.inl ⟨rfl, rfl, hpath, hbase, hs0, hs1, rfl, rfl⟩⟩

theorem writeFirst_outcome (now userID : Nat) (testMode : Bool)
    (s1 s : Sys) (sched : List Action)
    (h1 : run now userID (userDir testMode userID)
      (Sys.init [fileX, fileX] (FileSys.ofPaths []) dbEmpty)
      ([Action.launch, Action.launch] ++ moves 0 3) = some s1)
    (h2 : run now userID (userDir testMode userID) s1 sched = some s)
    (hfin : s.finished = true) :
    s.world.db.files.map (fun f => f.Path) =
        [Join [userDir testMode userID, "x.txt".toList],
          Join [userDir testMode userID, "x(1).txt".toList]] ∧
      Join [userDir testMode userID, "x.txt".toList] ≠
        Join [userDir testMode userID, "x(1).txt".toList] ∧
      (∀ e ∈ s.world.loadList, e = "x.txt".toList ∨ e = "x(1).txt".toList) ∧
      (respond s.world).status = 200 := by
  have hd := userDir_ne_nil testMode userID
  rw [xMid_reached] at h1
  simp only [Option.some.injEq] at h1
  subst h1
  obtain ⟨_, hst, hl, t0, t1, htasks, _, _, hfile, hsec⟩ :=
    run_writeFirst now userID _ hd sched _ s (xMid_writeFirst now userID _) h2
  have hrun1 : t1.running = false := by
    simp only [Sys.finished, htasks, List.all_cons, List.all_nil, Bool.and_true,
      Bool.and_eq_true, Bool.not_eq_true'] at hfin
    exact hfin.2.2
  have hfiles : s.world.db.files =
      [xRec0 now userID (userDir testMode userID), xRec1 now userID (userDir testMode userID)] := by
    rcases hsec with ⟨hph, _⟩ | ⟨hph, _⟩ | ⟨hph, _⟩ | ⟨hph, _⟩ | ⟨_, _, hw⟩
    · simp [Task.running, hph] at hrun1
    · simp [Task.running, hph] at hrun1
    · simp [Task.running, hph] at hrun1
    · simp [Task.running, hph] at hrun1
    · exact hw
  refine ⟨?_, xPath_ne _, ?_, ?_⟩
  · rw [hfiles]
    rfl
  · intro e he
    have := hl e he
    simpa [xNames] using this
  · simp only [respond, hst, if_true]
    rfl


theorem same_name_race (now userID : Nat) (d : GoString) :
    (run now userID d (Sys.init [fileX, fileX] (FileSys.ofPaths []) dbEmpty)
      ([Action.launch, Action.launch, Action.advance 0, Action.advance 1] ++
        moves 0 5 ++ moves 1 3)).map
      (fun s => (s.finished, s.world.db.files.map (fun f => f.Path), respond s.world)) =
    some (true, [Join [d, "x.txt".toList]],
      { status := 409, message := "Loaded files: x.txt, x.txt FAILED!".toList }) := by
  have hB : Base fileX.Filename = "x.txt".toList := by decide
  have hE : Ext "x.txt".toList = ".txt".toList := by decide
  have hstat : ∀ p, (FileSys.ofPaths []).Stat p = StatResult.notExist := by
    intro p
    simp [ofPaths_Stat]
  have hsave : ∀ p c, (FileSys.ofPaths []).SaveUploadedFile c p =
      some { data := fun q => if q = p then some c else none
             statErr := fun _ => false
             saveErr := fun _ => false } := by
    intro p c
    rfl
  have hcreate : ∀ e, dbEmpty.Create e =
      some { users := [], files := [{ e with ID := 1 }], fileSeq := 1 } := by
    intro e
    rfl
  have hrefuse : ∀ e : File, ({ users := [], files := [{ e with ID := 1 }], fileSeq := 1 } : DB).Create e
      = none := by
    intro e
    simp [DB.Create]
  simp only [moves, List.replicate, List.cons_append, List.nil_append, run, step, Sys.init,
    World.init, Task.start, taskStep, hstat, hsave, hcreate, hrefuse, hB, hE, Task.fileExt,
    List.getElem?_cons_zero, List.getElem?_cons_succ, List.set_cons_zero, List.set_cons_succ,
    Nat.lt_irrefl, if_true, if_false, Nat.zero_lt_succ, Nat.reduceLT, Nat.reduceAdd,
    Bool.false_eq_true, Option.map_some']
  rfl

/-- Claim C8, as amended. User `userID` uploads two files named `x.txt` into an
empty directory with no records. From the state in which both goroutines are
started, the first has created its record and written its bytes and the second
has not probed yet, every order of the remaining steps that runs the upload to
its end leaves two records, with the distinct paths `d/x.txt` and `d/x(1).txt`
(`d` the user's directory), lists no entry other than `x.txt` and `x(1).txt`
(none marked as failed), and is answered with status 200. In the order in which
both goroutines probe before either calls `Create`, both resolve `d/x.txt`, the
second `Create` is refused, one record exists at the end and the answer is 409
with the second file listed as failed. -/
theorem same_name_twice_after_first_write :
    (∀ (now userID : Nat) (testMode : Bool) (s1 s : Sys) (sched : List Action),
      run now userID (userDir testMode userID)
        (Sys.init [fileX, fileX] (FileSys.ofPaths []) dbEmpty)
        ([Action.launch, Action.launch] ++ moves 0 3) = some s1 →
      run now userID (userDir testMode userID) s1 sched = some s →
      s.finished = true →
      s.world.db.files.map (fun f => f.Path) =
          [Join [userDir testMode userID, "x.txt".toList],
            Join [userDir testMode userID, "x(1).txt".toList]] ∧
        Join [userDir testMode userID, "x.txt".toList] ≠
          Join [userDir testMode userID, "x(1).txt".toList] ∧
        (∀ e ∈ s.world.loadList, e = "x.txt".toList ∨ e = "x(1).txt".toList) ∧
        (respond s.world).status = 200) ∧
    (∀ (now userID : Nat) (testMode : Bool),
      (run now userID (userDir testMode userID)
        (Sys.init [fileX, fileX] (FileSys.ofPaths []) dbEmpty)
        ([Action.launch, Action.launch, Action.advance 0, Action.advance 1] ++
          moves 0 5 ++ moves 1 3)).map
        (fun s => (s.finished, s.world.db.files.map (fun f => f.Path), respond s.world)) =
      some (true, [Join [userDir testMode userID, "x.txt".toList]],
        { status := 409, message := "Loaded files: x.txt, x.txt FAILED!".toList })) :=
  ⟨fun now userID testMode s1 s sched h1 h2 hfin =>
      writeFirst_outcome now userID testMode s1 s sched h1 h2 hfin,
    fun now userID testMode => same_name_race now userID (userDir testMode userID)⟩

theorem same_name_twice_after_first_write_witness :
    ∃ s1 s, run 0 1 (userDir false 1) (Sys.init [fileX, fileX] (FileSys.ofPaths []) dbEmpty)
        ([Action.launch, Action.launch] ++ moves 0 3) = some s1 ∧
      run 0 1 (userDir false 1) s1
        [Action.advance 1, Action.advance 0, Action.advance 1, Action.advance 1,
          Action.advance 1, Action.advance 1, Action.advance 0, Action.advance 1,
          Action.advance 0, Action.advance 1] = some s ∧
      s.finished = true ∧
      s.world.db.files.map (fun f => f.Path) =
        [Join [userDir false 1, "x.txt".toList], Join [userDir false 1, "x(1).txt".toList]] ∧
      (respond s.world).status = 200 := by
  have hsome : (run 0 1 (userDir false 1) (xMid 0 1 (userDir false 1))
      [Action.advance 1, Action.advance 0, Action.advance 1, Action.advance 1,
        Action.advance 1, Action.advance 1, Action.advance 0, Action.advance 1,
        Action.advance 0, Action.advance 1]).map Sys.finished = some true := by
    decide
  cases hrun : run 0 1 (userDir false 1) (xMid 0 1 (userDir false 1))
      [Action.advance 1, Action.advance 0, Action.advance 1, Action.advance 1,
        Action.advance 1, Action.advance 1, Action.advance 0, Action.advance 1,
        Action.advance 0, Action.advance 1] with
  | none =>
    rw [hrun] at hsome
    cases hsome
  | some s =>
    rw [hrun] at hsome
    have hfin : s.finished = true := by simpa using hsome
    exact ⟨xMid 0 1 (userDir false 1), s, xMid_reached 0 1 _, hrun, hfin,
      (same_name_twice_after_first_write.1 0 1 false _ s _ (xMid_reached 0 1 _) hrun hfin).1,
      (same_name_twice_after_first_write.1 0 1 false _ s _ (xMid_reached 0 1 _) hrun hfin).2.2.2⟩

/-! ### The first candidate is none of the numbered ones -/

theorem cleanRender_push (r : Bool) (K : List GoString) (y : GoString) (hy : y ≠ []) :
    cleanRender r (y :: K) =
      ((if r then ['/'] else []) ++
        (if K = [] then [] else stringsJoin K.reverse ['/'] ++ ['/'])) ++ y := by
  simp only [cleanRender, List.reverse_cons, stringsJoin_snoc]
  by_cases hr : r = true <;> cases K <;> simp [hr, hy]

theorem cleanRender_length (r : Bool) (K : List GoString) :
    (cleanRender r K).length ≤
      max 1 ((if r then 1 else 0) + (stringsJoin K.reverse ['/']).length) := by
  unfold cleanRender
  by_cases hr : r = true <;>
    by_cases hb : (if r = true then ['/'] else []) ++ stringsJoin K.reverse ['/'] = []
  all_goals simp only [hb, if_true, if_false]
  all_goals simp [hr]
  all_goals omega

theorem Clean_sep_noSep (d b : GoString) (hd : d ≠ []) (hb : NoSep b) :
    Clean (d ++ '/' :: b) = cleanRender (rootedBefore d) (cleanStep (rootedBefore d) (keptBefore d) b) := by
  obtain ⟨c, cs, rfl⟩ := List.exists_cons_of_ne_nil hd
  have hsplit : splitSep (c :: cs ++ '/' :: b) = splitSep (c :: cs) ++ [b] := by
    rw [splitSep_append_sep, splitSep_noSep b hb]
  simp only [List.cons_append] at hsplit ⊢
  simp only [Clean, hsplit, List.foldl_append, List.foldl_cons, List.foldl_nil, rootedBefore,
    keptBefore]

theorem Clean_sep_sep (d : GoString) (hd : d ≠ []) :
    Clean (d ++ '/' :: ['/']) = cleanRender (rootedBefore d) (keptBefore d) := by
  obtain ⟨c, cs, rfl⟩ := List.exists_cons_of_ne_nil hd
  have hsplit : splitSep (c :: cs ++ '/' :: ['/']) = splitSep (c :: cs) ++ [[], []] := by
    rw [splitSep_append_sep]
    rfl
  simp only [List.cons_append] at hsplit ⊢
  simp only [Clean, hsplit, List.foldl_append, List.foldl_cons, List.foldl_nil, rootedBefore,
    keptBefore]
  simp [cleanStep]

theorem stringsJoin_nil (sep : GoString) : stringsJoin [] sep = [] := rfl

theorem cleanRender_ne_below (r : Bool) (K : List GoString) (x : GoString) (hx : 2 ≤ x.length) :
    cleanRender r K ≠
      ((if r then ['/'] else []) ++
        (if K = [] then [] else stringsJoin K.reverse ['/'] ++ ['/'])) ++ x := by
  intro h
  have h1 := cleanRender_length r K
  have h2 := congrArg List.length h
  rw [h2] at h1
  cases r <;> cases K with
  | nil =>
    simp [stringsJoin_nil] at h1
    first
      | omega
      | (rw [h1] at hx; simp at hx)
  | cons t ts => simp at h1; omega

theorem cleanRender_step_ne (r : Bool) (K : List GoString) (b x : GoString)
    (hx : 2 ≤ x.length) (hxb : x ≠ b) (hxd : x ≠ ['.', '.']) :
    cleanRender r (cleanStep r K b) ≠
      ((if r then ['/'] else []) ++
        (if K = [] then [] else stringsJoin K.reverse ['/'] ++ ['/'])) ++ x := by
  unfold cleanStep
  by_cases h1 : b = [] ∨ b = ['.']
  · simp only [h1, if_true]
    exact cleanRender_ne_below r K x hx
  · simp only [h1, if_false]
    have hb : b ≠ [] := fun h => h1 (Or.inl h)
    by_cases h2 : b = ['.', '.']
    · simp only [h2, if_true]
      cases K with
      | nil =>
        cases r
        · simp only [Bool.false_eq_true, if_false]
          rw [cleanRender_push _ _ _ (by simp)]
          intro h
          exact hxd (List.append_cancel_left h).symm
        · simp only [if_true]
          exact cleanRender_ne_below true [] x hx
      | cons top below =>
        by_cases ht : top = ['.', '.']
        · simp only [ht, if_true]
          rw [cleanRender_push _ _ _ (by simp)]
          intro h
          exact hxd (List.append_cancel_left h).symm
        · simp only [ht, if_false]
          intro h
          have h1 := cleanRender_length r below
          have h2 := congrArg List.length h
          rw [h2] at h1
          simp only [List.reverse_cons, stringsJoin_snoc] at h1
          cases r <;> by_cases hbel : below.reverse = [] <;>
            simp [hbel, stringsJoin_nil] at h1 <;> omega
    · simp only [h2, if_false]
      rw [cleanRender_push _ _ _ hb]
      intro h
      exact hxb (List.append_cancel_left h).symm

theorem numberedElem_length (b e : GoString) (n : Nat) :
    2 ≤ (numberedElem b e n).length := by
  simp [numberedElem]
  omega

theorem numberedElem_ne_base (f : GoString) (n : Nat) :
    numberedElem (Base f) (Ext (Base f)) n ≠ Base f := by
  intro h
  have h2 := congrArg List.length h
  by_cases hb : Base f = ['/']
  · rw [hb] at h2
    simp [numberedElem] at h2
  · have hs := congrArg List.length (stem_append_ext (Base f))
    simp [numberedElem, hb] at h2 hs
    omega

/-- The path probed first is none of the numbered paths. -/
theorem first_ne_numbered (d f : GoString) (n : Nat) :
    Join [d, Base f] ≠ numbered d (TrimSuffix (Base f) (Ext (Base f))) (Ext (Base f)) n := by
  rw [numbered_eq, Join_pair]
  have hx := numberedElem_plain f n
  have hl := numberedElem_length (Base f) (Ext (Base f)) n
  have hxb := numberedElem_ne_base f n
  have hbn := Base_ne_nil f
  by_cases hd : d = []
  · simp only [hd, if_true, hbn, if_false, numberedPrefix]
    rcases Base_shape f with hns | hs
    · have hb : Base f ≠ ['/'] := by
        intro h
        have := hns '/' (by rw [h]; simp)
        exact absurd this (by decide)
      simp only [hb, if_false, List.nil_append]
      obtain ⟨c, cs, hc⟩ := List.exists_cons_of_ne_nil hbn
      have hcsep : isPathSeparator c = false := hns c (by rw [hc]; simp)
      have hC : Clean (Base f) = cleanRender false (cleanStep false [] (Base f)) := by
        rw [hc] at hns ⊢
        simp only [Clean, splitSep_noSep _ hns, List.foldl_cons, List.foldl_nil, hcsep]
      rw [hC]
      have := cleanRender_step_ne false [] (Base f) _ hl hxb hx.2.2.2
      simpa using this
    · rw [hs] at hl
      simp only [hs, if_true]
      have h1 : Clean ['/'] = ['/'] := by decide
      have h2 : cleanPrefix [] = ['/'] := by decide
      rw [h1, h2]
      intro h
      have := congrArg List.length h
      simp only [List.length_append, List.length_cons, List.length_nil] at this
      omega
  · simp only [hd, if_false, numberedPrefix]
    rcases Base_shape f with hns | hs
    · have hb : Base f ≠ ['/'] := by
        intro h
        have := hns '/' (by rw [h]; simp)
        exact absurd this (by decide)
      simp only [hb, if_false]
      rw [Clean_sep_noSep d _ hd hns]
      exact cleanRender_step_ne _ _ _ _ hl hxb hx.2.2.2
    · rw [hs] at hl
      simp only [hs, if_true]
      rw [Clean_sep_sep d hd, cleanPrefix_trailing_sep d hd]
      exact cleanRender_ne_below _ _ _ hl

theorem probe_record_run (existing : List GoString) (d s e : GoString) (k : Nat) :
    ∀ (j fuel : Nat), (∀ m, j ≤ m → m < j + k → numbered d s e m ∈ existing) →
      numbered d s e (j + k) ∉ existing → k < fuel →
      probeCalls (FileSys.ofPaths existing) d s e fuel (numbered d s e j) (j + 1) =
          (List.range' j (k + 1)).map (numbered d s e) ∧
        probeCounters (FileSys.ofPaths existing) d s e fuel (numbered d s e j) (j + 1) =
          List.range' (j + 1) k := by
  induction k with
  | zero =>
    intro j fuel _ hfree hfuel
    obtain ⟨g, rfl⟩ : ∃ g, fuel = g + 1 := ⟨fuel - 1, by omega⟩
    have hfree2 : numbered d s e j ∉ existing := by simpa using hfree
    simp [probeCalls, probeCounters, ofPaths_Stat, hfree2]
  | succ k ih =>
    intro j fuel hall hfree hfuel
    obtain ⟨g, rfl⟩ : ∃ g, fuel = g + 1 := ⟨fuel - 1, by omega⟩
    have hj : numbered d s e j ∈ existing := hall j (le_refl _) (by omega)
    have hrec := ih (j + 1) g (fun m h1 h2 => hall m (by omega) (by omega))
      (by rw [show j + 1 + k = j + (k + 1) by omega]; exact hfree) (by omega)
    simp only [probeCalls, probeCounters, ofPaths_Stat, hj, if_true, hrec.1, hrec.2]
    constructor
    · rw [List.range'_succ j (k + 1)]
      rfl
    · rw [List.range'_succ (j + 1) k]

theorem getLast?_cons_of_some {α : Type} (a p : α) (l : List α) (h : l.getLast? = some p) :
    (a :: l).getLast? = some p := by
  cases l with
  | nil => cases h
  | cons b t => simpa [List.getLast?_cons_cons] using h

/-- The path the probing loop returns is the one it probed last. -/
theorem probeCalls_last (fs : FileSys) (d s e : GoString) (fuel : Nat) :
    ∀ (path base : GoString) (num : Nat) (p b : GoString),
      probeLoop fs d s e fuel path base num = some (p, b) →
      (probeCalls fs d s e fuel path num).getLast? = some p := by
  induction fuel with
  | zero =>
    intro path base num p b h
    cases h
  | succ fuel ih =>
    intro path base num p b h
    unfold probeLoop at h
    unfold probeCalls
    cases hs : fs.Stat path with
    | notExist =>
      simp only [hs] at h
      cases h
      rfl
    | otherErr =>
      simp only [hs] at h
      cases h
      rfl
    | ok =>
      simp only [hs] at h
      exact getLast?_cons_of_some _ _ _ (ih _ _ _ _ _ h)

/-- Claim C11. Termination and monotonicity of collision resolution. For every
directory, every desired name and every finite set `existing` of paths, the
probing loop of `Upload` ends after `n + 1` probes for some `n` that is at most
the number of existing paths: with more fuel than `n` the resolution returns.
The counter values it formats are exactly `1, 2, ..., n`, in strictly
increasing order, and the paths it probes are the unnumbered path followed by
the numbered paths of these counters, the last of them being the path
returned; no path occurs twice among them, distinct counters giving distinct
paths. The counter is a natural number here: the `int` of the source could
only wrap after more probes than a file system holds paths. -/
theorem probing_terminates_counters_increase (d filename : GoString)
    (existing : List GoString) :
    ∃ n, n ≤ existing.length ∧
      (∀ fuel, n < fuel →
        (resolve (FileSys.ofPaths existing) d filename fuel).isSome = true ∧
        probeCounters (FileSys.ofPaths existing) d
            (TrimSuffix (Base filename) (Ext (Base filename))) (Ext (Base filename)) fuel
            (Join [d, Base filename]) 1 = List.range' 1 n ∧
        probeCalls (FileSys.ofPaths existing) d
            (TrimSuffix (Base filename) (Ext (Base filename))) (Ext (Base filename)) fuel
            (Join [d, Base filename]) 1 =
          Join [d, Base filename] :: (List.range' 1 n).map
            (numbered d (TrimSuffix (Base filename) (Ext (Base filename)))
              (Ext (Base filename))) ∧
        (resolve (FileSys.ofPaths existing) d filename fuel).map Prod.fst =
          (probeCalls (FileSys.ofPaths existing) d
            (TrimSuffix (Base filename) (Ext (Base filename))) (Ext (Base filename)) fuel
            (Join [d, Base filename]) 1).getLast?) ∧
      (List.range' 1 n).Pairwise (fun a b => a < b) ∧
      (Join [d, Base filename] :: (List.range' 1 n).map
        (numbered d (TrimSuffix (Base filename) (Ext (Base filename)))
          (Ext (Base filename)))).Nodup ∧
      Function.Injective
        (numbered d (TrimSuffix (Base filename) (Ext (Base filename))) (Ext (Base filename))) := by
  have hinj := numbered_injective d filename
  have hnodup : ∀ n, (Join [d, Base filename] :: (List.range' 1 n).map
      (numbered d (TrimSuffix (Base filename) (Ext (Base filename)))
        (Ext (Base filename)))).Nodup := by
    intro n
    rw [List.nodup_cons]
    refine ⟨?_, (List.nodup_range' 1 n).map hinj⟩
    intro hmem
    obtain ⟨m, _, hm⟩ := List.mem_map.mp hmem
    exact first_ne_numbered d filename m hm.symm
  have hsorted : ∀ n, (List.range' 1 n).Pairwise (fun a b => a < b) := by
    intro n
    exact List.pairwise_lt_range' 1 n
  have hlast : ∀ fuel, (resolve (FileSys.ofPaths existing) d filename fuel).isSome = true →
      (resolve (FileSys.ofPaths existing) d filename fuel).map Prod.fst =
        (probeCalls (FileSys.ofPaths existing) d
          (TrimSuffix (Base filename) (Ext (Base filename))) (Ext (Base filename)) fuel
          (Join [d, Base filename]) 1).getLast? := by
    intro fuel hsome
    cases hres : resolve (FileSys.ofPaths existing) d filename fuel with
    | none =>
      rw [hres] at hsome
      cases hsome
    | some r =>
      obtain ⟨p, b⟩ := r
      unfold resolve at hres
      rw [probeCalls_last _ _ _ _ _ _ _ _ _ _ hres]
      rfl
  by_cases h0 : Join [d, Base filename] ∈ existing
  · have hex := exists_free_counter d filename existing
    classical
    let n := Nat.find hex
    have hn : 1 ≤ n ∧ _ := Nat.find_spec hex
    have hmin : ∀ m, 1 ≤ m → m < n →
        numbered d (TrimSuffix (Base filename) (Ext (Base filename)))
          (Ext (Base filename)) m ∈ existing := by
      intro m h1 h2
      have := Nat.find_min hex h2
      by_contra hc
      exact this ⟨h1, hc⟩
    refine ⟨n, ?_, ?_, hsorted n, hnodup n, hinj⟩
    · have hsub : (Join [d, Base filename] :: (List.range' 1 (n - 1)).map
          (numbered d (TrimSuffix (Base filename) (Ext (Base filename)))
            (Ext (Base filename)))) ⊆ existing := by
        intro p hp
        rcases List.mem_cons.mp hp with rfl | hp
        · exact h0
        · obtain ⟨m, hm, rfl⟩ := List.mem_map.mp hp
          rw [List.mem_range'_1] at hm
          exact hmin m hm.1 (by omega)
      have hlen := (List.subperm_of_subset (hnodup (n - 1)) hsub).length_le
      simp only [List.length_cons, List.length_map, List.length_range'] at hlen
      omega
    · intro fuel hfuel
      obtain ⟨g, rfl⟩ : ∃ g, fuel = g + 1 := ⟨fuel - 1, by omega⟩
      have hfree : numbered d (TrimSuffix (Base filename) (Ext (Base filename)))
          (Ext (Base filename)) (1 + (n - 1)) ∉ existing := by
        rw [show 1 + (n - 1) = n by omega]; exact hn.2
      have hrun := probeLoop_run existing d (TrimSuffix (Base filename) (Ext (Base filename)))
        (Ext (Base filename)) (n - 1) 1 g (fun m h1 h2 => hmin m h1 (by omega)) hfree (by omega)
      have hrec := probe_record_run existing d (TrimSuffix (Base filename) (Ext (Base filename)))
        (Ext (Base filename)) (n - 1) 1 g (fun m h1 h2 => hmin m h1 (by omega)) hfree (by omega)
      have hsome : (resolve (FileSys.ofPaths existing) d filename (g + 1)).isSome = true := by
        simp only [resolve, probeLoop, ofPaths_Stat, h0, if_true]
        rw [hrun]
        rfl
      refine ⟨hsome, ?_, ?_, hlast (g + 1) hsome⟩
      · simp only [probeCounters, ofPaths_Stat, h0, if_true, hrec.2]
        rw [show n = (n - 1) + 1 by omega, List.range'_succ 1 (n - 1)]
        simp
      · simp only [probeCalls, ofPaths_Stat, h0, if_true, hrec.1]
        rw [show n - 1 + 1 = n by omega]
  · refine ⟨0, Nat.zero_le _, ?_, hsorted 0, hnodup 0, hinj⟩
    intro fuel hfuel
    obtain ⟨g, rfl⟩ : ∃ g, fuel = g + 1 := ⟨fuel - 1, by omega⟩
    have hsome : (resolve (FileSys.ofPaths existing) d filename (g + 1)).isSome = true := by
      simp [resolve, probeLoop, ofPaths_Stat, h0]
    refine ⟨hsome, ?_, ?_, hlast (g + 1) hsome⟩ <;>
      simp [probeCounters, probeCalls, ofPaths_Stat, h0]

/-! ### The password rules -/

theorem checkPassLoop_iff (rest : GoString) :
    ∀ (l u d s : Bool), checkPassLoop rest l u d s = true ↔
      (∀ c ∈ rest, 32 ≤ c.toNat ∧ c.toNat ≤ 126) ∧
      (l = true ∨ ∃ c ∈ rest, 'a'.toNat ≤ c.toNat ∧ c.toNat ≤ 'z'.toNat) ∧
      (u = true ∨ ∃ c ∈ rest, 'A'.toNat ≤ c.toNat ∧ c.toNat ≤ 'Z'.toNat) ∧
      (d = true ∨ ∃ c ∈ rest, '0'.toNat ≤ c.toNat ∧ c.toNat ≤ '9'.toNat) ∧
      (s = true ∨ ∃ c ∈ rest, 32 ≤ c.toNat ∧ c.toNat ≤ 126 ∧
        ¬ ('a'.toNat ≤ c.toNat ∧ c.toNat ≤ 'z'.toNat) ∧
        ¬ ('A'.toNat ≤ c.toNat ∧ c.toNat ≤ 'Z'.toNat) ∧
        ¬ ('0'.toNat ≤ c.toNat ∧ c.toNat ≤ '9'.toNat)) := by
  have ha : 'a'.toNat = 97 := rfl
  have hz : 'z'.toNat = 122 := rfl
  have hA : 'A'.toNat = 65 := rfl
  have hZ : 'Z'.toNat = 90 := rfl
  have h0 : '0'.toNat = 48 := rfl
  have h9 : '9'.toNat = 57 := rfl
  rw [ha, hz, hA, hZ, h0, h9]
  induction rest with
  | nil =>
    intro l u d s
    simp [checkPassLoop]
    tauto
  | cons c cs ih =>
    intro l u d s
    simp only [checkPassLoop, ha, hz, hA, hZ, h0, h9, List.mem_cons, forall_eq_or_imp,
      exists_eq_or_imp]
    by_cases h1 : 97 ≤ c.toNat ∧ c.toNat ≤ 122
    · rw [if_pos h1, ih]
      have : 32 ≤ c.toNat ∧ c.toNat ≤ 126 := by omega
      have n2 : ¬ (65 ≤ c.toNat ∧ c.toNat ≤ 90) := by omega
      have n3 : ¬ (48 ≤ c.toNat ∧ c.toNat ≤ 57) := by omega
      simp [this, n2, n3, h1]
    · rw [if_neg h1]
      by_cases h2 : 65 ≤ c.toNat ∧ c.toNat ≤ 90
      · rw [if_pos h2, ih]
        have : 32 ≤ c.toNat ∧ c.toNat ≤ 126 := by omega
        have n3 : ¬ (48 ≤ c.toNat ∧ c.toNat ≤ 57) := by omega
        simp [this, n3, h1, h2]
      · rw [if_neg h2]
        by_cases h3 : 48 ≤ c.toNat ∧ c.toNat ≤ 57
        · rw [if_pos h3, ih]
          have : 32 ≤ c.toNat ∧ c.toNat ≤ 126 := by omega
          simp [this, h1, h2, h3]
        · rw [if_neg h3]
          by_cases h4 : c.toNat < 32 ∨ c.toNat > 126
          · rw [if_pos h4]
            have : ¬ (32 ≤ c.toNat ∧ c.toNat ≤ 126) := by omega
            simp [this]
          · rw [if_neg h4, ih]
            have : 32 ≤ c.toNat ∧ c.toNat ≤ 126 := by omega
            simp [this, h1, h2, h3]

/-- Claim C13. Password gate. For every string `p`, `checkPass p` is true
exactly when `p` is at least 16 bytes long, every character of `p` is
printable ASCII (code points 32 to 126), and `p` contains a lowercase letter,
an uppercase letter, a digit and a special character, that is a printable
ASCII character that is neither a letter nor a digit. The password
`abcdEFGH1234!@#$` is accepted, `abcdEFGH1234!@#` of 15 characters and
`ABCDEFGH1234!@#$` without a lowercase letter are rejected, and every string
with a character outside printable ASCII is rejected, whatever else it
contains. -/
theorem checkPass_characterisation :
    (∀ p : GoString, checkPass p = true ↔
      16 ≤ byteLen p ∧
      (∀ c ∈ p, 32 ≤ c.toNat ∧ c.toNat ≤ 126) ∧
      (∃ c ∈ p, 'a'.toNat ≤ c.toNat ∧ c.toNat ≤ 'z'.toNat) ∧
      (∃ c ∈ p, 'A'.toNat ≤ c.toNat ∧ c.toNat ≤ 'Z'.toNat) ∧
      (∃ c ∈ p, '0'.toNat ≤ c.toNat ∧ c.toNat ≤ '9'.toNat) ∧
      (∃ c ∈ p, 32 ≤ c.toNat ∧ c.toNat ≤ 126 ∧
        ¬ ('a'.toNat ≤ c.toNat ∧ c.toNat ≤ 'z'.toNat) ∧
        ¬ ('A'.toNat ≤ c.toNat ∧ c.toNat ≤ 'Z'.toNat) ∧
        ¬ ('0'.toNat ≤ c.toNat ∧ c.toNat ≤ '9'.toNat))) ∧
    checkPass "abcdEFGH1234!@#$".toList = true ∧
    checkPass "abcdEFGH1234!@#".toList = false ∧
    checkPass "ABCDEFGH1234!@#$".toList = false ∧
    (∀ p : GoString, (∃ c ∈ p, c.toNat < 32 ∨ 126 < c.toNat) → checkPass p = false) := by
  have hiff : ∀ p : GoString, checkPass p = true ↔
      16 ≤ byteLen p ∧
      (∀ c ∈ p, 32 ≤ c.toNat ∧ c.toNat ≤ 126) ∧
      (∃ c ∈ p, 'a'.toNat ≤ c.toNat ∧ c.toNat ≤ 'z'.toNat) ∧
      (∃ c ∈ p, 'A'.toNat ≤ c.toNat ∧ c.toNat ≤ 'Z'.toNat) ∧
      (∃ c ∈ p, '0'.toNat ≤ c.toNat ∧ c.toNat ≤ '9'.toNat) ∧
      (∃ c ∈ p, 32 ≤ c.toNat ∧ c.toNat ≤ 126 ∧
        ¬ ('a'.toNat ≤ c.toNat ∧ c.toNat ≤ 'z'.toNat) ∧
        ¬ ('A'.toNat ≤ c.toNat ∧ c.toNat ≤ 'Z'.toNat) ∧
        ¬ ('0'.toNat ≤ c.toNat ∧ c.toNat ≤ '9'.toNat)) := by
    intro p
    unfold checkPass
    by_cases hlen : byteLen p < 16
    · simp only [hlen, if_true]
      constructor
      · intro h; cases h
      · intro h; omega
    · simp only [hlen, if_false, checkPassLoop_iff]
      simp only [Bool.false_eq_true, false_or]
      constructor
      · intro h; exact ⟨by omega, h⟩
      · intro h; exact h.2
  refine ⟨hiff, by decide, by decide, by decide, ?_⟩
  intro p ⟨c, hc, hout⟩
  cases hcp : checkPass p with
  | false => rfl
  | true =>
    have := ((hiff p).mp hcp).2.1 c hc
    omega

/-! ### Logging in -/

theorem LogIn_bound (bc : Bcrypt) (db : DB) (username password : GoString) :
    (LogIn bc db ⟨username, password, false⟩).1 =
        (match db.FirstUser username with
          | none => Data.nil
          | some entry =>
            if bc.CompareHashAndPassword entry.Password password then Data.userPtr (some entry)
            else Data.nil) ∧
      (LogIn bc db ⟨username, password, false⟩).2.1 =
        (match db.FirstUser username with
          | none => some AuthError.ErrFailedAuthentication
          | some entry =>
            if bc.CompareHashAndPassword entry.Password password then none
            else some AuthError.ErrFailedAuthentication) := by
  cases hf : db.FirstUser username with
  | none => simp [LogIn, hf]
  | some entry =>
    by_cases h : bc.CompareHashAndPassword entry.Password password = true <;>
      simp [LogIn, hf, h]

theorem FirstUser_mem (db : DB) (username : GoString) (u : User)
    (h : db.FirstUser username = some u) : u ∈ db.users ∧ u.Username = username := by
  unfold DB.FirstUser at h
  refine ⟨List.mem_of_find?_eq_some h, ?_⟩
  have := List.find?_some h
  simpa using this

theorem FirstUser_unique (db : DB) (username : GoString) (u : User)
    (hU : (db.users.map (fun v => v.Username)).Nodup) (hu : u ∈ db.users)
    (hn : u.Username = username) : db.FirstUser username = some u := by
  cases hf : db.FirstUser username with
  | none =>
    unfold DB.FirstUser at hf
    rw [List.find?_eq_none] at hf
    have := hf u hu
    simp [hn] at this
  | some v =>
    have hv := FirstUser_mem db username v hf
    have := List.inj_on_of_nodup_map hU hv.1 hu (by rw [hv.2, hn])
    rw [this]

/-- Claim C12. LogIn outcome. For every username and password that bind,
`LogIn` returns a user record `u` and no error exactly when `u` is the record
stored under that username and the password verifies against the hash in
`u`; with usernames unique in the store, that is exactly when a user `u` with
that username exists and the password verifies against its hash. When no
user of that name has a hash the password verifies against, be it that no
such user exists or that the password does not match, `LogIn` returns no
record and the error `ErrFailedAuthentication`: the result is the same in
both cases, as it is for an unknown user and for a wrong password of
`testuser`. -/
theorem logIn_record_iff_user_and_password :
    (∀ (bc : Bcrypt) (db : DB) (username password : GoString) (u : User),
      ((LogIn bc db ⟨username, password, false⟩).1 = Data.userPtr (some u) ∧
          (LogIn bc db ⟨username, password, false⟩).2.1 = none) ↔
        (db.FirstUser username = some u ∧
          bc.CompareHashAndPassword u.Password password = true)) ∧
    (∀ (bc : Bcrypt) (db : DB) (username password : GoString) (u : User),
      (db.users.map (fun v => v.Username)).Nodup →
      (((LogIn bc db ⟨username, password, false⟩).1 = Data.userPtr (some u) ∧
          (LogIn bc db ⟨username, password, false⟩).2.1 = none) ↔
        (u ∈ db.users ∧ u.Username = username ∧
          bc.CompareHashAndPassword u.Password password = true))) ∧
    (∀ (bc : Bcrypt) (db : DB) (username password : GoString),
      (∀ u ∈ db.users, u.Username = username →
        bc.CompareHashAndPassword u.Password password = false) →
      (LogIn bc db ⟨username, password, false⟩).1 = Data.nil ∧
        (LogIn bc db ⟨username, password, false⟩).2.1 =
          some AuthError.ErrFailedAuthentication) ∧
    ((LogIn toyBcrypt dbOneUser ⟨"testuser".toList, goodPass, false⟩).1 =
        Data.userPtr (some ⟨1, "testuser".toList, toyBcrypt.digest goodPass⟩) ∧
      (LogIn toyBcrypt dbOneUser ⟨"someuser".toList, goodPass, false⟩).2.1 =
        some AuthError.ErrFailedAuthentication ∧
      (LogIn toyBcrypt dbOneUser ⟨"testuser".toList, longPass, false⟩).2.1 =
        some AuthError.ErrFailedAuthentication ∧
      ((LogIn toyBcrypt dbOneUser ⟨"someuser".toList, goodPass, false⟩).1,
          (LogIn toyBcrypt dbOneUser ⟨"someuser".toList, goodPass, false⟩).2.1) =
        ((LogIn toyBcrypt dbOneUser ⟨"testuser".toList, longPass, false⟩).1,
          (LogIn toyBcrypt dbOneUser ⟨"testuser".toList, longPass, false⟩).2.1)) := by
  have hfirst : ∀ (bc : Bcrypt) (db : DB) (username password : GoString) (u : User),
      ((LogIn bc db ⟨username, password, false⟩).1 = Data.userPtr (some u) ∧
          (LogIn bc db ⟨username, password, false⟩).2.1 = none) ↔
        (db.FirstUser username = some u ∧
          bc.CompareHashAndPassword u.Password password = true) := by
    intro bc db username password u
    rw [(LogIn_bound bc db username password).1, (LogIn_bound bc db username password).2]
    cases hf : db.FirstUser username with
    | none => simp
    | some entry =>
      by_cases h : bc.CompareHashAndPassword entry.Password password = true
      · simp only [h, if_true]
        constructor
        · rintro ⟨h1, _⟩
          have : entry = u := by simpa using h1
          subst this
          exact ⟨rfl, h⟩
        · rintro ⟨h1, _⟩
          have : entry = u := by simpa using h1
          subst this
          exact ⟨rfl, trivial⟩
      · simp only [h, if_false]
        constructor
        · rintro ⟨h1, _⟩
          cases h1
        · rintro ⟨h1, h2⟩
          have : entry = u := by simpa using h1
          subst this
          exact absurd h2 h
  refine ⟨hfirst, ?_, ?_, ?_⟩
  · intro bc db username password u hU
    rw [hfirst]
    constructor
    · rintro ⟨h1, h2⟩
      exact ⟨(FirstUser_mem db username u h1).1, (FirstUser_mem db username u h1).2, h2⟩
    · rintro ⟨h1, h2, h3⟩
      exact ⟨FirstUser_unique db username u hU h1 h2, h3⟩
  · intro bc db username password hall
    rw [(LogIn_bound bc db username password).1, (LogIn_bound bc db username password).2]
    cases hf : db.FirstUser username with
    | none => simp
    | some entry =>
      have hm := FirstUser_mem db username entry hf
      have := hall entry hm.1 hm.2
      simp [this]
  · refine ⟨by decide, by decide, by decide, by decide⟩

/-- Claim C16. Token payload. For every user record `u`, `Payload` applied to
a pointer to `u` returns the claims map with the single entry `id`, mapped to
the ID of `u`: 42 for user 42. For data of any other type, the empty string
and `nil` among them, it returns the empty claims map. (A nil pointer of the
user type, which no caller passes, is dereferenced.) -/
theorem payload_is_user_id :
    (∀ u : User, Payload (Data.userPtr (some u)) = some [("id".toList, u.ID)]) ∧
    Payload (Data.userPtr (some { ID := 42, Username := "testuser".toList, Password := [] })) =
      some [("id".toList, 42)] ∧
    (∀ data : Data, (∀ v, data ≠ Data.userPtr v) → Payload data = some []) ∧
    Payload (Data.str []) = some [] ∧
    Payload Data.nil = some [] ∧
    Payload (LogIn toyBcrypt dbOneUser ⟨"testuser".toList, goodPass, false⟩).1 =
      some [("id".toList, 1)] := by
  refine ⟨fun u => rfl, rfl, ?_, rfl, rfl, by decide⟩
  intro data h
  cases data with
  | nil => rfl
  | str s => rfl
  | userPtr v => exact absurd rfl (h v)

/-! ### Registering -/

theorem SignUp_bound (bc : Bcrypt) (db : DB) (user pass : GoString)
    (hu : user ≠ []) (hp : checkPass pass = true) :
    SignUp bc db ⟨user, pass, false⟩ =
      (match bc.GenerateFromPassword pass with
        | none =>
          ({ status := StatusInternalServerError
             message := "Failed to register. Password problem.".toList }, db,
            [{ level := DebugLevel
               fields := [("username".toList, user), ("password".toList, pass)]
               message := "spa-api/handlers.SignUp() register data:".toList },
             { level := ErrorLevel
               fields := [("password".toList, pass)]
               message := "spa-api/handlers.SignUp() bcrypt hashing error:".toList }])
        | some hashedPass =>
          match db.CreateUser { ID := 0, Username := user, Password := hashedPass } with
          | none =>
            ({ status := StatusConflict
               message := "Failed to register. This user exists.".toList }, db,
              [{ level := DebugLevel
                 fields := [("username".toList, user), ("password".toList, pass)]
                 message := "spa-api/handlers.SignUp() register data:".toList }])
          | some db1 =>
            ({ status := StatusOK, message := "Success registration.".toList }, db1,
              [{ level := DebugLevel
                 fields := [("username".toList, user), ("password".toList, pass)]
                 message := "spa-api/handlers.SignUp() register data:".toList }])) := by
  simp only [SignUp, hu, hp, if_false, Bool.false_eq_true, Bool.not_true]
  cases bc.GenerateFromPassword pass with
  | none => rfl
  | some h =>
    cases db.CreateUser { ID := 0, Username := user, Password := h } <;> rfl

/-- Claim C14. Over-long passwords are refused. For every registration request
whose password is longer than 72 bytes, `SignUp` does not answer 200 and
leaves the user records as they were: no record is created, with a truncated
password or otherwise. When such a request binds, names a user and passes the
password rules, the answer is 500. The refusal is that of
`bcrypt.GenerateFromPassword`, whose error `SignUp` reports. -/
theorem signUp_refuses_password_over_72_bytes (bc : Bcrypt) (db : DB) (c : Binding)
    (hlong : 72 < byteLen c.Password) :
    (SignUp bc db c).1.status ≠ StatusOK ∧ (SignUp bc db c).2.1 = db ∧
      (c.err = false → c.Username ≠ [] → checkPass c.Password = true →
        (SignUp bc db c).1.status = StatusInternalServerError) := by
  have hgen : bc.GenerateFromPassword c.Password = none := by
    simp [Bcrypt.GenerateFromPassword, hlong]
  obtain ⟨user, pass, err⟩ := c
  cases err with
  | true => exact ⟨by simp [SignUp]; decide, by simp [SignUp], fun h => by cases h⟩
  | false =>
    by_cases hu : user = []
    · exact ⟨by simp [SignUp, hu]; decide, by simp [SignUp, hu], fun _ h => absurd hu h⟩
    · by_cases hp : checkPass pass = true
      · rw [SignUp_bound bc db user pass hu hp]
        simp only at hgen
        rw [hgen]
        exact ⟨by simp [StatusInternalServerError, StatusOK], rfl, fun _ _ _ => rfl⟩
      · have hp2 : checkPass pass = false := by simpa using hp
        refine ⟨by simp [SignUp, hu, hp2]; decide, by simp [SignUp, hu, hp2], ?_⟩
        intro _ _ h
        exact absurd h hp

theorem signUp_refuses_password_over_72_bytes_witness :
    72 < byteLen longPass ∧
      (SignUp toyBcrypt dbEmpty ⟨"testuser".toList, longPass, false⟩).1.status ≠ StatusOK ∧
      (SignUp toyBcrypt dbEmpty ⟨"testuser".toList, longPass, false⟩).2.1 = dbEmpty ∧
      (SignUp toyBcrypt dbEmpty ⟨"testuser".toList, longPass, false⟩).1.status =
        StatusInternalServerError :=
  ⟨by decide,
    (signUp_refuses_password_over_72_bytes toyBcrypt dbEmpty
      ⟨"testuser".toList, longPass, false⟩ (by decide)).1,
    (signUp_refuses_password_over_72_bytes toyBcrypt dbEmpty
      ⟨"testuser".toList, longPass, false⟩ (by decide)).2.1,
    (signUp_refuses_password_over_72_bytes toyBcrypt dbEmpty
      ⟨"testuser".toList, longPass, false⟩ (by decide)).2.2 rfl (by decide) (by decide)⟩

theorem SignUp_log_bound (bc : Bcrypt) (db : DB) (user pass : GoString) :
    ∃ tail, (SignUp bc db ⟨user, pass, false⟩).2.2 =
        { level := DebugLevel
          fields := [("username".toList, user), ("password".toList, pass)]
          message := "spa-api/handlers.SignUp() register data:".toList } :: tail ∧
      (byteLen pass ≤ 72 → tail = []) ∧
      (user ≠ [] → checkPass pass = true → 72 < byteLen pass →
        tail = [{ level := ErrorLevel
                  fields := [("password".toList, pass)]
                  message := "spa-api/handlers.SignUp() bcrypt hashing error:".toList }]) := by
  by_cases hu : user = []
  · exact ⟨[], by simp [SignUp, hu], fun _ => rfl, fun h => absurd hu h⟩
  · by_cases hp : checkPass pass = true
    · rw [SignUp_bound bc db user pass hu hp]
      by_cases hl : byteLen pass ≤ 72
      · have hgen : bc.GenerateFromPassword pass = some (bc.digest pass) := by
          simp [Bcrypt.GenerateFromPassword, hl]
        rw [hgen]
        dsimp only
        cases db.CreateUser { ID := 0, Username := user, Password := bc.digest pass } with
        | none => exact ⟨[], rfl, fun _ => rfl, fun _ _ h => by omega⟩
        | some db1 => exact ⟨[], rfl, fun _ => rfl, fun _ _ h => by omega⟩
      · have hgen : bc.GenerateFromPassword pass = none := by
          simp [Bcrypt.GenerateFromPassword]
          omega
        rw [hgen]
        exact ⟨_, rfl, fun h => absurd h hl, fun _ _ _ => rfl⟩
    · have hp2 : checkPass pass = false := by simpa using hp
      exact ⟨[], by simp [SignUp, hu, hp2], fun _ => rfl, fun _ h => absurd h hp⟩

/-- Counterexample to claim C15: with the logger at level `error`, registering
`testuser` with a password of 73 characters that meets the password rules
writes a log entry whose field `password` is that password; and with the
logger at level `debug`, two login requests that differ only in the password
leave different log output. -/
theorem handlers_log_plaintext_password :
    ({ level := ErrorLevel
       fields := [("password".toList, longPass)]
       message := "spa-api/handlers.SignUp() bcrypt hashing error:".toList } : LogEntry) ∈
        written ErrorLevel
          (SignUp toyBcrypt dbEmpty ⟨"testuser".toList, longPass, false⟩).2.2 ∧
      written DebugLevel (LogIn toyBcrypt dbOneUser ⟨"testuser".toList, goodPass, false⟩).2.2 ≠
        written DebugLevel
          (LogIn toyBcrypt dbOneUser ⟨"testuser".toList, longPass, false⟩).2.2 := by
  refine ⟨by decide, by decide⟩

/-- Claim C15, as amended. The user record `SignUp` stores holds the hash
`bcrypt.GenerateFromPassword` returned for the password, and that value is
different from the plaintext: bcrypt does not return a password as its own
hash, which is what is asked of the hash function here. So for the test's
password the stored value is not the password and verifies against it.
The handlers do give the password to the logger in plaintext: with the logger
at level `debug` or above, every request that binds makes `LogIn` and
`SignUp` write an entry with the password as a field; with the logger at
level `error` or above, so does every request that does not bind (with what
was bound) and every registration whose password fails to hash. With the
logger below level `debug`, a request that binds makes `LogIn` write nothing,
and `SignUp` write nothing when the password is at most 72 bytes long, so the
log output of two such requests is the same. -/
theorem signUp_stores_hash_and_handlers_log_password :
    (∀ (bc : Bcrypt) (db : DB) (c : Binding), (SignUp bc db c).1.status = StatusOK →
      ∃ id, (SignUp bc db c).2.1.users =
        db.users ++ [{ ID := id, Username := c.Username, Password := bc.digest c.Password }]) ∧
    (∀ (bc : Bcrypt) (db : DB) (c : Binding), (∀ p, bc.digest p ≠ p) →
      (SignUp bc db c).1.status = StatusOK →
      ∃ id hashedPass, (SignUp bc db c).2.1.users =
          db.users ++ [{ ID := id, Username := c.Username, Password := hashedPass }] ∧
        hashedPass = bc.digest c.Password ∧ hashedPass ≠ c.Password) ∧
    ((∀ p, toyBcrypt.digest p ≠ p) ∧
      (SignUp toyBcrypt dbEmpty ⟨"testuser".toList, goodPass, false⟩).1.status = StatusOK ∧
      ∃ hashedPass, (SignUp toyBcrypt dbEmpty ⟨"testuser".toList, goodPass, false⟩).2.1.users =
          [{ ID := 1, Username := "testuser".toList, Password := hashedPass }] ∧
        hashedPass ≠ goodPass ∧
        toyBcrypt.CompareHashAndPassword hashedPass goodPass = true) ∧
    (∀ (bc : Bcrypt) (db : DB) (c : Binding) (logLevel : Nat),
      DebugLevel ≤ logLevel → c.err = false →
      (∃ e ∈ written logLevel (LogIn bc db c).2.2, ("password".toList, c.Password) ∈ e.fields) ∧
      (∃ e ∈ written logLevel (SignUp bc db c).2.2,
        ("password".toList, c.Password) ∈ e.fields)) ∧
    (∀ (bc : Bcrypt) (db : DB) (c : Binding) (logLevel : Nat),
      ErrorLevel ≤ logLevel → c.err = true →
      (∃ e ∈ written logLevel (LogIn bc db c).2.2, ("password".toList, c.Password) ∈ e.fields) ∧
      (∃ e ∈ written logLevel (SignUp bc db c).2.2,
        ("password".toList, c.Password) ∈ e.fields)) ∧
    (∀ (bc : Bcrypt) (db : DB) (c : Binding) (logLevel : Nat),
      ErrorLevel ≤ logLevel → c.err = false → c.Username ≠ [] →
      checkPass c.Password = true → 72 < byteLen c.Password →
      ∃ e ∈ written logLevel (SignUp bc db c).2.2,
        ("password".toList, c.Password) ∈ e.fields) ∧
    (∀ (bc : Bcrypt) (db : DB) (c : Binding) (logLevel : Nat),
      logLevel < DebugLevel → c.err = false →
      written logLevel (LogIn bc db c).2.2 = [] ∧
      (byteLen c.Password ≤ 72 → written logLevel (SignUp bc db c).2.2 = [])) := by
  have hstore : ∀ (bc : Bcrypt) (db : DB) (c : Binding),
      (SignUp bc db c).1.status = StatusOK →
      ∃ id, (SignUp bc db c).2.1.users =
        db.users ++ [{ ID := id, Username := c.Username, Password := bc.digest c.Password }] := by
    intro bc db c h
    obtain ⟨user, pass, err⟩ := c
    cases err with
    | true => simp [SignUp, StatusBadRequest, StatusOK] at h
    | false =>
      by_cases hu : user = []
      · simp [SignUp, hu, StatusBadRequest, StatusOK] at h
      · by_cases hp : checkPass pass = true
        · rw [SignUp_bound bc db user pass hu hp] at h ⊢
          by_cases hl : byteLen pass ≤ 72
          · have hgen : bc.GenerateFromPassword pass = some (bc.digest pass) := by
              simp [Bcrypt.GenerateFromPassword, hl]
            rw [hgen] at h ⊢
            dsimp only at h ⊢
            cases hc : db.CreateUser { ID := 0, Username := user, Password := bc.digest pass } with
            | none =>
              rw [hc] at h
              simp [StatusConflict, StatusOK] at h
            | some db1 =>
              simp only [DB.CreateUser] at hc
              split at hc
              · cases hc
              · cases hc
                exact ⟨_, rfl⟩
          · have hgen : bc.GenerateFromPassword pass = none := by
              simp [Bcrypt.GenerateFromPassword]
              omega
            rw [hgen] at h
            simp [StatusInternalServerError, StatusOK] at h
        · have hp2 : checkPass pass = false := by simpa using hp
          simp [SignUp, hu, hp2, StatusBadRequest, StatusOK] at h
  have htoy : ∀ p, toyBcrypt.digest p ≠ p := by
    intro p h
    have := congrArg List.length h
    simp [toyBcrypt] at this
    omega
  refine ⟨hstore, ?_, ?_, ?_, ?_, ?_, ?_⟩
  · intro bc db c hne h
    obtain ⟨id, hid⟩ := hstore bc db c h
    exact ⟨id, bc.digest c.Password, hid, rfl, hne c.Password⟩
  · refine ⟨htoy, by decide, toyBcrypt.digest goodPass, by decide, htoy goodPass, by decide⟩
  · intro bc db c logLevel hl he
    obtain ⟨user, pass, err⟩ := c
    simp only at he
    subst he
    have hd : DebugLevel ≤ logLevel := hl
    constructor
    · refine ⟨{ level := DebugLevel
                fields := [("username".toList, user), ("password".toList, pass)]
                message := "spa-api/handlers.LogIn() login values:".toList }, ?_, by simp⟩
      have hlog : (LogIn bc db ⟨user, pass, false⟩).2.2 =
          [{ level := DebugLevel
             fields := [("username".toList, user), ("password".toList, pass)]
             message := "spa-api/handlers.LogIn() login values:".toList }] := by
        simp only [LogIn]
        cases db.FirstUser user with
        | none => rfl
        | some entry =>
          by_cases h : bc.CompareHashAndPassword entry.Password pass = true <;> simp [h]
      rw [hlog]
      simp [written, hd]
    · obtain ⟨tail, ht, _, _⟩ := SignUp_log_bound bc db user pass
      refine ⟨{ level := DebugLevel
                fields := [("username".toList, user), ("password".toList, pass)]
                message := "spa-api/handlers.SignUp() register data:".toList }, ?_, ?_⟩
      · rw [ht]
        simp only [written, List.filter_cons]
        simp only [hd, decide_True, if_true]
        exact List.mem_cons_self _ _
      · simp
  · intro bc db c logLevel hl he
    obtain ⟨user, pass, err⟩ := c
    simp only at he
    subst he
    have hd : ErrorLevel ≤ logLevel := hl
    constructor
    · refine ⟨{ level := ErrorLevel
                fields := [("username".toList, user), ("password".toList, pass)]
                message := "spa-api/handlers.LogIn() parsing error:".toList }, ?_, by simp⟩
      simp [LogIn, written, hd]
    · refine ⟨{ level := ErrorLevel
                fields := [("username".toList, user), ("password".toList, pass)]
                message := "spa-api/handlers.SignUp() parsing error:".toList }, ?_, by simp⟩
      simp [SignUp, written, hd]
  · intro bc db c logLevel hl he hu hp hlong
    obtain ⟨user, pass, err⟩ := c
    simp only at he hu hp hlong
    subst he
    have hd : ErrorLevel ≤ logLevel := hl
    obtain ⟨tail, ht, _, h3⟩ := SignUp_log_bound bc db user pass
    refine ⟨{ level := ErrorLevel
              fields := [("password".toList, pass)]
              message := "spa-api/handlers.SignUp() bcrypt hashing error:".toList }, ?_, by simp⟩
    rw [ht, h3 hu hp hlong]
    simp [written, hd]
  · intro bc db c logLevel hl he
    obtain ⟨user, pass, err⟩ := c
    simp only at he
    subst he
    have hd : ¬ DebugLevel ≤ logLevel := by omega
    constructor
    · have hlog : (LogIn bc db ⟨user, pass, false⟩).2.2 =
          [{ level := DebugLevel
             fields := [("username".toList, user), ("password".toList, pass)]
             message := "spa-api/handlers.LogIn() login values:".toList }] := by
        simp only [LogIn]
        cases db.FirstUser user with
        | none => rfl
        | some entry =>
          by_cases h : bc.CompareHashAndPassword entry.Password pass = true <;> simp [h]
      rw [hlog]
      simp [written, hd]
    · intro hlen
      obtain ⟨tail, ht, h2, _⟩ := SignUp_log_bound bc db user pass
      rw [ht, h2 hlen]
      simp [written, hd]

/-! ### Key files -/

theorem Stat_of_data (fs : FileSys) (p : GoString) (h : (fs.data p).isSome = true) :
    fs.Stat p ≠ StatResult.notExist := by
  unfold FileSys.Stat
  by_cases he : fs.statErr p = true
  · simp [he]
  · simp [he, h]

theorem Keys_present (env : KeyEnv) (fs : FileSys)
    (hpriv : (fs.data "keys/priv.pem".toList).isSome = true)
    (hpub : (fs.data "keys/pub.pem".toList).isSome = true) : Keys env fs = (fs, []) := by
  have h1 := Stat_of_data fs _ hpriv
  have h2 := Stat_of_data fs _ hpub
  unfold Keys
  cases hs1 : fs.Stat "keys/priv.pem".toList with
  | notExist => exact absurd hs1 h1
  | ok =>
    cases hs2 : fs.Stat "keys/pub.pem".toList with
    | notExist => exact absurd hs2 h2
    | ok => rfl
    | otherErr => rfl
  | otherErr =>
    cases hs2 : fs.Stat "keys/pub.pem".toList with
    | notExist => exact absurd hs2 h2
    | ok => rfl
    | otherErr => rfl

/-- Claim C17. Key generation is idempotent. In every filesystem state in
which both `keys/priv.pem` and `keys/pub.pem` exist, whatever key a
generation would draw, `Keys` makes no removing, generating or writing call
and leaves the filesystem as it is, both files with the bytes they had; a
second call right after it, again whatever it would draw, leaves what the
first call left. -/
theorem keys_keeps_existing_files (env env2 : KeyEnv) (fs : FileSys)
    (hpriv : (fs.data "keys/priv.pem".toList).isSome = true)
    (hpub : (fs.data "keys/pub.pem".toList).isSome = true) :
    Keys env fs = (fs, []) ∧
      (Keys env fs).1.data "keys/priv.pem".toList = fs.data "keys/priv.pem".toList ∧
      (Keys env fs).1.data "keys/pub.pem".toList = fs.data "keys/pub.pem".toList ∧
      Keys env2 (Keys env fs).1 = ((Keys env fs).1, []) := by
  have h := Keys_present env fs hpriv hpub
  refine ⟨h, by rw [h], by rw [h], ?_⟩
  rw [h]
  exact Keys_present env2 fs hpriv hpub

theorem keys_keeps_existing_files_witness :
    (fsBothKeys.data "keys/priv.pem".toList).isSome = true ∧
      (fsBothKeys.data "keys/pub.pem".toList).isSome = true ∧
      Keys keyEnv fsBothKeys = (fsBothKeys, []) ∧
      (Keys keyEnv fsBothKeys).1.data "keys/priv.pem".toList = some [1, 3] ∧
      (Keys keyEnv fsBothKeys).1.data "keys/pub.pem".toList = some [2, 3] ∧
      Keys keyEnv2 (Keys keyEnv fsBothKeys).1 = ((Keys keyEnv fsBothKeys).1, []) :=
  ⟨by decide, by decide,
    (keys_keeps_existing_files keyEnv keyEnv2 fsBothKeys (by decide) (by decide)).1,
    (keys_keeps_existing_files keyEnv keyEnv2 fsBothKeys (by decide) (by decide)).2.1,
    (keys_keeps_existing_files keyEnv keyEnv2 fsBothKeys (by decide) (by decide)).2.2.1,
    (keys_keeps_existing_files keyEnv keyEnv2 fsBothKeys (by decide) (by decide)).2.2.2⟩

theorem Remove_data (fs : FileSys) (removeErr : GoString → Bool) (name q : GoString)
    (hr : removeErr name = false) :
    ((fs.Remove removeErr name).getD fs).data q = if q = name then none else fs.data q := by
  unfold FileSys.Remove
  cases hd : fs.data name with
  | none =>
    by_cases hq : q = name
    · simp [hq, hd]
    · simp [hq]
  | some v => simp [hr]

theorem Remove_saveErr (fs : FileSys) (removeErr : GoString → Bool) (name : GoString) :
    ((fs.Remove removeErr name).getD fs).saveErr = fs.saveErr := by
  unfold FileSys.Remove
  by_cases h : ((fs.data name).isNone || removeErr name) = true
  · simp [h]
  · simp [h]

theorem WriteFile_data (fs : FileSys) (name q : GoString) (data : List Nat)
    (hw : fs.saveErr name = false) :
    ((fs.WriteFile name data).getD fs).data q = if q = name then some data else fs.data q := by
  simp [FileSys.WriteFile, hw]

theorem WriteFile_saveErr (fs : FileSys) (name : GoString) (data : List Nat) :
    ((fs.WriteFile name data).getD fs).saveErr = fs.saveErr := by
  unfold FileSys.WriteFile
  by_cases h : fs.saveErr name = true
  · simp [h]
  · simp [h]

/-- When a key file is missing and neither a removal nor a write fails,
`Keys` leaves the two halves of the key it drew, or no key file at all. -/
theorem Keys_without_failures (env : KeyEnv) (fs : FileSys)
    (hmiss : fs.Stat "keys/priv.pem".toList = StatResult.notExist ∨
      fs.Stat "keys/pub.pem".toList = StatResult.notExist)
    (hr1 : env.removeErr "keys/priv.pem".toList = false)
    (hr2 : env.removeErr "keys/pub.pem".toList = false)
    (hw1 : fs.saveErr "keys/priv.pem".toList = false)
    (hw2 : fs.saveErr "keys/pub.pem".toList = false) :
    (∃ k pub, env.GenerateKey = some k ∧ env.pubPEM k = some pub ∧
        (Keys env fs).1.data "keys/priv.pem".toList = some (env.privPEM k) ∧
        (Keys env fs).1.data "keys/pub.pem".toList = some pub) ∨
      ((Keys env fs).1.data "keys/priv.pem".toList = none ∧
        (Keys env fs).1.data "keys/pub.pem".toList = none) := by
  unfold Keys
  rw [if_neg]
  · cases hg : env.GenerateKey with
    | none =>
      right
      dsimp only
      rw [Remove_data _ _ _ _ hr2, Remove_data _ _ _ _ hr1, Remove_data _ _ _ _ hr2,
        Remove_data _ _ _ _ hr1]
      simp
    | some k =>
      dsimp only
      cases hp : env.pubPEM k with
      | none =>
        right
        dsimp only
        rw [Remove_data _ _ _ _ hr2, Remove_data _ _ _ _ hr1, Remove_data _ _ _ _ hr2,
          Remove_data _ _ _ _ hr1]
        simp
      | some pub =>
        left
        refine ⟨k, pub, rfl, hp, ?_, ?_⟩
        · dsimp only
          rw [WriteFile_data _ _ _ _
              (by rw [WriteFile_saveErr, Remove_saveErr, Remove_saveErr]; exact hw2),
            WriteFile_data _ _ _ _ (by rw [Remove_saveErr, Remove_saveErr]; exact hw1)]
          simp
        · dsimp only
          rw [WriteFile_data _ _ _ _
              (by rw [WriteFile_saveErr, Remove_saveErr, Remove_saveErr]; exact hw2)]
          simp
  · rcases hmiss with h | h
    · rw [h]
      cases fs.Stat "keys/pub.pem".toList <;> simp
    · rw [h]
      simp

/-- Claim C18. The key-pair invariant holds while no removal and no write
fails, and not beyond: `Keys` does not look at the results of `os.Remove` and
`os.WriteFile`. With no key file present and `keys/pub.pem` not writable,
`Keys` draws key 7, writes `keys/priv.pem` and returns with that file alone.
With `keys/priv.pem` alone present, its removal refused and key generation
failing, `Keys` returns with that one file still there. In every state with
a key file missing, when neither a removal nor a write fails, `Keys` leaves
both halves of the key it drew or no key file. -/
theorem keys_leaves_single_file_when_write_fails :
    (fsPubUnwritable.data "keys/priv.pem".toList = none ∧
      fsPubUnwritable.data "keys/pub.pem".toList = none ∧
      (Keys keyEnv fsPubUnwritable).1.data "keys/priv.pem".toList = some [1, 7] ∧
      (Keys keyEnv fsPubUnwritable).1.data "keys/pub.pem".toList = none) ∧
    ((Keys { keyEnv with GenerateKey := none, removeErr := fun _ => true }
          (FileSys.ofPaths ["keys/priv.pem".toList])).1.data "keys/priv.pem".toList = some [] ∧
      (Keys { keyEnv with GenerateKey := none, removeErr := fun _ => true }
          (FileSys.ofPaths ["keys/priv.pem".toList])).1.data "keys/pub.pem".toList = none) ∧
    (∀ (env : KeyEnv) (fs : FileSys),
      fs.Stat "keys/priv.pem".toList = StatResult.notExist ∨
        fs.Stat "keys/pub.pem".toList = StatResult.notExist →
      env.removeErr "keys/priv.pem".toList = false →
      env.removeErr "keys/pub.pem".toList = false →
      fs.saveErr "keys/priv.pem".toList = false →
      fs.saveErr "keys/pub.pem".toList = false →
      (∃ k pub, env.GenerateKey = some k ∧ env.pubPEM k = some pub ∧
          (Keys env fs).1.data "keys/priv.pem".toList = some (env.privPEM k) ∧
          (Keys env fs).1.data "keys/pub.pem".toList = some pub) ∨
        ((Keys env fs).1.data "keys/priv.pem".toList = none ∧
          (Keys env fs).1.data "keys/pub.pem".toList = none)) :=
  ⟨⟨by decide, by decide, by decide, by decide⟩, ⟨by decide, by decide⟩,
    Keys_without_failures⟩

/-! ### Deleting a file -/

/-- Claim C19. Deletion is ordered, but not all-or-nothing: `Delete` does
not look at the result of deleting the record, and answers nothing when the
bytes cannot be removed. User 1 deletes record 1, stored under
`upload/1/a.txt`. When the database refuses the deletion, the bytes are
removed, the record stays and the answer is 200. When no bytes are stored
under the path, the removal fails, nothing changes and no response is
written, which the client receives as status 200. In general the bytes are
removed before the record: whenever the removal fails, record and filesystem
are as before; and when it succeeds and the database deletes, the answer is
200 and neither the bytes nor a record with that id remain. -/
theorem delete_leaves_record_after_bytes_are_gone :
    ((Delete (fun _ => false) true 1 ⟨1, false⟩ fsOneFile dbOneFile).1 =
        some { status := StatusOK, message := [] } ∧
      (Delete (fun _ => false) true 1 ⟨1, false⟩ fsOneFile dbOneFile).2.1.data
        "upload/1/a.txt".toList = none ∧
      (Delete (fun _ => false) true 1 ⟨1, false⟩ fsOneFile dbOneFile).2.2 = dbOneFile) ∧
    ((Delete (fun _ => false) false 1 ⟨1, false⟩ (FileSys.ofPaths []) dbOneFile).1 = none ∧
      statusSent (Delete (fun _ => false) false 1 ⟨1, false⟩ (FileSys.ofPaths []) dbOneFile).1 =
        StatusOK ∧
      (Delete (fun _ => false) false 1 ⟨1, false⟩ (FileSys.ofPaths []) dbOneFile).2.2 =
        dbOneFile) ∧
    (∀ (removeErr : GoString → Bool) (deleteErr : Bool) (userID id : Nat) (fs : FileSys)
        (db : DB) (entry : File),
      db.FirstFile id userID = some entry → fs.Remove removeErr entry.Path = none →
      Delete removeErr deleteErr userID ⟨id, false⟩ fs db = (none, fs, db)) ∧
    (∀ (removeErr : GoString → Bool) (userID id : Nat) (fs : FileSys) (db : DB) (entry : File),
      db.FirstFile id userID = some entry → (fs.Remove removeErr entry.Path).isSome = true →
      (Delete removeErr false userID ⟨id, false⟩ fs db).1 =
          some { status := StatusOK, message := [] } ∧
        (Delete removeErr false userID ⟨id, false⟩ fs db).2.1.data entry.Path = none ∧
        ∀ f ∈ (Delete removeErr false userID ⟨id, false⟩ fs db).2.2.files, f.ID ≠ id) := by
  refine ⟨⟨by decide, by decide, by decide⟩, ⟨by decide, by decide, by decide⟩, ?_, ?_⟩
  · intro removeErr deleteErr userID id fs db entry hf hr
    simp [Delete, hf, hr]
  · intro removeErr userID id fs db entry hf hr
    have hid : entry.ID = id := by
      have := List.find?_some hf
      simp at this
      exact this.1
    cases hrem : fs.Remove removeErr entry.Path with
    | none => rw [hrem] at hr; cases hr
    | some fs1 =>
      have hdata : fs1.data entry.Path = none := by
        unfold FileSys.Remove at hrem
        split at hrem
        · cases hrem
        · cases hrem
          simp
      refine ⟨by simp [Delete, hf, hrem], by simp [Delete, hf, hrem, hdata], ?_⟩
      intro f hfm
      simp [Delete, hf, hrem, DB.Delete, hid] at hfm
      exact hfm.2

/-! ### Names that are not a component -/

theorem digitChar_ne_dot (k : Nat) (hk : k < 10) : Nat.digitChar k ≠ '.' := by
  interval_cases k <;> decide

theorem toDigitsCore_no_dot (fuel : Nat) : ∀ (n : Nat) (ds : List Char), '.' ∉ ds →
    '.' ∉ Nat.toDigitsCore 10 fuel n ds := by
  induction fuel with
  | zero => intro n ds h; simpa [Nat.toDigitsCore] using h
  | succ fuel ih =>
    intro n ds h
    have hd := digitChar_ne_dot (n % 10) (Nat.mod_lt _ (by norm_num))
    have hcons : '.' ∉ Nat.digitChar (n % 10) :: ds := by
      intro hm
      rcases List.mem_cons.mp hm with h1 | h1
      · exact hd h1.symm
      · exact h h1
    by_cases h0 : n / 10 = 0
    · simp only [Nat.toDigitsCore, h0, if_true]
      exact hcons
    · simp only [Nat.toDigitsCore, h0, if_false]
      exact ih _ _ hcons

theorem toDigitsCore_ne_nil (fuel : Nat) : ∀ (n : Nat) (ds : List Char), ds ≠ [] →
    Nat.toDigitsCore 10 fuel n ds ≠ [] := by
  induction fuel with
  | zero => intro n ds h; simpa [Nat.toDigitsCore] using h
  | succ fuel ih =>
    intro n ds h
    by_cases h0 : n / 10 = 0
    · simp [Nat.toDigitsCore, h0]
    · simp only [Nat.toDigitsCore, h0, if_false]
      exact ih _ _ (by simp)

theorem sprintD_plain (n : Nat) : Plain (sprintD n) := by
  have hdot : '.' ∉ sprintD n := toDigitsCore_no_dot _ _ _ (by simp)
  have hne : sprintD n ≠ [] := by
    unfold sprintD Nat.toDigits
    by_cases h0 : n / 10 = 0
    · simp [Nat.toDigitsCore, h0]
    · simp only [Nat.toDigitsCore, h0, if_false]
      exact toDigitsCore_ne_nil _ _ _ (by simp)
  refine ⟨sprintD_noSep n, hne, ?_, ?_⟩
  · intro h
    rw [h] at hdot
    simp at hdot
  · intro h
    rw [h] at hdot
    simp at hdot

/-- The directory of a user is `upload/` or `upload/test/` followed by the
digits of the user id, and a plain element joined to it is appended after a
separator. -/
theorem userDir_shape (testMode : Bool) (userID : Nat) :
    userDir testMode userID =
        (if testMode then "upload/test/".toList else "upload/".toList) ++ sprintD userID ∧
      cleanPrefix (userDir testMode userID) = userDir testMode userID ++ ['/'] := by
  have hp := sprintD_plain userID
  have h1 : cleanPrefix "./upload/".toList = "upload/".toList := by decide
  have h2 : cleanPrefix "./upload/test/".toList = "upload/test/".toList := by decide
  have hs1 : splitSep "upload".toList = ["upload".toList] := by decide
  have hs2 : splitSep "test".toList = ["test".toList] := by decide
  have hu : Plain "upload".toList := by
    refine ⟨?_, by decide, by decide, by decide⟩
    intro c hc
    revert c
    decide
  have ht : Plain "test".toList := by
    refine ⟨?_, by decide, by decide, by decide⟩
    intro c hc
    revert c
    decide
  cases testMode
  · have hd : userDir false userID = "upload/".toList ++ sprintD userID := by
      simp only [userDir, Bool.false_eq_true, if_false]
      rw [Join_plain _ _ hp, if_neg (by decide), h1]
    refine ⟨by simpa using hd, ?_⟩
    rw [hd]
    have hform : "upload/".toList ++ sprintD userID = "upload".toList ++ '/' :: sprintD userID := by
      simp
    rw [hform]
    have hk : keptBefore ("upload".toList ++ '/' :: sprintD userID) =
        [sprintD userID, "upload".toList] := by
      unfold keptBefore
      rw [splitSep_append_sep, hs1, splitSep_noSep _ hp.1]
      simp only [List.singleton_append, List.foldl_cons, List.foldl_nil]
      rw [cleanStep_plain _ _ _ hu, cleanStep_plain _ _ _ hp]
    have hr : rootedBefore ("upload".toList ++ '/' :: sprintD userID) = false := rfl
    unfold cleanPrefix
    rw [hk, hr]
    simp [stringsJoin]
  · have hd : userDir true userID = "upload/test/".toList ++ sprintD userID := by
      simp only [userDir, if_true]
      rw [Join_plain _ _ hp, if_neg (by decide), h2]
    refine ⟨by simpa using hd, ?_⟩
    rw [hd]
    have hform : "upload/test/".toList ++ sprintD userID =
        "upload".toList ++ '/' :: ("test".toList ++ '/' :: sprintD userID) := by
      simp
    rw [hform]
    have hk : keptBefore ("upload".toList ++ '/' :: ("test".toList ++ '/' :: sprintD userID)) =
        [sprintD userID, "test".toList, "upload".toList] := by
      unfold keptBefore
      rw [splitSep_append_sep, splitSep_append_sep, hs1, hs2, splitSep_noSep _ hp.1]
      simp only [List.singleton_append, List.foldl_cons, List.foldl_nil]
      rw [cleanStep_plain _ _ _ hu, cleanStep_plain _ _ _ ht, cleanStep_plain _ _ _ hp]
    have hr : rootedBefore ("upload".toList ++ '/' :: ("test".toList ++ '/' :: sprintD userID)) =
        false := rfl
    unfold cleanPrefix
    rw [hk, hr]
    simp [stringsJoin]

/-- A name whose base name is a plain element is stored in the directory of
the user, under a plain element. -/
theorem resolve_plain_inside (testMode : Bool) (userID : Nat) (fs : FileSys)
    (filename : GoString) (fuel : Nat) (path base : GoString)
    (hb : Plain (Base filename))
    (h : resolve fs (userDir testMode userID) filename fuel = some (path, base)) :
    path = userDir testMode userID ++ '/' :: base ∧ Plain base := by
  have hd := userDir_ne_nil testMode userID
  have hpath := (resolve_result fs _ filename hd fuel path base h).1
  have hplain : Plain base := by
    unfold resolve at h
    rcases probeLoop_result fs _ filename fuel _ _ _ _ _ h with ⟨_, h2⟩ | ⟨n, _, h2, h3⟩
    · rw [h2]; exact hb
    · rw [h3]
      exact numberedElem_plain filename n
  refine ⟨?_, hplain⟩
  rw [hpath, Join_plain _ _ hplain, if_neg hd, (userDir_shape testMode userID).2]
  simp

/-- Claim C20. Uploads do not stay inside the owner's directory for every
name: a name whose base name is `.`, `..` or `/` is joined as it is. User 1,
whose directory is `upload/1`, uploads one byte under the name `.` before
anything is stored: the path resolved is `upload/1`, the directory itself;
the record is created with that path, the byte is written to it and the
answer is 200. The empty name and the name `/` resolve to the same path, and
the name `..` resolves to `upload`, the parent of the directory. For every
other name, one whose base name is a plain element, the path resolved is the
directory of the user, a separator and one plain element. -/
theorem upload_of_dot_names_leaves_user_directory :
    userDir false 1 = "upload/1".toList ∧
    resolve (FileSys.ofPaths []) (userDir false 1) ".".toList 1 =
      some ("upload/1".toList, ".".toList) ∧
    (∃ r w, Upload 1 0 false 1 [{ Filename := ".".toList, Size := 1, content := [7] }]
        (FileSys.ofPaths []) dbEmpty = some (r, w) ∧
      r.status = StatusOK ∧
      w.db.files.map (fun f => f.Path) = ["upload/1".toList] ∧
      w.fs.data "upload/1".toList = some [7]) ∧
    resolve (FileSys.ofPaths []) (userDir false 1) [] 1 =
      some ("upload/1".toList, ".".toList) ∧
    resolve (FileSys.ofPaths []) (userDir false 1) "/".toList 1 =
      some ("upload/1".toList, "/".toList) ∧
    resolve (FileSys.ofPaths []) (userDir false 1) "..".toList 1 =
      some ("upload".toList, "..".toList) ∧
    (∀ (testMode : Bool) (userID : Nat) (fs : FileSys) (filename : GoString) (fuel : Nat)
        (path base : GoString),
      Plain (Base filename) →
      resolve fs (userDir testMode userID) filename fuel = some (path, base) →
      path = userDir testMode userID ++ '/' :: base ∧ Plain base) :=
  ⟨by decide, by decide, ⟨_, _, rfl, by decide, by decide, by decide⟩, by decide, by decide,
    by decide, resolve_plain_inside⟩
end WebStorage
